import Mathlib

/-!
# thai-qr-go: TLV codec, checksum, parser, validation and payload generators

A shallow embedding of `tlv.go`, `parser.go`, `emvco.go`, `internal/encoder.go` and
`generate/generate.go`, and of the Go library functions they call (`strconv.Atoi`,
`fmt.Sprintf` with the verbs used, `strings.ToUpper`, `utf8.RuneCountInString`, the regular
expression of the parser).

A Go `string` is a sequence of bytes: `len`, slicing and indexing count bytes.  It is
embedded as `List Nat`, a byte being given by its value (below 256).  Go's `int` is embedded
as `Int` (no length in this program comes near the 64-bit bounds).  A call that can end in a
run-time panic (a slice expression with bounds out of range) has the three-way result
`Outcome`.  Loops that advance through a string by a computed step carry a fuel argument,
started at the length of the string; every round consumes at least one byte.
-/

namespace ThaiQR

/-- The bytes of an ASCII literal. -/
def bytes (s : String) : List Nat := s.toList.map Char.toNat

/-- Result of a Go call: a value, a returned error, or a run-time panic. -/
inductive Outcome (ε α : Type) where
  | ok (a : α)
  | error (e : ε)
  | panic
  deriving DecidableEq, Repr

/-- Whether the call returned a value. -/
def Outcome.isOk {ε α : Type} : Outcome ε α → Bool
  | .ok _ => true
  | _ => false

/-- The three `fmt.Errorf` sites of `Decode` (the byte offsets they print are not carried). -/
inductive DecodeError where
  | incompleteHeader
  | invalidLength
  | incompleteValue
  deriving DecidableEq, Repr

/-- The `fmt.Errorf` sites of `Parse` (message texts are not carried). -/
inductive ParseError where
  | malformedHeader
  | tooShort
  | checksumMismatch
  | decodeFailed (e : DecodeError)
  | noTags
  deriving DecidableEq, Repr

/-- The Go struct `TLVTag` of tlv.go. -/
structure TLVTag where
  ID : List Nat
  Value : List Nat
  SubTags : List TLVTag
  Length : Int
  deriving Repr

/-! ## Library functions of Go used by the code -/

/-- ASCII decimal digit test: the regexp class `\d` and the digit test of `strconv.Atoi`. -/
def isDigit (b : Nat) : Bool := decide (48 ≤ b) && decide (b ≤ 57)

/-- The digit loop of `strconv.Atoi` (fast path): `n = n*10 + int(ch - 0x30)`, a syntax
error on any byte outside 0x30..0x39. -/
def atoiDigits : List Nat → Nat → Option Nat
  | [], n => some n
  | ch :: rest, n => if isDigit ch then atoiDigits rest (n * 10 + (ch - 48)) else none

/-- Go's `strconv.Atoi` on a short string (its fast path, the one every 2-byte length field
takes): an optional sign `+` (43) or `-` (45), then at least one digit, then only digits.
`none` is the syntax error. -/
def Atoi (s : List Nat) : Option Int :=
  match s with
  | [] => none
  | c :: rest =>
    let body := if c = 45 ∨ c = 43 then rest else s
    if body.isEmpty then none
    else
      match atoiDigits body 0 with
      | none => none
      | some n => some (if c = 45 then -(n : Int) else (n : Int))

/-- Decimal digits of a natural number as ASCII bytes. -/
def decimal (n : Nat) : List Nat := (Nat.toDigits 10 n).map Char.toNat

/-- Go's `fmt.Sprintf("%02d", n)`: at least two characters, zero padded; a negative number
prints its sign first, which counts towards the width. -/
def Sprintf02d (n : Int) : List Nat :=
  if n < 0 then 45 :: decimal n.natAbs
  else if n < 10 then 48 :: decimal n.toNat
  else decimal n.toNat

/-- Size and range of the second byte for a UTF-8 lead byte (the tables `first` and
`acceptRanges` of Go's unicode/utf8); `none` for a byte that cannot start a sequence. -/
def runeHeader (b0 : Nat) : Option (Nat × Nat × Nat) :=
  if 0xC2 ≤ b0 ∧ b0 ≤ 0xDF then some (2, 0x80, 0xBF)
  else if b0 = 0xE0 then some (3, 0xA0, 0xBF)
  else if b0 = 0xED then some (3, 0x80, 0x9F)
  else if 0xE1 ≤ b0 ∧ b0 ≤ 0xEF then some (3, 0x80, 0xBF)
  else if b0 = 0xF0 then some (4, 0x90, 0xBF)
  else if b0 = 0xF4 then some (4, 0x80, 0x8F)
  else if 0xF1 ≤ b0 ∧ b0 ≤ 0xF3 then some (4, 0x80, 0xBF)
  else none

/-- Continuation byte test 0x80..0xBF. -/
def isCont (b : Nat) : Bool := decide (0x80 ≤ b) && decide (b ≤ 0xBF)

/-- Number of bytes the first rune of a non-empty string occupies, as `utf8.DecodeRuneInString`
reports it: an ASCII byte, a well-formed multi-byte sequence, or 1 for an invalid byte. -/
def runeWidth (s : List Nat) : Nat :=
  match s with
  | [] => 0
  | b0 :: rest =>
    if b0 < 0x80 then 1
    else
      match runeHeader b0 with
      | none => 1
      | some (size, lo, hi) =>
        match rest with
        | [] => 1
        | b1 :: rest1 =>
          if ¬ (lo ≤ b1 ∧ b1 ≤ hi) then 1
          else if size = 2 then 2
          else
            match rest1 with
            | [] => 1
            | b2 :: rest2 =>
              if ¬ isCont b2 then 1
              else if size = 3 then 3
              else
                match rest2 with
                | [] => 1
                | b3 :: _ => if isCont b3 then 4 else 1

/-- Rune count of the string: `fuel` bounds the number of runes left. -/
def runeCountFrom : Nat → List Nat → Nat
  | 0, _ => 0
  | fuel + 1, s => if s.isEmpty then 0 else 1 + runeCountFrom fuel (s.drop (runeWidth s))

/-- Go's `utf8.RuneCountInString`. -/
def RuneCountInString (s : List Nat) : Nat := runeCountFrom s.length s

/-- Go's `fmt.Sprintf("%02s", s)`: left padding with the byte `0` up to a width of 2, the
width being counted in runes. -/
def Sprintf02s (s : List Nat) : List Nat :=
  List.replicate (2 - RuneCountInString s) 48 ++ s

/-- Upper-casing of one ASCII byte. -/
def toUpperByte (b : Nat) : Nat := if 97 ≤ b ∧ b ≤ 122 then b - 32 else b

/-- Lower-casing of one ASCII byte. -/
def toLowerByte (b : Nat) : Nat := if 65 ≤ b ∧ b ≤ 90 then b + 32 else b

/-- Go's `strings.ToUpper` on ASCII text. Bytes from 0x80 on are left as they are: Go maps
such runes to runes that are again outside the hexadecimal digits, and the program only
compares the result with a string of four hexadecimal digits. -/
def ToUpper (s : List Nat) : List Nat := s.map toUpperByte

/-- Go's `strings.ToLower` on ASCII text. -/
def ToLower (s : List Nat) : List Nat := s.map toLowerByte

/-- One lowercase hexadecimal digit. -/
def hexDigit (d : Nat) : Nat := if d < 10 then 48 + d else 87 + d

/-- Go's `fmt.Sprintf("%04x", crc)` for a `uint16`. -/
def Sprintf04x (crc : Nat) : List Nat :=
  [hexDigit (crc / 4096 % 16), hexDigit (crc / 256 % 16), hexDigit (crc / 16 % 16),
   hexDigit (crc % 16)]

/-- The regular expression `^\d{4}.+` of parser.go under `MatchString`: four ASCII digits
at the start, then at least one character, `.` matching every character but the line feed
(byte 10). Only the fifth byte decides the `.+` part. -/
def tlvPattern (s : List Nat) : Bool :=
  match s with
  | a :: b :: c :: d :: e :: _ => isDigit a && isDigit b && isDigit c && isDigit d && (e != 10)
  | _ => false

/-! ## internal/checksum.go -/

/-- Modelled from the spec: the body of `internal.CRC16XMODEM` (internal/checksum.go) is
missing. One of the 8 iterations per byte: if the top bit is set, shift left and XOR with
0x1021, else just shift left, masked to 16 bits. -/
def crcShift (r : Nat) : Nat :=
  if r &&& 0x8000 ≠ 0 then ((r <<< 1) ^^^ 0x1021) &&& 0xFFFF else (r <<< 1) &&& 0xFFFF

/-- Modelled from the spec: the body of `internal.CRC16XMODEM` is missing. One input
byte: XOR into the high byte of the 16-bit register, then 8 iterations of `crcShift`. -/
def crcByte (r : Nat) (b : Nat) : Nat :=
  crcShift (crcShift (crcShift (crcShift (crcShift (crcShift (crcShift (crcShift
    ((r ^^^ (b <<< 8)) &&& 0xFFFF))))))))

/-- Modelled from the spec: the body of `internal.CRC16XMODEM` is missing. CRC-16/XMODEM,
polynomial 0x1021, no reflection, initial value supplied by the caller. -/
def CRC16XMODEM (data : List Nat) (crc : Nat) : Nat :=
  data.foldl crcByte (crc &&& 0xFFFF)

/-! ## tlv.go -/

/-- The loop of `Decode`, `rest` being `payload[idx:]`. Each round consumes at least 4
bytes, so `fuel = len(rest)` is never used up before `rest` is empty. The slice
expression `payload[idx+4 : idx+4+length]` panics when `length` is negative. -/
def decodeFrom : Nat → List Nat → Outcome DecodeError (List TLVTag)
  | 0, _ => .ok []
  | fuel + 1, rest =>
    if rest.length = 0 then .ok []
    else if rest.length < 4 then .error .incompleteHeader
    else
      let id := rest.take 2
      let lengthStr := (rest.drop 2).take 2
      match Atoi lengthStr with
      | none => .error .invalidLength
      | some length =>
        if 4 + length > (rest.length : Int) then .error .incompleteValue
        else if length < 0 then .panic
        else
          let value := (rest.drop 4).take length.toNat
          match decodeFrom fuel (rest.drop (4 + length.toNat)) with
          | .ok tags => .ok (⟨id, value, [], length⟩ :: tags)
          | .error e => .error e
          | .panic => .panic

/-- The function `Decode` of tlv.go. -/
def Decode (payload : List Nat) : Outcome DecodeError (List TLVTag) :=
  decodeFrom payload.length payload

mutual
/-- The function `Encode` of tlv.go. -/
def Encode : List TLVTag → List Nat
  | [] => []
  | tag :: tags => encodeTag tag ++ Encode tags
/-- One round of the loop of `Encode`. -/
def encodeTag : TLVTag → List Nat
  | ⟨id, value, subTags, length⟩ =>
    id ++ Sprintf02d length ++ (if subTags.length > 0 then Encode subTags else value)
end

/-- The function `Checksum` of tlv.go. -/
def Checksum (payload : List Nat) (upperCase : Bool) : List Nat :=
  let sum := Sprintf04x (CRC16XMODEM payload 0xffff)
  if upperCase then ToUpper sum else ToLower sum

/-- The function `WithCRCTag` of tlv.go. -/
def WithCRCTag (payload crcTagID : List Nat) (upperCase : Bool) : List Nat :=
  let payload1 := payload ++ Sprintf02s crcTagID
  let payload2 := payload1 ++ bytes "04"
  payload2 ++ Checksum payload2 upperCase

/-- The function `Get` of tlv.go; `none` is the nil pointer. -/
def Get (tags : List TLVTag) (tagID subTagID : List Nat) : Option TLVTag :=
  match tags.find? (fun t => t.ID == tagID) with
  | none => none
  | some tag =>
    if subTagID ≠ [] then tag.SubTags.find? (fun t => t.ID == subTagID)
    else some tag

/-- The function `Tag` of tlv.go. -/
def Tag (tagID value : List Nat) : TLVTag :=
  ⟨tagID, value, [], (value.length : Int)⟩

/-! ## emvco.go and parser.go -/

/-- The Go struct `EMVCoQR` of emvco.go. -/
structure EMVCoQR where
  payload : List Nat
  tags : List TLVTag
  deriving Repr

/-- One round of the sub-tag loop of `Parse`; `none` is a panic of the nested `Decode`. -/
def expandTag (t : TLVTag) : Option TLVTag :=
  if t.Value.length ≥ 4 && tlvPattern t.Value then
    match Decode t.Value with
    | .panic => none
    | .error _ => some t
    | .ok sub =>
      let valid := sub.all (fun subTag => decide (subTag.Length = (subTag.Value.length : Int)))
      if valid && decide (sub.length > 0) then some { t with SubTags := sub } else some t
  else some t

/-- The sub-tag loop of `Parse` over all top-level tags; `none` is a panic. -/
def expandTags : List TLVTag → Option (List TLVTag)
  | [] => some []
  | t :: ts =>
    match expandTag t with
    | none => none
    | some t1 =>
      match expandTags ts with
      | none => none
      | some ts1 => some (t1 :: ts1)

/-- The function `Parse` of parser.go. -/
def Parse (payload : List Nat) (strict subTags : Bool) : Outcome ParseError EMVCoQR :=
  if ¬ tlvPattern payload then .error .malformedHeader
  else if strict ∧ payload.length < 4 then .error .tooShort
  else if strict ∧ ToUpper (payload.drop (payload.length - 4))
      ≠ Checksum (payload.take (payload.length - 4)) true then .error .checksumMismatch
  else
    match Decode payload with
    | .panic => .panic
    | .error e => .error (.decodeFailed e)
    | .ok tags =>
      if tags.length = 0 then .error .noTags
      else if subTags then
        match expandTags tags with
        | none => .panic
        | some tags1 => .ok ⟨payload, tags1⟩
      else .ok ⟨payload, tags⟩

/-- The method `GetTag` of emvco.go. -/
def EMVCoQR.GetTag (q : EMVCoQR) (tagID subTagID : List Nat) : Option TLVTag :=
  Get q.tags tagID subTagID

/-- The method `GetTagValue` of emvco.go. -/
def EMVCoQR.GetTagValue (q : EMVCoQR) (tagID subTagID : List Nat) : List Nat :=
  match q.GetTag tagID subTagID with
  | none => []
  | some tag => tag.Value

/-- The method `Validate` of emvco.go. -/
def EMVCoQR.Validate (q : EMVCoQR) (crcTagID : List Nat) : Bool :=
  let tagsWithoutCRC := q.tags.filter (fun tag => tag.ID != crcTagID)
  q.payload == WithCRCTag (Encode tagsWithoutCRC) crcTagID true


mutual
/-- Decidable equality of tags. -/
def TLVTag.decEq : (a b : TLVTag) → Decidable (a = b)
  | ⟨i1, v1, s1, l1⟩, ⟨i2, v2, s2, l2⟩ =>
    if h1 : i1 = i2 then
      if h2 : v1 = v2 then
        if h4 : l1 = l2 then
          match TLVTag.decEqList s1 s2 with
          | isTrue h3 => isTrue (by rw [h1, h2, h3, h4])
          | isFalse h3 => isFalse (fun h => h3 (by cases h; rfl))
        else isFalse (fun h => h4 (by cases h; rfl))
      else isFalse (fun h => h2 (by cases h; rfl))
    else isFalse (fun h => h1 (by cases h; rfl))
/-- Decidable equality of tag lists. -/
def TLVTag.decEqList : (a b : List TLVTag) → Decidable (a = b)
  | [], [] => isTrue rfl
  | [], _ :: _ => isFalse (fun h => List.noConfusion h)
  | _ :: _, [] => isFalse (fun h => List.noConfusion h)
  | a :: as, b :: bs =>
    match TLVTag.decEq a b with
    | isTrue h1 =>
      match TLVTag.decEqList as bs with
      | isTrue h2 => isTrue (by rw [h1, h2])
      | isFalse h2 => isFalse (fun h => h2 (by cases h; rfl))
    | isFalse h1 => isFalse (fun h => h1 (by cases h; rfl))
end

instance : DecidableEq TLVTag := TLVTag.decEq

instance : DecidableEq EMVCoQR := fun a b =>
  match a, b with
  | ⟨p1, t1⟩, ⟨p2, t2⟩ =>
    if h1 : p1 = p2 then
      if h2 : t1 = t2 then isTrue (by rw [h1, h2])
      else isFalse (fun h => h2 (by cases h; rfl))
    else isFalse (fun h => h1 (by cases h; rfl))

/-! ## internal/encoder.go -/

/-- The rune that `range` over a string yields at the start of a non-empty string
(`utf8.DecodeRuneInString`): an invalid byte yields U+FFFD. -/
def decodeRune (s : List Nat) : Nat :=
  match runeWidth s, s with
  | 1, b0 :: _ => if b0 < 0x80 then b0 else 0xFFFD
  | 2, b0 :: b1 :: _ => ((b0 &&& 0x1F) <<< 6) ||| (b1 &&& 0x3F)
  | 3, b0 :: b1 :: b2 :: _ =>
    ((b0 &&& 0x0F) <<< 12) ||| ((b1 &&& 0x3F) <<< 6) ||| (b2 &&& 0x3F)
  | 4, b0 :: b1 :: b2 :: b3 :: _ =>
    ((b0 &&& 0x07) <<< 18) ||| ((b1 &&& 0x3F) <<< 12) ||| ((b2 &&& 0x3F) <<< 6) ||| (b3 &&& 0x3F)
  | _, _ => 0xFFFD

/-- One uppercase hexadecimal digit. -/
def hexDigitUpper (d : Nat) : Nat := if d < 10 then 48 + d else 55 + d

/-- Go's `fmt.Sprintf("%04X", c)` for a rune `c` (at most 0x10FFFF): uppercase hexadecimal,
zero padded to at least 4 digits, 5 or 6 digits for a code point from 0x10000 on. -/
def Sprintf04X (c : Nat) : List Nat :=
  (if c < 0x100000 then [] else [hexDigitUpper (c / 0x100000 % 16)]) ++
  (if c < 0x10000 then [] else [hexDigitUpper (c / 0x10000 % 16)]) ++
  [hexDigitUpper (c / 4096 % 16), hexDigitUpper (c / 256 % 16), hexDigitUpper (c / 16 % 16),
   hexDigitUpper (c % 16)]

/-- The loop of `EncodeTag81` over the runes of the rest of the message. -/
def encodeTag81From : Nat → List Nat → List Nat
  | 0, _ => []
  | fuel + 1, s =>
    if s.isEmpty then []
    else Sprintf04X (decodeRune s) ++ encodeTag81From fuel (s.drop (runeWidth s))

/-- The function `EncodeTag81` of internal/encoder.go. -/
def EncodeTag81 (message : List Nat) : List Nat := encodeTag81From message.length message

/-! ## generate/generate.go

An amount (`*float64`) is carried as the text that `strconv.FormatFloat(amount, 'f', 2, 64)`
prints for it; the conversion itself is outside the embedding. -/

/-- The Go struct `InvalidConfigError`. -/
structure InvalidConfigError where
  Field : List Nat
  Value : List Nat
  deriving DecidableEq, Repr

instance {ε α : Type} [DecidableEq ε] [DecidableEq α] : DecidableEq (Except ε α) :=
  fun a b =>
    match a, b with
    | .ok x, .ok y =>
      if h : x = y then isTrue (by rw [h]) else isFalse (fun h2 => h (by cases h2; rfl))
    | .error x, .error y =>
      if h : x = y then isTrue (by rw [h]) else isFalse (fun h2 => h (by cases h2; rfl))
    | .ok _, .error _ => isFalse (fun h => by cases h)
    | .error _, .ok _ => isFalse (fun h => by cases h)

/-- The Go struct `AnyIDConfig`; `Typ` is the field `Type`. -/
structure AnyIDConfig where
  Typ : List Nat
  Target : List Nat
  Amount : Option (List Nat)

/-- Go's `strings.TrimPrefix(target, "0")`. -/
def trimPrefixZero (target : List Nat) : List Nat :=
  match target with
  | 48 :: rest => rest
  | _ => target

/-- The MSISDN branch of `AnyID`: one leading 0 removed, 66 prepended, zeros prepended while
shorter than 13 bytes, cut to the last 13 bytes when longer. -/
def msisdnTarget (target : List Nat) : List Nat :=
  let t1 := bytes "66" ++ trimPrefixZero target
  let t2 := List.replicate (13 - t1.length) 48 ++ t1
  if t2.length > 13 then t2.drop (t2.length - 13) else t2

/-- The switch on `config.Type` in `AnyID`; `none` is the default branch. -/
def proxyTypeValue (typ : List Nat) : Option (List Nat) :=
  if typ = bytes "MSISDN" then some (bytes "01")
  else if typ = bytes "NATID" then some (bytes "02")
  else if typ = bytes "EWALLETID" then some (bytes "03")
  else if typ = bytes "BANKACC" then some (bytes "04")
  else none

/-- The top-level tags shared by `AnyID`, `BillPayment` and `TrueMoney`: tag 00, tag 01
(12 with an amount, 11 without), the merchant tag, 53, 58 and tag 54 when there is an
amount. -/
def promptPayTags (merchantID merchantValue : List Nat) (amount : Option (List Nat)) :
    List TLVTag :=
  [Tag (bytes "00") (bytes "01"),
   (if amount.isSome then Tag (bytes "01") (bytes "12") else Tag (bytes "01") (bytes "11")),
   Tag merchantID merchantValue,
   Tag (bytes "53") (bytes "764"),
   Tag (bytes "58") (bytes "TH")] ++
  (match amount with
   | some amountStr => [Tag (bytes "54") amountStr]
   | none => [])

/-- The function `AnyID` of generate.go. -/
def AnyID (config : AnyIDConfig) : Except InvalidConfigError (List Nat) :=
  let target := if config.Typ = bytes "MSISDN" then msisdnTarget config.Target else config.Target
  match proxyTypeValue config.Typ with
  | none => .error ⟨bytes "Type", config.Typ⟩
  | some proxy =>
    let tag29 := Encode [Tag (bytes "00") (bytes "A000000677010111"), Tag proxy target]
    let payload := promptPayTags (bytes "29") tag29 config.Amount
    .ok (WithCRCTag (Encode payload) (bytes "63") true)

/-- The Go struct `BillPaymentConfig`. -/
structure BillPaymentConfig where
  BillerID : List Nat
  Amount : Option (List Nat)
  Ref1 : List Nat
  Ref2 : Option (List Nat)
  Ref3 : Option (List Nat)

/-- The function `BillPayment` of generate.go. -/
def BillPayment (config : BillPaymentConfig) : Except InvalidConfigError (List Nat) :=
  let tag30 := [Tag (bytes "00") (bytes "A000000677010112"), Tag (bytes "01") config.BillerID,
                Tag (bytes "02") config.Ref1] ++
    (match config.Ref2 with
     | some ref2 => [Tag (bytes "03") ref2]
     | none => [])
  let payload := promptPayTags (bytes "30") (Encode tag30) config.Amount ++
    (match config.Ref3 with
     | some ref3 => [Tag (bytes "62") (Encode [Tag (bytes "07") ref3])]
     | none => [])
  .ok (WithCRCTag (Encode payload) (bytes "63") true)

/-- The Go struct `TrueMoneyConfig`. -/
structure TrueMoneyConfig where
  MobileNo : List Nat
  Amount : Option (List Nat)
  Message : Option (List Nat)

/-- The function `TrueMoney` of generate.go. -/
def TrueMoney (config : TrueMoneyConfig) : Except InvalidConfigError (List Nat) :=
  let tag29 := Encode [Tag (bytes "00") (bytes "A000000677010111"),
                       Tag (bytes "03") (bytes "14000" ++ config.MobileNo)]
  let payload := promptPayTags (bytes "29") tag29 config.Amount ++
    (match config.Message with
     | some message => [Tag (bytes "81") (EncodeTag81 message)]
     | none => [])
  .ok (WithCRCTag (Encode payload) (bytes "63") true)

/-- The Go struct `SlipVerifyConfig`. -/
structure SlipVerifyConfig where
  SendingBank : List Nat
  TransRef : List Nat

/-- The function `SlipVerify` of generate.go. -/
def SlipVerify (config : SlipVerifyConfig) : Except InvalidConfigError (List Nat) :=
  let tag00 := Encode [Tag (bytes "00") (bytes "000001"), Tag (bytes "01") config.SendingBank,
                       Tag (bytes "02") config.TransRef]
  let payload := [Tag (bytes "00") tag00, Tag (bytes "51") (bytes "TH")]
  .ok (WithCRCTag (Encode payload) (bytes "91") true)

/-- The Go struct `TrueMoneySlipVerifyConfig`. -/
structure TrueMoneySlipVerifyConfig where
  EventType : List Nat
  TransactionID : List Nat
  Date : List Nat

/-- The function `TrueMoneySlipVerify` of generate.go. -/
def TrueMoneySlipVerify (config : TrueMoneySlipVerifyConfig) :
    Except InvalidConfigError (List Nat) :=
  let tag00 := Encode [Tag (bytes "00") (bytes "01"), Tag (bytes "01") (bytes "01"),
                       Tag (bytes "02") config.EventType, Tag (bytes "03") config.TransactionID,
                       Tag (bytes "04") config.Date]
  let payload := [Tag (bytes "00") tag00]
  .ok (WithCRCTag (Encode payload) (bytes "91") false)


/-- The 2-byte length fields that `Decode` has read in `s` when it returns `tags`: the
field of the first record sits at offset 2, the next record starts `4 + Length` bytes on. -/
def lengthFields : List Nat → List TLVTag → List (List Nat)
  | _, [] => []
  | s, t :: ts => (s.drop 2).take 2 :: lengthFields (s.drop (4 + t.Length.toNat)) ts

/-- Successful runs of the loop of `Decode`, record by record: the input is a sequence of
records `id ++ ls ++ v`, with a 2-byte `id`, a 2-byte length field `ls` that `Atoi` reads
as the non-negative `len`, and `len` bytes of value. -/
inductive Decodes : List Nat → List TLVTag → Prop
  | nil : Decodes [] []
  | cons (id ls v rest : List Nat) (len : Int) (tags : List TLVTag) :
      id.length = 2 → ls.length = 2 → Atoi ls = some len → 0 ≤ len →
      (v.length : Int) = len → Decodes rest tags →
      Decodes (id ++ ls ++ v ++ rest) (⟨id, v, [], len⟩ :: tags)

/-- A tag that the sub-tag pass of `Parse` leaves with its ID and with the same encoding
(the pass does not panic on it, and sub-tags it attaches encode to the value). -/
def Stable (t : TLVTag) : Prop :=
  ∃ t1, expandTag t = some t1 ∧ t1.ID = t.ID ∧ encodeTag t1 = encodeTag t

/-- A leaf tag as the generators build it with `Tag`: a 2-byte ID, no sub-tags, `Length`
equal to the byte length of `Value`, at most 99. -/
def LeafOK (t : TLVTag) : Prop :=
  t.ID.length = 2 ∧ t.SubTags = [] ∧ t.Length = (t.Value.length : Int) ∧ t.Value.length ≤ 99

/-- No byte of the text is a sign, `+` (43) or `-` (45). -/
def noSign (s : List Nat) : Prop := ∀ b ∈ s, b ≠ 43 ∧ b ≠ 45

instance (s : List Nat) : Decidable (noSign s) := by
  unfold noSign
  infer_instance

/-- The amount texts covered: at most 99 bytes and no sign after the first byte, as in
every text that `strconv.FormatFloat(amount, 'f', 2, 64)` prints (`12.50`, `-3.00`, `NaN`,
`+Inf`). -/
def amountFits (amount : Option (List Nat)) : Prop :=
  ∀ s, amount = some s → s.length ≤ 99 ∧ noSign (s.drop 1)

/-- Parsing followed by `Validate` on the result; `none` when `Parse` does not succeed. -/
def parseValidate (payload : List Nat) (strict subTags : Bool) (crcTagID : List Nat) :
    Option Bool :=
  match Parse payload strict subTags with
  | .ok q => some (q.Validate crcTagID)
  | _ => none

/-- The value `v` is a nested TLV stream with the records `sub`, in the sense of the
sub-tag pass of `Parse`: it begins with 4 ASCII decimal digits followed by at least one
more byte that is not a line feed, and it decodes to the non-empty sequence `sub`, in which
every declared length equals the byte length of the value. -/
def nestedStream (v : List Nat) (sub : List TLVTag) : Prop :=
  5 ≤ v.length ∧ (v.take 4).all isDigit = true ∧ v.getD 4 0 ≠ 10 ∧
    Decode v = .ok sub ∧ sub ≠ [] ∧ ∀ s ∈ sub, s.Length = (s.Value.length : Int)

/-- A 2-byte field of two ASCII decimal digits. -/
def twoDigitField (f : List Nat) : Bool :=
  match f with
  | [a, b] => isDigit a && isDigit b
  | _ => false

/-- A 2-byte field made of a sign, `+` or `-`, and one ASCII decimal digit. -/
def signedDigitField (f : List Nat) : Bool :=
  match f with
  | [a, b] => (a == 43 || a == 45) && isDigit b
  | _ => false

/-- The length that a 2-byte length field declares when it is two ASCII decimal digits
(tens, units), a `+` and one digit, or `-0`; `none` for every other field. -/
def declaredLength (f : List Nat) : Option Nat :=
  match f with
  | [a, b] =>
    if isDigit a && isDigit b then some ((a - 48) * 10 + (b - 48))
    else if a = 43 ∧ isDigit b = true then some (b - 48)
    else if a = 45 ∧ b = 48 then some 0
    else none
  | _ => none

/-- The function `BOTBarcodeToQR` of generate.go: `BillPayment` without reference 3. -/
def BOTBarcodeToQR (billerID ref1 : List Nat) (ref2 amount : Option (List Nat)) :
    Except InvalidConfigError (List Nat) :=
  BillPayment ⟨billerID, amount, ref1, ref2, none⟩

/-- The method `GetTags` of emvco.go. -/
def EMVCoQR.GetTags (q : EMVCoQR) : List TLVTag := q.tags

/-- The method `GetPayload` of emvco.go. -/
def EMVCoQR.GetPayload (q : EMVCoQR) : List Nat := q.payload

/-! ## validate/validate.go -/

/-- The Go struct `SlipVerifyData`. -/
structure SlipVerifyData where
  SendingBank : List Nat
  TransRef : List Nat
  deriving DecidableEq, Repr

/-- The Go struct `TrueMoneySlipVerifyData`. -/
structure TrueMoneySlipVerifyData where
  EventType : List Nat
  TransactionID : List Nat
  Date : List Nat
  deriving DecidableEq, Repr

/-- The errors that the functions of validate.go return: the error of `Parse`, handed on
as it is, and the two `errors.New` sites (incorrect API type, missing required fields). -/
inductive ValidateError where
  | parse (e : ParseError)
  | incorrectAPIType
  | missingFields
  deriving DecidableEq, Repr

/-- The function `SlipVerify` of validate.go. -/
def validate.SlipVerify (payload : List Nat) : Outcome ValidateError SlipVerifyData :=
  match Parse payload true true with
  | .panic => .panic
  | .error e => .error (.parse e)
  | .ok ppqr =>
    let apiType := ppqr.GetTagValue (bytes "00") (bytes "00")
    let sendingBank := ppqr.GetTagValue (bytes "00") (bytes "01")
    let transRef := ppqr.GetTagValue (bytes "00") (bytes "02")
    if apiType ≠ bytes "000001" ∨ sendingBank = [] ∨ transRef = [] then .error .missingFields
    else .ok ⟨sendingBank, transRef⟩

/-- The function `TrueMoneySlipVerify` of validate.go. -/
def validate.TrueMoneySlipVerify (payload : List Nat) :
    Outcome ValidateError TrueMoneySlipVerifyData :=
  match Parse payload true true with
  | .panic => .panic
  | .error e => .error (.parse e)
  | .ok ppqr =>
    let apiType00 := ppqr.GetTagValue (bytes "00") (bytes "00")
    let apiType01 := ppqr.GetTagValue (bytes "00") (bytes "01")
    let eventType := ppqr.GetTagValue (bytes "00") (bytes "02")
    let transactionID := ppqr.GetTagValue (bytes "00") (bytes "03")
    let date := ppqr.GetTagValue (bytes "00") (bytes "04")
    if apiType00 ≠ bytes "01" ∨ apiType01 ≠ bytes "01" then .error .incorrectAPIType
    else if eventType = [] ∨ transactionID = [] ∨ date = [] then .error .missingFields
    else .ok ⟨eventType, transactionID, date⟩

/-! ## barcode.go

The amount of a barcode is a `*float64`. In the struct and in `String` its type is left
abstract (`F`) and the one floating-point computation of `String`,
`int64(*b.Amount * 100)`, is a parameter; `BOTBarcodeFromString` and `minorUnits` below
take the float64 values of the section float64. -/

/-- The Go struct `BOTBarcode` of barcode.go, over the type `F` of the amounts. -/
structure BOTBarcode (F : Type) where
  BillerID : List Nat
  Ref1 : List Nat
  Ref2 : Option (List Nat)
  Amount : Option F

/-- Go's `strconv.FormatInt(n, 10)`. -/
def FormatInt (n : Int) : List Nat :=
  if n < 0 then 45 :: decimal n.natAbs else decimal n.toNat

/-- The method `String` of barcode.go; `minorUnits a` stands for `int64(a * 100)`. The
format `|%s\r%s\r%s\r%s` copies its four strings, with carriage returns (13) between. -/
def BOTBarcode.String {F : Type} (minorUnits : F → Int) (b : BOTBarcode F) : List Nat :=
  let amountStr :=
    match b.Amount with
    | some amount => FormatInt (minorUnits amount)
    | none => bytes "0"
  let ref2 :=
    match b.Ref2 with
    | some r => r
    | none => []
  bytes "|" ++ b.BillerID ++ [13] ++ b.Ref1 ++ [13] ++ ref2 ++ [13] ++ amountStr

deriving instance DecidableEq for BOTBarcode

/-- Go's `strings.Split(s, sep)` for a separator of one byte: the fields between the
separators, one more than there are separators (an empty string gives one empty field). -/
def Split (s : List Nat) (sep : Nat) : List (List Nat) :=
  match s with
  | [] => [[]]
  | b :: rest =>
    if b = sep then [] :: Split rest sep
    else
      match Split rest sep with
      | [] => [[b]]
      | f :: fs => (b :: f) :: fs

/-- Go's `strconv.ParseInt(s, 10, 64)`: an optional sign `+` (43) or `-` (45), at least one
digit, only digits (no underscore in base 10), and a value from -2^63 to 2^63 - 1; `none`
is the error (syntax or range). -/
def ParseInt (s : List Nat) : Option Int :=
  match s with
  | [] => none
  | c :: rest =>
    let body := if c = 45 ∨ c = 43 then rest else s
    if body.isEmpty then none
    else
      match atoiDigits body 0 with
      | none => none
      | some un =>
        if c = 45 then (if un > 2 ^ 63 then none else some (-(un : Int)))
        else (if un ≥ 2 ^ 63 then none else some (un : Int))

/-! ### float64

The amounts of barcode.go are float64 values. A finite float64 is written `mant * 2 ^ exp`
with a mantissa of 53 bits (`2 ^ 52 ≤ |mant| < 2 ^ 53`), zero is `0 * 2 ^ 0`. Every
operation of IEEE 754 returns the exact result rounded to the nearest such value, ties to
the even mantissa. The exponent is not bounded here: the values of barcode.go are zero or of
magnitude between `2 ^ -7` and `2 ^ 64`, where float64 has neither subnormals nor overflow.
Negative zero, infinities and NaN are not represented. -/

/-- A finite float64 value, `mant * 2 ^ exp`. -/
structure Float64 where
  mant : Int
  exp : Int
  deriving DecidableEq, Repr

/-- The position of the highest set bit of `n` (0 for `n < 2`), by halving at most `fuel`
times; `fuel = n` is always enough. -/
def floorLog2 : Nat → Nat → Nat
  | 0, _ => 0
  | fuel + 1, n => if n < 2 then 0 else floorLog2 fuel (n / 2) + 1

/-- The float64 nearest to the rational `num / den` (`den > 0`), ties to even: the exponent
`e` is chosen so that the quotient by `2 ^ e` has 53 bits, the quotient is rounded on its
remainder, and a mantissa that rounds up to `2 ^ 53` is renormalised. -/
def Float64.round (num : Int) (den : Nat) : Float64 :=
  if num = 0 ∨ den = 0 then ⟨0, 0⟩
  else
    let a := num.natAbs
    let e0 : Int := (floorLog2 a a : Int) - (floorLog2 den den : Int) - 52
    let e : Int :=
      if (a * 2 ^ (-e0).toNat) / (den * 2 ^ e0.toNat) < 2 ^ 52 then e0 - 1 else e0
    let n := a * 2 ^ (-e).toNat
    let d := den * 2 ^ e.toNat
    let q := n / d
    let r := n % d
    let q1 := if 2 * r > d ∨ (2 * r = d ∧ q % 2 = 1) then q + 1 else q
    let m : Nat := if q1 = 2 ^ 53 then 2 ^ 52 else q1
    let e1 : Int := if q1 = 2 ^ 53 then e + 1 else e
    ⟨if num < 0 then -(m : Int) else (m : Int), e1⟩

/-- The conversion `float64(n)` of an integer. -/
def Float64.ofInt (n : Int) : Float64 := Float64.round n 1

/-- The float64 product `x * y`. -/
def Float64.mul (x y : Float64) : Float64 :=
  let e := x.exp + y.exp
  Float64.round (x.mant * y.mant * 2 ^ e.toNat) (2 ^ (-e).toNat)

/-- The float64 quotient `x / y` for `y` other than zero. -/
def Float64.div (x y : Float64) : Float64 :=
  let e := x.exp - y.exp
  Float64.round ((if y.mant < 0 then -x.mant else x.mant) * 2 ^ e.toNat)
    (y.mant.natAbs * 2 ^ (-e).toNat)

/-- The conversion `int64(x)`: the fraction is discarded (truncation towards zero). For a
value outside the range of int64 Go leaves the result to the implementation; the value
taken here is the one amd64 gives, `-2 ^ 63`. -/
def Float64.toInt64 (x : Float64) : Int :=
  let t := Int.tdiv (x.mant * 2 ^ x.exp.toNat) (2 ^ (-x.exp).toNat)
  if -2 ^ 63 ≤ t ∧ t < 2 ^ 63 then t else -2 ^ 63

/-- The expression `int64(*b.Amount * 100)` of the method `String`. -/
def minorUnits (amount : Float64) : Int :=
  Float64.toInt64 (Float64.mul amount (Float64.ofInt 100))

/-- The errors of `BOTBarcodeFromString`: no leading `|`, a number of fields other than 4,
an amount that `ParseInt` rejects. -/
inductive BarcodeError
  | noPrefix
  | fieldCount (n : Nat)
  | invalidAmount
  deriving DecidableEq, Repr

/-- The function `BOTBarcodeFromString` of barcode.go. -/
def BOTBarcodeFromString (payload : List Nat) : Except BarcodeError (BOTBarcode Float64) :=
  if ¬ (bytes "|").isPrefixOf payload then .error .noPrefix
  else
    let data := Split (payload.drop 1) 13
    if data.length ≠ 4 then .error (.fieldCount data.length)
    else
      let billerID := data.getD 0 []
      let ref1 := data.getD 1 []
      let ref2 := data.getD 2 []
      let amountStr := data.getD 3 []
      let ref2Ptr := if ref2.length > 0 then some ref2 else none
      if amountStr ≠ bytes "0" then
        match ParseInt amountStr with
        | none => .error .invalidAmount
        | some amountInt =>
          let amount := Float64.div (Float64.ofInt amountInt) (Float64.ofInt 100)
          let amount1 := Float64.div
            (Float64.ofInt (Float64.toInt64 (Float64.mul amount (Float64.ofInt 100))))
            (Float64.ofInt 100)
          .ok ⟨billerID, ref1, ref2Ptr, some amount1⟩
      else .ok ⟨billerID, ref1, ref2Ptr, none⟩

/-- The function `ParseBarcode` of parser.go. -/
def ParseBarcode (payload : List Nat) : Except BarcodeError (BOTBarcode Float64) :=
  BOTBarcodeFromString payload

/-- The number that a string of ASCII decimal digits writes, most significant digit
first. -/
def digitsValue (digits : List Nat) : Nat :=
  Nat.ofDigits 10 (digits.reverse.map (fun d => d - 48))

/-- The text `s` writes the base-10 integer `n` of 64 bits: an optional sign `+` (43) or
`-` (45), then at least one ASCII decimal digit and nothing else, the digits giving the
magnitude of `n`, and `n` from -2^63 to 2^63 - 1. -/
def int64Text (s : List Nat) (n : Int) : Prop :=
  ∃ sign digits, s = sign ++ digits ∧ (sign = [] ∨ sign = [43] ∨ sign = [45]) ∧
    digits ≠ [] ∧ (∀ d ∈ digits, 48 ≤ d ∧ d ≤ 57) ∧
    n = (if sign = [45] then -(digitsValue digits : Int) else (digitsValue digits : Int)) ∧
    -2 ^ 63 ≤ n ∧ n < 2 ^ 63

/-! # Theorems -/

theorem isOk_iff {ε α : Type} (o : Outcome ε α) : o.isOk = true ↔ ∃ a, o = .ok a := by
  cases o <;> simp [Outcome.isOk]

theorem sprintf02d_facts (n : Nat) (h : n ≤ 99) :
    (Sprintf02d (n : Int)).length = 2 ∧ (Sprintf02d (n : Int)).all isDigit = true ∧
      Atoi (Sprintf02d (n : Int)) = some (n : Int) := by
  have key : ∀ m < 100, (Sprintf02d ((m : Nat) : Int)).length = 2 ∧
      (Sprintf02d ((m : Nat) : Int)).all isDigit = true ∧
      Atoi (Sprintf02d ((m : Nat) : Int)) = some (m : Int) := by decide
  exact key n (by omega)

theorem decodeFrom_cons (fuel : Nat) (id ls v rest : List Nat) (len : Int)
    (hid : id.length = 2) (hls : ls.length = 2) (hat : Atoi ls = some len) (h0 : 0 ≤ len)
    (hv : (v.length : Int) = len) :
    decodeFrom (fuel + 1) (id ++ ls ++ v ++ rest) =
      match decodeFrom fuel rest with
      | .ok tags => .ok (⟨id, v, [], len⟩ :: tags)
      | .error e => .error e
      | .panic => .panic := by
  have hlen : len.toNat = v.length := by omega
  have e1 : (id ++ ls ++ v ++ rest).take 2 = id := by
    rw [List.append_assoc, List.append_assoc]; exact List.take_left' hid
  have e2 : ((id ++ ls ++ v ++ rest).drop 2).take 2 = ls := by
    rw [List.append_assoc, List.append_assoc, List.drop_left' hid]
    exact List.take_left' hls
  have e3 : (id ++ ls ++ v ++ rest).drop 4 = v ++ rest := by
    rw [List.append_assoc]
    exact List.drop_left' (by simp [hid, hls])
  have e4 : (id ++ ls ++ v ++ rest).drop (4 + len.toNat) = rest := by
    exact List.drop_left' (by simp [hid, hls, hlen]; omega)
  have e5 : (v ++ rest).take len.toNat = v := List.take_left' hlen.symm
  have l1 : (id ++ ls ++ v ++ rest).length = 4 + v.length + rest.length := by
    simp [hid, hls]; omega
  rw [decodeFrom]
  have c1 : ¬ ((id ++ ls ++ v ++ rest).length = 0) := by omega
  have c2 : ¬ ((id ++ ls ++ v ++ rest).length < 4) := by omega
  have c3 : ¬ (4 + len > (((id ++ ls ++ v ++ rest).length : Nat) : Int)) := by
    rw [l1]; push_cast; omega
  have c4 : ¬ (len < 0) := by omega
  simp only [c1, c2, if_false, e1, e2, hat, c3, c4, e3, e4, e5]

theorem decodeFrom_of_decodes {s : List Nat} {tags : List TLVTag} (h : Decodes s tags) :
    ∀ fuel, s.length ≤ fuel → decodeFrom fuel s = .ok tags := by
  induction h with
  | nil => intro fuel _; cases fuel <;> simp [decodeFrom]
  | cons id ls v rest len tags hid hls hat h0 hv _ ih =>
    intro fuel hf
    have l1 : (id ++ ls ++ v ++ rest).length = 4 + v.length + rest.length := by
      simp [hid, hls]; omega
    obtain ⟨f, rfl⟩ : ∃ f, fuel = f + 1 := ⟨fuel - 1, by omega⟩
    rw [decodeFrom_cons f id ls v rest len hid hls hat h0 hv, ih f (by omega)]

theorem split_record (s : List Nat) (n : Nat) (h : 4 + n ≤ s.length) :
    s = s.take 2 ++ (s.drop 2).take 2 ++ (s.drop 4).take n ++ s.drop (4 + n) ∧
      (s.take 2).length = 2 ∧ ((s.drop 2).take 2).length = 2 ∧ ((s.drop 4).take n).length = n := by
  refine ⟨?_, ?_, ?_, ?_⟩
  · have a1 : s = s.take 2 ++ s.drop 2 := (List.take_append_drop 2 s).symm
    have a2 : s.drop 2 = (s.drop 2).take 2 ++ (s.drop 2).drop 2 :=
      (List.take_append_drop 2 _).symm
    have a3 : (s.drop 2).drop 2 = s.drop 4 := by rw [List.drop_drop]
    have a4 : s.drop 4 = (s.drop 4).take n ++ (s.drop 4).drop n :=
      (List.take_append_drop n _).symm
    have a5 : (s.drop 4).drop n = s.drop (4 + n) := by rw [List.drop_drop, Nat.add_comm]
    rw [List.append_assoc, List.append_assoc, ← a5, ← a4, ← a3, ← a2, ← a1]
  · simp; omega
  · simp; omega
  · simp; omega

theorem decodes_of_decodeFrom : ∀ (fuel : Nat) (s : List Nat) (tags : List TLVTag),
    s.length ≤ fuel → decodeFrom fuel s = .ok tags → Decodes s tags := by
  intro fuel
  induction fuel with
  | zero =>
    intro s tags hs h
    have hs0 : s = [] := List.length_eq_zero.mp (by omega)
    subst hs0
    simp [decodeFrom] at h
    subst h
    exact Decodes.nil
  | succ f ih =>
    intro s tags hs h
    rw [decodeFrom] at h
    by_cases c1 : s.length = 0
    · have hs0 : s = [] := List.length_eq_zero.mp c1
      subst hs0
      simp at h
      subst h
      exact Decodes.nil
    · by_cases c2 : s.length < 4
      · simp [c1, c2] at h
      · simp only [c1, c2, if_false] at h
        cases hat : Atoi ((s.drop 2).take 2) with
        | none => simp [hat] at h
        | some len =>
          simp only [hat] at h
          by_cases c3 : 4 + len > (s.length : Int)
          · simp [c3] at h
          · by_cases c4 : len < 0
            · simp [c3, c4] at h
            · simp only [c3, c4, if_false] at h
              have hn : 4 + len.toNat ≤ s.length := by omega
              obtain ⟨e, l2, l3, l4⟩ := split_record s len.toNat hn
              cases hrec : decodeFrom f (s.drop (4 + len.toNat)) with
              | error e => simp [hrec] at h
              | panic => simp [hrec] at h
              | ok tags1 =>
                simp only [hrec, Outcome.ok.injEq] at h
                have hd := ih (s.drop (4 + len.toNat)) tags1 (by simp; omega) hrec
                rw [e, ← h]
                exact Decodes.cons _ _ _ _ len tags1 l2 l3 hat (by omega) (by rw [l4]; omega) hd

theorem decodeFrom_fuel : ∀ (f1 f2 : Nat) (s : List Nat), s.length ≤ f1 → s.length ≤ f2 →
    decodeFrom f1 s = decodeFrom f2 s := by
  intro f1
  induction f1 with
  | zero =>
    intro f2 s h1 _
    have hs : s = [] := List.length_eq_zero.mp (by omega)
    subst hs
    cases f2 <;> simp [decodeFrom]
  | succ f ih =>
    intro f2 s h1 h2
    cases f2 with
    | zero =>
      have hs : s = [] := List.length_eq_zero.mp (by omega)
      subst hs
      simp [decodeFrom]
    | succ g =>
      rw [decodeFrom, decodeFrom]
      by_cases c1 : s.length = 0
      · simp [c1]
      · by_cases c2 : s.length < 4
        · simp [c1, c2]
        · simp only [c1, c2, if_false]
          cases Atoi ((s.drop 2).take 2) with
          | none => rfl
          | some len =>
            simp only
            by_cases c3 : 4 + len > (s.length : Int)
            · simp [c3]
            · by_cases c4 : len < 0
              · simp [c3, c4]
              · simp only [c3, c4, if_false]
                rw [ih g (s.drop (4 + len.toNat)) (by simp; omega) (by simp; omega)]

/-- The fuel of `Decode` is enough: more fuel gives the same result. -/
theorem decode_fuel (s : List Nat) (f : Nat) (h : s.length ≤ f) :
    decodeFrom f s = Decode s :=
  decodeFrom_fuel f s.length s h (Nat.le_refl _)

theorem decode_iff (s : List Nat) (tags : List TLVTag) :
    Decode s = .ok tags ↔ Decodes s tags :=
  ⟨decodes_of_decodeFrom s.length s tags (Nat.le_refl _),
   fun h => decodeFrom_of_decodes h s.length (Nat.le_refl _)⟩

theorem encode_nil : Encode [] = [] := by simp [Encode]

theorem encode_cons (t : TLVTag) (ts : List TLVTag) :
    Encode (t :: ts) = encodeTag t ++ Encode ts := by simp [Encode]

theorem encode_append (xs ys : List TLVTag) : Encode (xs ++ ys) = Encode xs ++ Encode ys := by
  induction xs with
  | nil => simp [encode_nil]
  | cons x xs ih => simp [encode_cons, ih]

theorem encodeTag_leaf (id v : List Nat) (len : Int) :
    encodeTag ⟨id, v, [], len⟩ = id ++ Sprintf02d len ++ v := by simp [encodeTag]

theorem decodes_encode_leaf (tags : List TLVTag)
    (h : ∀ t ∈ tags, t.ID.length = 2 ∧ t.SubTags = [] ∧ t.Length = (t.Value.length : Int) ∧
      t.Value.length ≤ 99) : Decodes (Encode tags) tags := by
  induction tags with
  | nil => rw [encode_nil]; exact Decodes.nil
  | cons t ts ih =>
    obtain ⟨id, v, subs, len⟩ := t
    obtain ⟨hid, hsub, hlen, h99⟩ := h _ (List.mem_cons_self _ _)
    simp only at hid hsub hlen h99
    subst hsub
    subst hlen
    obtain ⟨f1, _, f3⟩ := sprintf02d_facts v.length h99
    rw [encode_cons, encodeTag_leaf]
    exact Decodes.cons id _ v _ _ ts hid f1 f3 (by omega) rfl
      (ih (fun t ht => h t (List.mem_cons_of_mem _ ht)))

/-- C1: for every list of leaf tags with 2-byte IDs and `Length` equal to the byte length
of `Value` (at most 99), `Decode (Encode tags)` succeeds and returns exactly `tags`; and
`Decode "000411110104222202043333"` gives the tags 00/1111, 01/2222, 02/3333. -/
theorem C1_decode_encode_roundtrip (tags : List TLVTag)
    (h : ∀ t ∈ tags, t.ID.length = 2 ∧ t.SubTags = [] ∧ t.Length = (t.Value.length : Int) ∧
      t.Value.length ≤ 99) :
    Decode (Encode tags) = .ok tags ∧
    Decode (bytes "000411110104222202043333") =
      .ok [⟨bytes "00", bytes "1111", [], 4⟩, ⟨bytes "01", bytes "2222", [], 4⟩,
           ⟨bytes "02", bytes "3333", [], 4⟩] :=
  ⟨(decode_iff _ _).mpr (decodes_encode_leaf tags h), by decide!⟩

theorem C1_witness :
    Decode (Encode [⟨bytes "29", bytes "A-1+x", [], 5⟩, ⟨bytes "zz", [], [], 0⟩]) =
      .ok [⟨bytes "29", bytes "A-1+x", [], 5⟩, ⟨bytes "zz", [], [], 0⟩] :=
  (C1_decode_encode_roundtrip [⟨bytes "29", bytes "A-1+x", [], 5⟩, ⟨bytes "zz", [], [], 0⟩]
    (by decide)).1

theorem atoi_two (a b : Nat) : Atoi [a, b] =
    if a = 45 then (if isDigit b then some (-((b - 48 : Nat) : Int)) else none)
    else if a = 43 then (if isDigit b then some ((b - 48 : Nat) : Int) else none)
    else if isDigit a ∧ isDigit b then some (((a - 48) * 10 + (b - 48) : Nat) : Int)
    else none := by
  by_cases h45 : a = 45
  · subst h45
    by_cases hb : isDigit b = true <;> simp [Atoi, atoiDigits, hb]
  · by_cases h43 : a = 43
    · subst h43
      by_cases hb : isDigit b = true <;> simp [Atoi, atoiDigits, hb]
    · by_cases ha : isDigit a = true <;> by_cases hb : isDigit b = true <;>
        simp [Atoi, atoiDigits, ha, hb, h45, h43]

theorem atoi_two_bound (ls : List Nat) (len : Int) (hls : ls.length = 2)
    (hat : Atoi ls = some len) : -9 ≤ len ∧ len ≤ 99 := by
  match ls, hls with
  | [a, b], _ =>
    rw [atoi_two] at hat
    simp only [isDigit, Bool.and_eq_true, decide_eq_true_eq] at hat
    split at hat
    · split at hat
      · simp at hat; omega
      · simp at hat
    · split at hat
      · split at hat
        · simp at hat; omega
        · simp at hat
      · split at hat
        · simp at hat; omega
        · simp at hat

theorem atoi_two_digits (ls : List Nat) (len : Int) (hls : ls.length = 2)
    (hd : ls.all isDigit = true) (hat : Atoi ls = some len) : Sprintf02d len = ls := by
  match ls, hls with
  | [a, b], _ =>
    have key : ∀ x < 10, ∀ y < 10, ∀ l : Int, Atoi [48 + x, 48 + y] = some l →
        Sprintf02d l = [48 + x, 48 + y] := by
      intro x hx y hy l hl
      have k2 : ∀ x < 10, ∀ y < 10,
          (Atoi [48 + x, 48 + y]).map Sprintf02d = some [48 + x, 48 + y] := by decide
      have := k2 x hx y hy
      rw [hl] at this
      simpa using this
    simp only [List.all_cons, List.all_nil, Bool.and_true, Bool.and_eq_true, isDigit,
      decide_eq_true_eq] at hd
    have ea : a = 48 + (a - 48) := by omega
    have eb : b = 48 + (b - 48) := by omega
    rw [ea, eb] at hat ⊢
    exact key (a - 48) (by omega) (b - 48) (by omega) len hat

theorem lengthFields_cons (id ls v rest : List Nat) (len : Int) (tags : List TLVTag)
    (hid : id.length = 2) (hls : ls.length = 2) (h0 : 0 ≤ len) (hv : (v.length : Int) = len) :
    lengthFields (id ++ ls ++ v ++ rest) (⟨id, v, [], len⟩ :: tags) =
      ls :: lengthFields rest tags := by
  have hlen : len.toNat = v.length := by omega
  have e2 : ((id ++ ls ++ v ++ rest).drop 2).take 2 = ls := by
    rw [List.append_assoc, List.append_assoc, List.drop_left' hid]
    exact List.take_left' hls
  have e4 : (id ++ ls ++ v ++ rest).drop (4 + len.toNat) = rest := by
    exact List.drop_left' (by simp [hid, hls, hlen]; omega)
  simp only [lengthFields, e2, e4]

theorem encode_decodes_iff {s : List Nat} {tags : List TLVTag} (h : Decodes s tags) :
    Encode tags = s ↔ ∀ f ∈ lengthFields s tags, f.all isDigit = true := by
  induction h with
  | nil => simp [encode_nil, lengthFields]
  | cons id ls v rest len tags hid hls hat h0 hv _ ih =>
    rw [lengthFields_cons id ls v rest len tags hid hls h0 hv, encode_cons, encodeTag_leaf]
    have hb := atoi_two_bound ls len hls hat
    have hf := sprintf02d_facts len.toNat (by omega)
    have hcast : ((len.toNat : Nat) : Int) = len := by omega
    rw [hcast] at hf
    constructor
    · intro heq
      have h1 : (id ++ Sprintf02d len ++ v).length = (id ++ ls ++ v).length := by
        simp [hid, hls, hf.1]
      obtain ⟨h2, h3⟩ := List.append_inj heq h1
      have h4 : (id ++ Sprintf02d len).length = (id ++ ls).length := by simp [hls, hf.1]
      obtain ⟨h5, _⟩ := List.append_inj h2 h4
      have h6 : Sprintf02d len = ls := List.append_cancel_left h5
      intro f hfm
      rcases List.mem_cons.mp hfm with hfm | hfm
      · rw [hfm, ← h6]; exact hf.2.1
      · exact (ih.mp h3) f hfm
    · intro hall
      have h6 : Sprintf02d len = ls :=
        atoi_two_digits ls len hls (hall ls (List.mem_cons_self _ _)) hat
      rw [h6, ih.mpr (fun f hfm => hall f (List.mem_cons_of_mem _ hfm))]

/-- C2 (counterexample): `Decode "00+0"` succeeds, the length field `+0` being read as 0,
and `Encode` of the result is `"0000"`, not the input. -/
theorem C2_counterexample :
    ∃ tags, Decode (bytes "00+0") = .ok tags ∧ Encode tags ≠ bytes "00+0" :=
  ⟨[⟨bytes "00", [], [], 0⟩], by decide, by decide⟩

/-- C2 (amended): for every string `s` on which `Decode` succeeds, `Encode (Decode s)`
equals `s` byte for byte exactly when every 2-byte length field of `s` is two ASCII decimal
digits, that is when none is written with a sign (`+5`, `-0`). -/
theorem C2_encode_decode_iff_unsigned (s : List Nat) (tags : List TLVTag)
    (h : Decode s = .ok tags) :
    Encode tags = s ↔ ∀ f ∈ lengthFields s tags, f.all isDigit = true :=
  encode_decodes_iff ((decode_iff s tags).mp h)

theorem C2_witness :
    Encode [⟨bytes "00", bytes "1111", [], 4⟩, ⟨bytes "01", bytes "2222", [], 4⟩] =
      bytes "0004111101042222" :=
  (C2_encode_decode_iff_unsigned (bytes "0004111101042222")
    [⟨bytes "00", bytes "1111", [], 4⟩, ⟨bytes "01", bytes "2222", [], 4⟩]
    (by decide)).mpr (by decide)

/-- C3 (the code at the failing inputs): on a length field `-1` the slice expression
`payload[idx+4 : idx+3]` panics; `Decode` aborts, and so does `Parse`, both on a top-level
record and on a nested one reached by the sub-tag pass. -/
theorem C3_decode_panics_on_negative_length :
    Decode (bytes "00-1") = .panic ∧
    Parse (bytes "000000-1") false false = .panic ∧
    Parse (bytes "0008000000-1") false true = .panic := by
  decide

theorem tlvPattern_iff (p : List Nat) :
    tlvPattern p = true ↔
      5 ≤ p.length ∧ (p.take 4).all isDigit = true ∧ p.getD 4 0 ≠ 10 := by
  rcases p with _ | ⟨a, _ | ⟨b, _ | ⟨c, _ | ⟨d, _ | ⟨e, r⟩⟩⟩⟩⟩ <;>
    simp [tlvPattern, and_assoc]

theorem tlvPattern_length (p : List Nat) (h : tlvPattern p = true) : 5 ≤ p.length :=
  ((tlvPattern_iff p).mp h).1

theorem parse_strict (p : List Nat) (e : Bool) :
    Parse p true e =
      if tlvPattern p = true then
        if ToUpper (p.drop (p.length - 4)) = Checksum (p.take (p.length - 4)) true then
          Parse p false e
        else .error .checksumMismatch
      else .error .malformedHeader := by
  by_cases hp : tlvPattern p = true
  · have hl := tlvPattern_length p hp
    have hl2 : ¬ p.length < 4 := by omega
    by_cases hc : ToUpper (p.drop (p.length - 4)) = Checksum (p.take (p.length - 4)) true
    · simp [Parse, hp, hl2, hc]
    · simp [Parse, hp, hl2, hc]
  · simp [Parse, hp]

/-- C6: for every payload `p` and sub-tag flag `e`, `Parse p true e` succeeds iff
`Parse p false e` succeeds and the uppercased last 4 bytes of `p` equal
`Checksum (p without its last 4 bytes) true`; when both succeed they return the same
tags. -/
theorem C6_strict_iff_lenient_and_checksum (p : List Nat) (e : Bool) :
    ((∃ q, Parse p true e = .ok q) ↔
      ((∃ q, Parse p false e = .ok q) ∧
        ToUpper (p.drop (p.length - 4)) = Checksum (p.take (p.length - 4)) true)) ∧
    (∀ q1 q2, Parse p true e = .ok q1 → Parse p false e = .ok q2 → q1.tags = q2.tags) := by
  rw [parse_strict]
  by_cases hp : tlvPattern p = true
  · by_cases hc : ToUpper (p.drop (p.length - 4)) = Checksum (p.take (p.length - 4)) true
    · simp only [hp, hc, if_true, and_true, true_and]
      intro q1 q2 h1 h2
      rw [h1] at h2
      cases h2
      rfl
    · simp [hp, hc]
  · have hm : Parse p false e = .error .malformedHeader := by simp [Parse, hp]
    simp [hp, hm]

theorem C6_witness :
    ∃ q, Parse (bytes
      "00020101021229370016A0000006770101110113006680111111153037645802TH540520.15630442BE")
      true true = .ok q :=
  (C6_strict_iff_lenient_and_checksum (bytes
      "00020101021229370016A0000006770101110113006680111111153037645802TH540520.15630442BE")
      true).1.mpr ⟨(isOk_iff _).mp (by decide!), by decide!⟩

/-- C10 (counterexample): `"0000"` begins with 4 ASCII decimal digits and is rejected with
the malformed-header error, and so is `"0000\n0101"`, whose fifth byte is a line feed. -/
theorem C10_counterexample :
    ((bytes "0000").take 4).all isDigit = true ∧
    Parse (bytes "0000") false false = .error .malformedHeader ∧
    Parse (bytes "0000\n0101") false false = .error .malformedHeader := by
  decide

/-- C10 (amended): `Parse` fails with the malformed-header error exactly when the payload
does not begin with 4 ASCII decimal digits followed by at least one more byte that is not
a line feed (the pattern is `^\d{4}.+`). -/
theorem C10_malformed_header_iff (p : List Nat) (strict subTags : Bool) :
    Parse p strict subTags = .error .malformedHeader ↔
      ¬ (5 ≤ p.length ∧ (p.take 4).all isDigit = true ∧ p.getD 4 0 ≠ 10) := by
  rw [← tlvPattern_iff]
  by_cases hp : tlvPattern p = true
  · simp only [hp, not_true_eq_false, iff_false]
    have hl := tlvPattern_length p hp
    have hl2 : ¬ p.length < 4 := by omega
    unfold Parse
    simp only [hp, not_true_eq_false, if_false, hl2, and_false]
    split
    · simp
    · split <;> try simp
      split <;> try simp
      split
      · split <;> simp
      · simp
  · simp [Parse, hp]

theorem checksum_length (p : List Nat) (u : Bool) : (Checksum p u).length = 4 := by
  unfold Checksum
  cases u <;> simp [ToUpper, ToLower, Sprintf04x]

theorem sprintf02s_of_two_runes (t : List Nat) (h : RuneCountInString t = 2) :
    Sprintf02s t = t := by
  simp [Sprintf02s, h]

theorem withCRCTag_eq (p t : List Nat) (u : Bool) (h : RuneCountInString t = 2) :
    WithCRCTag p t u = p ++ t ++ bytes "04" ++ Checksum (p ++ t ++ bytes "04") u := by
  simp only [WithCRCTag, sprintf02s_of_two_runes t h]

/-- C7 (counterexample): with the 2-character ID `éé` (bytes C3 A9 C3 A9) the result is
10 bytes longer than the payload, not 8; and the 2-byte ID `é` (bytes C3 A9), one single
character for `%02s`, is padded, so the result is not `p ++ t ++ "04" ++ checksum`. -/
theorem C7_counterexample :
    (RuneCountInString [0xC3, 0xA9, 0xC3, 0xA9] = 2 ∧
      (WithCRCTag (bytes "000201") [0xC3, 0xA9, 0xC3, 0xA9] true).length
        = (bytes "000201").length + 10) ∧
    (([0xC3, 0xA9] : List Nat).length = 2 ∧
      WithCRCTag (bytes "000201") [0xC3, 0xA9] true ≠
        bytes "000201" ++ [0xC3, 0xA9] ++ bytes "04" ++
          Checksum (bytes "000201" ++ [0xC3, 0xA9] ++ bytes "04") true) := by
  decide!

/-- C7 (amended): for every payload `p` and every crcTagID `t` of 2 characters as
`%02s` counts them (runes), `WithCRCTag p t u = p ++ t ++ "04" ++ Checksum (p ++ t ++ "04") u`,
the checksum covering the appended ID and length field; the result is `len t + 6` bytes
longer than `p`, which is exactly 8 bytes when `t` occupies 2 bytes, as every ASCII ID
does. -/
theorem C7_withCRCTag_two_characters (p t : List Nat) (u : Bool)
    (h : RuneCountInString t = 2) :
    WithCRCTag p t u = p ++ t ++ bytes "04" ++ Checksum (p ++ t ++ bytes "04") u ∧
    (WithCRCTag p t u).length = p.length + t.length + 6 ∧
    (t.length = 2 → (WithCRCTag p t u).length = p.length + 8) := by
  rw [withCRCTag_eq p t u h]
  have hl : (p ++ t ++ bytes "04" ++ Checksum (p ++ t ++ bytes "04") u).length
      = p.length + t.length + 6 := by
    simp [checksum_length, bytes]
    omega
  exact ⟨rfl, hl, fun h2 => by rw [hl, h2]⟩

theorem C7_witness :
    WithCRCTag (bytes "000201") (bytes "63") true =
      bytes "000201" ++ bytes "63" ++ bytes "04" ++
        Checksum (bytes "000201" ++ bytes "63" ++ bytes "04") true :=
  (C7_withCRCTag_two_characters (bytes "000201") (bytes "63") true (by decide)).1

/-- C8: `Parse` of the reference payload with `strict = true` and sub-tag expansion
succeeds, `GetTagValue "29" "01"` is `"0066801111111"` and `Validate "63"` is true; with
the last hexadecimal digit `E` replaced by any other hexadecimal digit (either case) strict
`Parse` rejects the payload, with the checksum-mismatch error. -/
theorem C8_reference_payload :
    (∃ q, Parse (bytes
        "00020101021229370016A0000006770101110113006680111111153037645802TH540520.15630442BE")
        true true = .ok q ∧
      q.GetTagValue (bytes "29") (bytes "01") = bytes "0066801111111" ∧
      q.Validate (bytes "63") = true) ∧
    (∀ c ∈ bytes "0123456789ABCDFabcdf", Parse (bytes
        "00020101021229370016A0000006770101110113006680111111153037645802TH540520.15630442B"
        ++ [c]) true true = .error .checksumMismatch) := by
  refine ⟨⟨⟨bytes
      "00020101021229370016A0000006770101110113006680111111153037645802TH540520.15630442BE",
    [Tag (bytes "00") (bytes "01"), Tag (bytes "01") (bytes "12"),
     ⟨bytes "29", bytes "0016A00000067701011101130066801111111",
      [Tag (bytes "00") (bytes "A000000677010111"), Tag (bytes "01") (bytes "0066801111111")],
      37⟩,
     Tag (bytes "53") (bytes "764"), Tag (bytes "58") (bytes "TH"),
     Tag (bytes "54") (bytes "20.15"), Tag (bytes "63") (bytes "42BE")]⟩, ?_, ?_, ?_⟩, ?_⟩
  · decide!
  · decide!
  · decide!
  · decide!

theorem C8_witness :
    Parse (bytes
      "00020101021229370016A0000006770101110113006680111111153037645802TH540520.15630442B"
      ++ [70]) true true = .error .checksumMismatch :=
  C8_reference_payload.2 70 (by decide)

theorem decodes_leaf {s : List Nat} {tags : List TLVTag} (h : Decodes s tags) :
    ∀ t ∈ tags, t.ID.length = 2 ∧ t.SubTags = [] ∧ t.Length = (t.Value.length : Int) ∧
      t.Value.length ≤ 99 := by
  induction h with
  | nil => intro t ht; cases ht
  | cons id ls v rest len tags hid hls hat h0 hv _ ih =>
    intro t ht
    rcases List.mem_cons.mp ht with ht | ht
    · subst ht
      have hb := atoi_two_bound ls len hls hat
      exact ⟨hid, rfl, hv.symm, by simp only; omega⟩
    · exact ih t ht

theorem decodes_encode_length {s : List Nat} {tags : List TLVTag} (h : Decodes s tags) :
    (Encode tags).length = s.length := by
  induction h with
  | nil => simp [encode_nil]
  | cons id ls v rest len tags hid hls hat h0 hv _ ih =>
    have hb := atoi_two_bound ls len hls hat
    have hf := sprintf02d_facts len.toNat (by omega)
    have hcast : ((len.toNat : Nat) : Int) = len := by omega
    rw [hcast] at hf
    rw [encode_cons, encodeTag_leaf]
    simp [hid, hls, hf.1, ih]

theorem expandTag_cases (t t1 : TLVTag) (h : expandTag t = some t1) :
    t1 = t ∨ (∃ sub, Decodes t.Value sub ∧ sub ≠ [] ∧ t1 = { t with SubTags := sub }) := by
  unfold expandTag at h
  split at h
  · cases hd : Decode t.Value with
    | panic => simp [hd] at h
    | error e => simp [hd] at h; exact Or.inl h.symm
    | ok sub =>
      simp only [hd] at h
      split at h
      · rename_i hc
        right
        refine ⟨sub, (decode_iff _ _).mp hd, ?_, ?_⟩
        · intro hnil
          simp [hnil] at hc
        · simpa using h.symm
      · simp at h; exact Or.inl h.symm
  · simp at h; exact Or.inl h.symm

theorem expandTag_encode_length (t t1 : TLVTag) (hs : t.SubTags = [])
    (h : expandTag t = some t1) :
    t1.ID = t.ID ∧ (encodeTag t1).length = (encodeTag t).length := by
  rcases expandTag_cases t t1 h with h1 | ⟨sub, hd, hne, h1⟩
  · subst h1; exact ⟨rfl, rfl⟩
  · subst h1
    obtain ⟨id, v, subs, len⟩ := t
    simp only at hs hd
    subst hs
    refine ⟨rfl, ?_⟩
    have hl := decodes_encode_length hd
    have hpos : sub.length > 0 := List.length_pos.mpr hne
    simp [encodeTag, hpos, hl]

theorem expandTags_encode_length : ∀ (ts ts1 : List TLVTag),
    (∀ t ∈ ts, t.SubTags = []) → expandTags ts = some ts1 →
    (Encode ts1).length = (Encode ts).length ∧ ts1.map TLVTag.ID = ts.map TLVTag.ID := by
  intro ts
  induction ts with
  | nil =>
    intro ts1 _ h
    simp [expandTags] at h
    subst h
    exact ⟨rfl, rfl⟩
  | cons t ts ih =>
    intro ts1 hs h
    rw [expandTags] at h
    cases h1 : expandTag t with
    | none => simp [h1] at h
    | some t1 =>
      cases h2 : expandTags ts with
      | none => simp [h1, h2] at h
      | some ts2 =>
        simp [h1, h2] at h
        subst h
        obtain ⟨e1, e2⟩ := expandTag_encode_length t t1 (hs t (List.mem_cons_self _ _)) h1
        obtain ⟨e3, e4⟩ := ih ts2 (fun x hx => hs x (List.mem_cons_of_mem _ hx)) h2
        simp [encode_cons, e1, e2, e3, e4]

theorem parse_ok_inv (p : List Nat) (strict e : Bool) (q : EMVCoQR)
    (h : Parse p strict e = .ok q) :
    tlvPattern p = true ∧ q.payload = p ∧
      ∃ tags, Decodes p tags ∧ tags ≠ [] ∧
        ((e = false ∧ q.tags = tags) ∨ (e = true ∧ expandTags tags = some q.tags)) := by
  have hl : Parse p false e = .ok q := by
    cases strict
    · exact h
    · rw [parse_strict] at h
      split at h
      · split at h
        · exact h
        · simp at h
      · simp at h
  clear h
  unfold Parse at hl
  by_cases hp : tlvPattern p = true
  · simp only [hp, not_true_eq_false, if_false, Bool.false_eq_true, false_and] at hl
    cases hd : Decode p with
    | panic => simp [hd] at hl
    | error e => simp [hd] at hl
    | ok tags =>
      simp only [hd] at hl
      have hdec := (decode_iff _ _).mp hd
      by_cases hn : tags.length = 0
      · simp [hn] at hl
      · have hne : tags ≠ [] := fun h0 => hn (by rw [h0]; rfl)
        simp only [hn, if_false] at hl
        cases e
        · simp at hl
          subst hl
          exact ⟨hp, rfl, tags, hdec, hne, Or.inl ⟨rfl, rfl⟩⟩
        · simp only [if_true] at hl
          cases he : expandTags tags with
          | none => simp [he] at hl
          | some tags1 =>
            simp [he] at hl
            subst hl
            exact ⟨hp, rfl, tags, hdec, hne, Or.inr ⟨rfl, he⟩⟩
  · simp [hp] at hl

theorem parse_encode_length (p : List Nat) (strict e : Bool) (q : EMVCoQR)
    (h : Parse p strict e = .ok q) : (Encode q.tags).length = p.length := by
  obtain ⟨_, _, tags, hd, _, hq | hq⟩ := parse_ok_inv p strict e q h
  · rw [hq.2]; exact decodes_encode_length hd
  · have := expandTags_encode_length tags q.tags (fun t ht => (decodes_leaf hd t ht).2.1) hq.2
    rw [this.1]; exact decodes_encode_length hd

/-- C9: for every successfully parsed payload and every crcTagID that is the ID of no
top-level tag, `Validate crcTagID` returns false. -/
theorem C9_validate_absent_id (p : List Nat) (strict e : Bool) (q : EMVCoQR)
    (crcTagID : List Nat) (h : Parse p strict e = .ok q)
    (hc : ∀ t ∈ q.tags, t.ID ≠ crcTagID) : q.Validate crcTagID = false := by
  have hlen := parse_encode_length p strict e q h
  have hpay := (parse_ok_inv p strict e q h).2.1
  have hfil : q.tags.filter (fun tag => tag.ID != crcTagID) = q.tags := by
    apply List.filter_eq_self.mpr
    intro t ht
    simpa using hc t ht
  unfold EMVCoQR.Validate
  simp only [hfil, hpay]
  apply beq_eq_false_iff_ne.mpr
  intro heq
  have hl := congrArg List.length heq
  simp [WithCRCTag, checksum_length, hlen, bytes] at hl

theorem C9_witness :
    EMVCoQR.Validate ⟨bytes "000411110104222202043333",
      [Tag (bytes "00") (bytes "1111"), Tag (bytes "01") (bytes "2222"),
       Tag (bytes "02") (bytes "3333")]⟩ (bytes "99") = false :=
  C9_validate_absent_id (bytes "000411110104222202043333") false true _ (bytes "99")
    (by decide!) (by decide)

theorem parse_strict_ok (p : List Nat) (e : Bool) (h : (Parse p true e).isOk = true) :
    tlvPattern p = true ∧
      ToUpper (p.drop (p.length - 4)) = Checksum (p.take (p.length - 4)) true := by
  rw [parse_strict] at h
  by_cases hp : tlvPattern p = true
  · by_cases hc : ToUpper (p.drop (p.length - 4)) = Checksum (p.take (p.length - 4)) true
    · exact ⟨hp, hc⟩
    · simp [hp, hc, Outcome.isOk] at h
  · simp [hp, Outcome.isOk] at h

theorem toUpper_suffix_set_ne (p : List Nat) (i c : Nat) (hi1 : p.length - 4 ≤ i)
    (hi2 : i < p.length) (hc : toUpperByte c ≠ toUpperByte (p.getD i 0)) :
    ToUpper ((p.set i c).drop (p.length - 4)) ≠ ToUpper (p.drop (p.length - 4)) := by
  intro h
  have h2 := congrArg (fun l => l[i - (p.length - 4)]?) h
  have e1 : p.length - 4 + (i - (p.length - 4)) = i := by omega
  simp only [ToUpper, List.getElem?_map, List.getElem?_drop, e1, List.getElem?_set, if_true,
    hi2] at h2
  rw [List.getElem?_eq_getElem hi2] at h2
  simp only [Option.map_some', Option.some.injEq] at h2
  apply hc
  rw [h2, List.getD_eq_getElem?_getD, List.getElem?_eq_getElem hi2]
  rfl

theorem tlvPattern_set (p : List Nat) (i c : Nat) (hi : 5 ≤ i) :
    tlvPattern (p.set i c) = tlvPattern p := by
  have h1 : (tlvPattern (p.set i c) = true) ↔ (tlvPattern p = true) := by
    rw [tlvPattern_iff, tlvPattern_iff, List.length_set,
      List.take_set_of_lt c p (by omega : 4 < i)]
    simp only [List.getD_eq_getElem?_getD]
    rw [List.getElem?_set_ne (by omega : i ≠ 4)]
  cases h2 : tlvPattern p
  · cases h3 : tlvPattern (p.set i c)
    · rfl
    · rw [h1.mp h3] at h2; cases h2
  · exact h1.mpr h2

/-- C5 (counterexample): the reference payload ending in `42BE` is accepted by strict
`Parse`, and so is the payload obtained by replacing its `B` by the different character
`b`; and in the strictly accepted 8-byte payload `00041ECE`, replacing the first checksum
character by a line feed yields the malformed-header error, not a checksum mismatch. -/
theorem C5_counterexample :
    ((Parse (bytes
        "00020101021229370016A0000006770101110113006680111111153037645802TH540520.15630442BE")
        true true).isOk = true ∧
      (bytes
        "00020101021229370016A0000006770101110113006680111111153037645802TH540520.15630442BE").set
        81 98 =
        bytes
        "00020101021229370016A0000006770101110113006680111111153037645802TH540520.15630442bE" ∧
      (Parse (bytes
        "00020101021229370016A0000006770101110113006680111111153037645802TH540520.15630442bE")
        true true).isOk = true) ∧
    ((Parse (bytes "00041ECE") true true).isOk = true ∧
      Parse ((bytes "00041ECE").set 4 10) true true = .error .malformedHeader) := by
  decide!

/-- C5 (amended): for every payload `p` accepted by `Parse` with `strict = true`,
replacing one of its last 4 bytes by a byte that differs from it in more than letter case
yields a payload that strict `Parse` rejects: with the checksum-mismatch error whenever
the new payload still passes the header pattern, which is always so when `p` has at least
9 bytes, and with the malformed-header error otherwise. -/
theorem C5_checksum_suffix_mutation (p : List Nat) (e : Bool) (i c : Nat)
    (hok : (Parse p true e).isOk = true) (hi1 : p.length - 4 ≤ i) (hi2 : i < p.length)
    (hc : toUpperByte c ≠ toUpperByte (p.getD i 0)) :
    Parse (p.set i c) true e =
      (if tlvPattern (p.set i c) = true then .error .checksumMismatch
       else .error .malformedHeader) ∧
    (9 ≤ p.length → Parse (p.set i c) true e = .error .checksumMismatch) := by
  obtain ⟨hp, hsum⟩ := parse_strict_ok p e hok
  have hne := toUpper_suffix_set_ne p i c hi1 hi2 hc
  have htake : (p.set i c).take (p.length - 4) = p.take (p.length - 4) := by
    rw [List.set_take]
    exact List.set_eq_of_length_le (by simp; omega)
  have hmis : ¬ (ToUpper ((p.set i c).drop ((p.set i c).length - 4)) =
      Checksum ((p.set i c).take ((p.set i c).length - 4)) true) := by
    rw [List.length_set, htake, ← hsum]
    exact hne
  have hmain : Parse (p.set i c) true e =
      (if tlvPattern (p.set i c) = true then .error .checksumMismatch
       else .error .malformedHeader) := by
    rw [parse_strict]
    simp only [hmis, if_false]
  refine ⟨hmain, fun h9 => ?_⟩
  rw [hmain, tlvPattern_set p i c (by omega), hp]
  rfl

theorem C5_witness :
    Parse ((bytes
      "00020101021229370016A0000006770101110113006680111111153037645802TH540520.15630442BE").set
      82 70) true true = .error .checksumMismatch :=
  (C5_checksum_suffix_mutation (bytes
      "00020101021229370016A0000006770101110113006680111111153037645802TH540520.15630442BE")
      true 82 70 (by decide!) (by decide) (by decide) (by decide)).2 (by decide)

theorem atoi_of_no_minus (ls : List Nat) (len : Int) (hls : ls.length = 2)
    (hm : ∀ b ∈ ls, b ≠ 45) (hat : Atoi ls = some len) : 0 ≤ len := by
  match ls, hls with
  | [a, b], _ =>
    have ha : a ≠ 45 := hm a (by simp)
    rw [atoi_two] at hat
    simp only [ha, if_false] at hat
    split at hat
    · split at hat
      · simp at hat; omega
      · simp at hat
    · split at hat
      · simp at hat; omega
      · simp at hat

theorem atoi_digits_of_noSign (ls : List Nat) (len : Int) (hls : ls.length = 2)
    (hm : noSign ls) (hat : Atoi ls = some len) : ls.all isDigit = true := by
  match ls, hls with
  | [a, b], _ =>
    have ha := hm a (by simp)
    rw [atoi_two] at hat
    simp only [ha.1, ha.2, if_false] at hat
    split at hat
    · rename_i hd
      simp [hd.1, hd.2]
    · simp at hat

theorem decodeFrom_ne_panic : ∀ (fuel : Nat) (s : List Nat), (∀ b ∈ s, b ≠ 45) →
    decodeFrom fuel s ≠ .panic := by
  intro fuel
  induction fuel with
  | zero => intro s _; simp [decodeFrom]
  | succ f ih =>
    intro s hs
    rw [decodeFrom]
    by_cases c1 : s.length = 0
    · simp [c1]
    · by_cases c2 : s.length < 4
      · simp [c1, c2]
      · simp only [c1, c2, if_false]
        cases hat : Atoi ((s.drop 2).take 2) with
        | none => simp
        | some len =>
          simp only
          have hmem : ∀ b ∈ (s.drop 2).take 2, b ≠ 45 :=
            fun b hb => hs b (List.mem_of_mem_drop (List.mem_of_mem_take hb))
          have h0 := atoi_of_no_minus _ len (by simp; omega) hmem hat
          by_cases c3 : 4 + len > (s.length : Int)
          · simp [c3]
          · have c4 : ¬ len < 0 := by omega
            simp only [c3, c4, if_false]
            have hrec := ih (s.drop (4 + len.toNat))
              (fun b hb => hs b (List.mem_of_mem_drop hb))
            cases hr : decodeFrom f (s.drop (4 + len.toNat)) with
            | ok tags => simp
            | error e => simp
            | panic => exact absurd hr hrec

theorem decodes_noSign_fields {s : List Nat} {tags : List TLVTag} (h : Decodes s tags)
    (hs : noSign s) : ∀ f ∈ lengthFields s tags, f.all isDigit = true := by
  induction h with
  | nil => intro f hf; simp [lengthFields] at hf
  | cons id ls v rest len tags hid hls hat h0 hv _ ih =>
    rw [lengthFields_cons id ls v rest len tags hid hls h0 hv]
    intro f hf
    rcases List.mem_cons.mp hf with hf | hf
    · subst hf
      exact atoi_digits_of_noSign f len hls (fun b hb => hs b (by simp [hb])) hat
    · exact ih (fun b hb => hs b (by simp [hb])) f hf

theorem stable_of_same (t : TLVTag) (h : expandTag t = some t) : Stable t :=
  ⟨t, h, rfl, rfl⟩

theorem stable_of_short (t : TLVTag) (h : t.Value.length < 5) : Stable t := by
  apply stable_of_same
  have hp : tlvPattern t.Value = false := by
    cases hq : tlvPattern t.Value
    · rfl
    · have := tlvPattern_length _ hq; omega
  simp [expandTag, hp]

theorem stable_of_no_pattern (t : TLVTag) (hp : tlvPattern t.Value = false) : Stable t := by
  apply stable_of_same
  simp [expandTag, hp]

theorem stable_of_reencodes (t : TLVTag) (hs : t.SubTags = [])
    (hnp : Decode t.Value ≠ .panic)
    (hre : ∀ sub, Decodes t.Value sub → Encode sub = t.Value) : Stable t := by
  have hex : ∃ t1, expandTag t = some t1 := by
    unfold expandTag
    split
    · cases hd : Decode t.Value with
      | panic => exact absurd hd hnp
      | error e => exact ⟨t, rfl⟩
      | ok sub =>
        simp only
        split
        · exact ⟨_, rfl⟩
        · exact ⟨t, rfl⟩
    · exact ⟨t, rfl⟩
  obtain ⟨t1, h1⟩ := hex
  refine ⟨t1, h1, ?_⟩
  rcases expandTag_cases t t1 h1 with h2 | ⟨sub, hd, hne, h2⟩
  · subst h2; exact ⟨rfl, rfl⟩
  · subst h2
    obtain ⟨id, v, subs, len⟩ := t
    simp only at hs hd hre
    subst hs
    have hpos : sub.length > 0 := List.length_pos.mpr hne
    refine ⟨rfl, ?_⟩
    simp [encodeTag, hpos, hre sub hd]

theorem stable_of_encoded (id : List Nat) (leafs : List TLVTag)
    (hl : ∀ t ∈ leafs, LeafOK t) : Stable (Tag id (Encode leafs)) := by
  have hd : Decodes (Encode leafs) leafs := decodes_encode_leaf leafs hl
  apply stable_of_reencodes
  · rfl
  · show Decode (Encode leafs) ≠ .panic
    rw [(decode_iff _ _).mpr hd]
    simp
  · intro sub hsub
    show Encode sub = Encode leafs
    have h1 := (decode_iff _ _).mpr hd
    have h2 : Decode (Encode leafs) = .ok sub := (decode_iff _ _).mpr hsub
    rw [h1] at h2
    cases h2
    rfl

theorem stable_of_noSign (id v : List Nat) (hv : noSign v) : Stable (Tag id v) := by
  apply stable_of_reencodes
  · rfl
  · show decodeFrom v.length v ≠ .panic
    exact decodeFrom_ne_panic _ _ (fun b hb => (hv b hb).2)
  · intro sub hsub
    exact (encode_decodes_iff hsub).mpr (decodes_noSign_fields hsub hv)

theorem stable_of_amount (id s : List Nat) (hs : noSign (s.drop 1)) : Stable (Tag id s) := by
  cases s with
  | nil => exact stable_of_short _ (by simp [Tag])
  | cons a r =>
    by_cases ha : a = 43 ∨ a = 45
    · apply stable_of_no_pattern
      show tlvPattern (a :: r) = false
      rcases r with _ | ⟨b, _ | ⟨c, _ | ⟨d, _ | ⟨e, r⟩⟩⟩⟩ <;> simp [tlvPattern]
      rcases ha with ha | ha <;> simp [ha, isDigit]
    · apply stable_of_noSign
      intro b hb
      rcases List.mem_cons.mp hb with hb | hb
      · subst hb; exact ⟨fun h => ha (Or.inl h), fun h => ha (Or.inr h)⟩
      · exact hs b (by simpa using hb)

theorem expandTags_stable : ∀ (ts : List TLVTag), (∀ t ∈ ts, Stable t) →
    ∃ ts1, expandTags ts = some ts1 ∧
      ∀ c : List Nat, Encode (ts1.filter (fun t => t.ID != c)) =
        Encode (ts.filter (fun t => t.ID != c)) := by
  intro ts
  induction ts with
  | nil => intro _; exact ⟨[], rfl, fun _ => rfl⟩
  | cons t ts ih =>
    intro h
    obtain ⟨t1, h1, hid, henc⟩ := h t (List.mem_cons_self _ _)
    obtain ⟨ts1, h2, h3⟩ := ih (fun x hx => h x (List.mem_cons_of_mem _ hx))
    refine ⟨t1 :: ts1, by simp [expandTags, h1, h2], fun c => ?_⟩
    simp only [List.filter_cons, hid]
    split
    · simp only [encode_cons, henc, h3 c]
    · exact h3 c

theorem toUpper_checksum (x : List Nat) (u : Bool) :
    ToUpper (Checksum x u) = Checksum x true := by
  have h1 : ∀ b : Nat, toUpperByte (toUpperByte b) = toUpperByte b := by
    intro b
    simp only [toUpperByte]
    split_ifs <;> omega
  have h2 : ∀ b : Nat, toUpperByte (toLowerByte b) = toUpperByte b := by
    intro b
    simp only [toUpperByte, toLowerByte]
    split_ifs <;> omega
  cases u
  · simp [Checksum, ToUpper, ToLower, h2]
  · simp [Checksum, ToUpper, h1]

theorem filter_crc (ts : List TLVTag) (c cs : List Nat) (hid : ∀ t ∈ ts, t.ID ≠ c) :
    (ts ++ [Tag c cs]).filter (fun t => t.ID != c) = ts := by
  rw [List.filter_append]
  have h1 : ts.filter (fun t => t.ID != c) = ts :=
    List.filter_eq_self.mpr (fun t ht => by simpa using hid t ht)
  have h2 : [Tag c cs].filter (fun t => t.ID != c) = [] := by simp [Tag]
  rw [h1, h2, List.append_nil]

theorem withCRCTag_as_encode (ts : List TLVTag) (c : List Nat) (u : Bool)
    (hcr : RuneCountInString c = 2) :
    WithCRCTag (Encode ts) c u =
      Encode (ts ++ [Tag c (Checksum (Encode ts ++ c ++ bytes "04") u)]) := by
  have h4 : Sprintf02d ((4 : Nat) : Int) = bytes "04" := by decide
  rw [withCRCTag_eq _ _ _ hcr, encode_append, encode_cons, encode_nil, Tag, encodeTag_leaf,
    checksum_length, h4]
  simp

theorem assembled_parse (ts : List TLVTag) (c : List Nat) (u : Bool)
    (hleaf : ∀ t ∈ ts, LeafOK t) (hst : ∀ t ∈ ts, Stable t) (hc2 : c.length = 2)
    (hcr : RuneCountInString c = 2) (hid : ∀ t ∈ ts, t.ID ≠ c)
    (hpat : tlvPattern (WithCRCTag (Encode ts) c u) = true) (strict e : Bool) :
    ∃ q, Parse (WithCRCTag (Encode ts) c u) strict e = .ok q ∧
      (u = true → q.Validate c = true) := by
  have hcs4 := checksum_length (Encode ts ++ c ++ bytes "04") u
  have hcrcLeaf : LeafOK (Tag c (Checksum (Encode ts ++ c ++ bytes "04") u)) :=
    ⟨hc2, rfl, rfl, by simp only [Tag, hcs4]; omega⟩
  have hallLeaf : ∀ t ∈ ts ++ [Tag c (Checksum (Encode ts ++ c ++ bytes "04") u)],
      LeafOK t := by
    intro t ht
    rcases List.mem_append.mp ht with ht | ht
    · exact hleaf t ht
    · rw [List.mem_singleton.mp ht]; exact hcrcLeaf
  have hdec : Decode (WithCRCTag (Encode ts) c u) =
      .ok (ts ++ [Tag c (Checksum (Encode ts ++ c ++ bytes "04") u)]) := by
    rw [withCRCTag_as_encode ts c u hcr]
    exact (decode_iff _ _).mpr (decodes_encode_leaf _ hallLeaf)
  have hne : ¬ ((ts ++ [Tag c (Checksum (Encode ts ++ c ++ bytes "04") u)]).length = 0) := by
    simp
  have hallStable : ∀ t ∈ ts ++ [Tag c (Checksum (Encode ts ++ c ++ bytes "04") u)],
      Stable t := by
    intro t ht
    rcases List.mem_append.mp ht with ht | ht
    · exact hst t ht
    · rw [List.mem_singleton.mp ht]
      exact stable_of_short _ (by simp only [Tag, hcs4]; omega)
  obtain ⟨ts1, hexp, hfil⟩ := expandTags_stable _ hallStable
  -- the lenient parse
  have hlen : ∃ q, Parse (WithCRCTag (Encode ts) c u) false e = .ok q ∧
      (u = true → q.Validate c = true) := by
    cases e
    · refine ⟨⟨WithCRCTag (Encode ts) c u,
        ts ++ [Tag c (Checksum (Encode ts ++ c ++ bytes "04") u)]⟩, ?_, ?_⟩
      · simp [Parse, hpat, hdec]
      · intro hu
        subst hu
        simp [EMVCoQR.Validate, filter_crc ts c _ hid]
    · refine ⟨⟨WithCRCTag (Encode ts) c u, ts1⟩, ?_, ?_⟩
      · unfold Parse
        rw [if_neg (by simp [hpat]), if_neg (by simp), if_neg (by simp)]
        simp only [hdec, hne, hexp, ↓reduceIte]
      · intro hu
        subst hu
        simp [EMVCoQR.Validate, hfil c, filter_crc ts c _ hid]
  cases strict
  · exact hlen
  · rw [parse_strict]
    have hsum : ToUpper ((WithCRCTag (Encode ts) c u).drop
          ((WithCRCTag (Encode ts) c u).length - 4)) =
        Checksum ((WithCRCTag (Encode ts) c u).take
          ((WithCRCTag (Encode ts) c u).length - 4)) true := by
      rw [withCRCTag_eq _ _ _ hcr]
      have hl : (Encode ts ++ c ++ bytes "04" ++
          Checksum (Encode ts ++ c ++ bytes "04") u).length - 4 =
          (Encode ts ++ c ++ bytes "04").length := by
        rw [List.length_append, hcs4]; omega
      rw [hl, List.drop_left, List.take_left, toUpper_checksum]
    simp only [hpat, hsum, if_true]
    exact hlen

theorem tlvPattern_append (a b : List Nat) (h : tlvPattern a = true) :
    tlvPattern (a ++ b) = true := by
  rcases a with _ | ⟨a0, _ | ⟨a1, _ | ⟨a2, _ | ⟨a3, _ | ⟨a4, r⟩⟩⟩⟩⟩ <;>
    simp [tlvPattern] at h ⊢
  exact h

theorem tlvPattern_withCRCTag (x c : List Nat) (u : Bool) (hcr : RuneCountInString c = 2)
    (h : tlvPattern x = true) : tlvPattern (WithCRCTag x c u) = true := by
  rw [withCRCTag_eq _ _ _ hcr]
  exact tlvPattern_append _ _ (tlvPattern_append _ _ (tlvPattern_append _ _ h))

theorem leafOK_tag (id v : List Nat) (h1 : id.length = 2) (h2 : v.length ≤ 99) :
    LeafOK (Tag id v) := ⟨h1, rfl, rfl, h2⟩

theorem encodeTag_tag (id v : List Nat) :
    encodeTag (Tag id v) = id ++ Sprintf02d (v.length : Int) ++ v := by
  simp [Tag, encodeTag]

theorem encodeTag_tag_length (id v : List Nat) (hid : id.length = 2) (hv : v.length ≤ 99) :
    (encodeTag (Tag id v)).length = 4 + v.length := by
  rw [encodeTag_tag]
  simp [hid, (sprintf02d_facts v.length hv).1]
  omega

theorem hexDigitUpper_noSign (d : Nat) (h : d < 16) :
    hexDigitUpper d ≠ 43 ∧ hexDigitUpper d ≠ 45 := by
  unfold hexDigitUpper
  split_ifs <;> omega

theorem sprintf04X_noSign (c : Nat) : noSign (Sprintf04X c) := by
  intro b hb
  have hmod : ∀ x : Nat, x % 16 < 16 := fun x => Nat.mod_lt _ (by omega)
  unfold Sprintf04X at hb
  simp only [List.mem_append, List.mem_cons, List.mem_singleton, List.not_mem_nil,
    or_false] at hb
  rcases hb with (hb | hb) | hb
  · split at hb
    · cases hb
    · rw [List.mem_singleton.mp hb]; exact hexDigitUpper_noSign _ (hmod _)
  · split at hb
    · cases hb
    · rw [List.mem_singleton.mp hb]; exact hexDigitUpper_noSign _ (hmod _)
  · rcases hb with hb | hb | hb | hb <;> rw [hb] <;> exact hexDigitUpper_noSign _ (hmod _)

theorem encodeTag81From_noSign : ∀ (fuel : Nat) (s : List Nat),
    noSign (encodeTag81From fuel s) := by
  intro fuel
  induction fuel with
  | zero => intro s b hb; simp [encodeTag81From] at hb
  | succ f ih =>
    intro s b hb
    rw [encodeTag81From] at hb
    split at hb
    · cases hb
    · rcases List.mem_append.mp hb with hb | hb
      · exact sprintf04X_noSign _ b hb
      · exact ih _ b hb

theorem encodeTag81_noSign (m : List Nat) : noSign (EncodeTag81 m) :=
  encodeTag81From_noSign _ _

theorem promptPay_parses (mid mval : List Nat) (amount : Option (List Nat))
    (extra : List TLVTag) (hmid : mid.length = 2) (hmid63 : mid ≠ bytes "63")
    (hmval : mval.length ≤ 99) (hmst : Stable (Tag mid mval)) (ha : amountFits amount)
    (hextra : ∀ t ∈ extra, LeafOK t ∧ Stable t ∧ t.ID ≠ bytes "63") (strict e : Bool) :
    ∃ q, Parse (WithCRCTag (Encode (promptPayTags mid mval amount ++ extra)) (bytes "63")
        true) strict e = .ok q ∧ q.Validate (bytes "63") = true := by
  have hall : ∀ t ∈ promptPayTags mid mval amount ++ extra,
      LeafOK t ∧ Stable t ∧ t.ID ≠ bytes "63" := by
    intro t ht
    rcases List.mem_append.mp ht with ht | ht
    · have h00 : LeafOK (Tag (bytes "00") (bytes "01")) ∧
          Stable (Tag (bytes "00") (bytes "01")) ∧
          (Tag (bytes "00") (bytes "01")).ID ≠ bytes "63" :=
        ⟨leafOK_tag _ _ (by decide) (by decide), stable_of_short _ (by decide), by decide⟩
      have h12 : LeafOK (Tag (bytes "01") (bytes "12")) ∧
          Stable (Tag (bytes "01") (bytes "12")) ∧
          (Tag (bytes "01") (bytes "12")).ID ≠ bytes "63" :=
        ⟨leafOK_tag _ _ (by decide) (by decide), stable_of_short _ (by decide), by decide⟩
      have h11 : LeafOK (Tag (bytes "01") (bytes "11")) ∧
          Stable (Tag (bytes "01") (bytes "11")) ∧
          (Tag (bytes "01") (bytes "11")).ID ≠ bytes "63" :=
        ⟨leafOK_tag _ _ (by decide) (by decide), stable_of_short _ (by decide), by decide⟩
      have h53 : LeafOK (Tag (bytes "53") (bytes "764")) ∧
          Stable (Tag (bytes "53") (bytes "764")) ∧
          (Tag (bytes "53") (bytes "764")).ID ≠ bytes "63" :=
        ⟨leafOK_tag _ _ (by decide) (by decide), stable_of_short _ (by decide), by decide⟩
      have h58 : LeafOK (Tag (bytes "58") (bytes "TH")) ∧
          Stable (Tag (bytes "58") (bytes "TH")) ∧
          (Tag (bytes "58") (bytes "TH")).ID ≠ bytes "63" :=
        ⟨leafOK_tag _ _ (by decide) (by decide), stable_of_short _ (by decide), by decide⟩
      have hm : LeafOK (Tag mid mval) ∧ Stable (Tag mid mval) ∧
          (Tag mid mval).ID ≠ bytes "63" :=
        ⟨leafOK_tag _ _ hmid hmval, hmst, hmid63⟩
      cases amount with
      | none =>
        simp only [promptPayTags, Option.isSome_none, Bool.false_eq_true, if_false,
          List.append_nil, List.mem_cons, List.mem_singleton, List.not_mem_nil,
          or_false] at ht
        rcases ht with ht | ht | ht | ht | ht <;> rw [ht] <;> assumption
      | some s =>
        obtain ⟨hs99, hsn⟩ := ha s rfl
        have h54 : LeafOK (Tag (bytes "54") s) ∧ Stable (Tag (bytes "54") s) ∧
            (Tag (bytes "54") s).ID ≠ bytes "63" :=
          ⟨leafOK_tag _ _ (by decide) hs99, stable_of_amount _ _ hsn,
            (by decide : bytes "54" ≠ bytes "63")⟩
        simp only [promptPayTags, Option.isSome_some, if_true, List.mem_append,
          List.mem_cons, List.mem_singleton, List.not_mem_nil, or_false] at ht
        rcases ht with (ht | ht | ht | ht | ht) | ht <;> rw [ht] <;> assumption
    · exact hextra t ht
  have hpat : tlvPattern (WithCRCTag (Encode (promptPayTags mid mval amount ++ extra))
      (bytes "63") true) = true := by
    apply tlvPattern_withCRCTag _ _ _ (by decide)
    have h2 : encodeTag (Tag (bytes "00") (bytes "01")) = bytes "000201" := by decide
    simp only [promptPayTags, List.cons_append, encode_cons, h2]
    exact tlvPattern_append _ _ (by decide)
  obtain ⟨q, hq, hv⟩ := assembled_parse (promptPayTags mid mval amount ++ extra) (bytes "63")
    true (fun t ht => (hall t ht).1) (fun t ht => (hall t ht).2.1) (by decide) (by decide)
    (fun t ht => (hall t ht).2.2) hpat strict e
  exact ⟨q, hq, hv rfl⟩

theorem msisdnTarget_length (t : List Nat) : (msisdnTarget t).length = 13 := by
  unfold msisdnTarget
  simp only [List.length_append, List.length_replicate]
  split
  · simp only [List.length_drop, List.length_append, List.length_replicate]
    omega
  · simp only [List.length_append, List.length_replicate]
    omega

theorem proxyTypeValue_length (typ proxy : List Nat) (h : proxyTypeValue typ = some proxy) :
    proxy.length = 2 := by
  unfold proxyTypeValue at h
  split_ifs at h <;> simp at h <;> rw [← h] <;> rfl

theorem merchant_value (guid id v : List Nat) (more : List TLVTag) (hg : guid.length = 16)
    (hid : id.length = 2) (hmore : ∀ t ∈ more, LeafOK t)
    (hlen : 24 + v.length + (Encode more).length ≤ 99) (mid : List Nat) :
    (Encode ([Tag (bytes "00") guid, Tag id v] ++ more)).length ≤ 99 ∧
      Stable (Tag mid (Encode ([Tag (bytes "00") guid, Tag id v] ++ more))) := by
  have hv : v.length ≤ 99 := by omega
  have l1 := encodeTag_tag_length (bytes "00") guid (by decide) (by omega)
  have l2 := encodeTag_tag_length id v hid hv
  constructor
  · simp only [List.cons_append, List.nil_append, encode_cons, List.length_append, l1, l2]
    omega
  · apply stable_of_encoded
    intro t ht
    simp only [List.cons_append, List.nil_append, List.mem_cons] at ht
    rcases ht with ht | ht | ht
    · rw [ht]; exact leafOK_tag _ _ (by decide) (by omega)
    · rw [ht]; exact leafOK_tag _ _ hid hv
    · exact hmore t ht

theorem anyID_parses (cfg : AnyIDConfig) (p : List Nat) (h : AnyID cfg = .ok p)
    (ht : cfg.Typ = bytes "MSISDN" ∨ cfg.Target.length ≤ 75) (ha : amountFits cfg.Amount)
    (strict e : Bool) :
    ∃ q, Parse p strict e = .ok q ∧ q.Validate (bytes "63") = true := by
  unfold AnyID at h
  cases hproxy : proxyTypeValue cfg.Typ with
  | none => simp [hproxy] at h
  | some proxy =>
    simp only [hproxy, Except.ok.injEq] at h
    subst h
    have htl : (if cfg.Typ = bytes "MSISDN" then msisdnTarget cfg.Target
        else cfg.Target).length ≤ 75 := by
      split
      · rw [msisdnTarget_length]; omega
      · rename_i hn
        rcases ht with ht | ht
        · exact absurd ht hn
        · exact ht
    obtain ⟨m1, m2⟩ := merchant_value (bytes "A000000677010111") proxy
      (if cfg.Typ = bytes "MSISDN" then msisdnTarget cfg.Target else cfg.Target) []
      (by decide) (proxyTypeValue_length _ _ hproxy) (fun t ht => by cases ht)
      (by simp only [encode_nil, List.length_nil]; omega) (bytes "29")
    have := promptPay_parses (bytes "29") _ cfg.Amount [] (by decide) (by decide) m1 m2 ha
      (fun t ht => by cases ht) strict e
    simpa only [List.append_nil] using this

theorem billPayment_parses (cfg : BillPaymentConfig) (p : List Nat)
    (h : BillPayment cfg = .ok p)
    (h30 : cfg.BillerID.length + cfg.Ref1.length +
      (match cfg.Ref2 with
       | some ref2 => 4 + ref2.length
       | none => 0) ≤ 71)
    (h62 : ∀ ref3, cfg.Ref3 = some ref3 → ref3.length ≤ 95) (ha : amountFits cfg.Amount)
    (strict e : Bool) :
    ∃ q, Parse p strict e = .ok q ∧ q.Validate (bytes "63") = true := by
  unfold BillPayment at h
  simp only [Except.ok.injEq] at h
  subst h
  have hb : cfg.BillerID.length ≤ 99 := by omega
  have hr1 : cfg.Ref1.length ≤ 99 := by omega
  have hmore : ∀ t ∈ (Tag (bytes "02") cfg.Ref1 ::
      (match cfg.Ref2 with
       | some ref2 => [Tag (bytes "03") ref2]
       | none => [])), LeafOK t := by
    intro t ht
    rcases List.mem_cons.mp ht with ht | ht
    · rw [ht]; exact leafOK_tag _ _ (by decide) hr1
    · cases hr2 : cfg.Ref2 with
      | none => simp [hr2] at ht
      | some r2 =>
        simp only [hr2, List.mem_singleton] at ht h30
        rw [ht]; exact leafOK_tag _ _ (by decide) (by omega)
  have hmlen : (Encode (Tag (bytes "02") cfg.Ref1 ::
      (match cfg.Ref2 with
       | some ref2 => [Tag (bytes "03") ref2]
       | none => []))).length = 4 + cfg.Ref1.length +
      (match cfg.Ref2 with
       | some ref2 => 4 + ref2.length
       | none => 0) := by
    rw [encode_cons, List.length_append, encodeTag_tag_length _ _ (by decide) hr1]
    cases hr2 : cfg.Ref2 with
    | none => simp [encode_nil]
    | some r2 =>
      simp only [hr2] at h30
      simp only [encode_cons, encode_nil, List.append_nil]
      rw [encodeTag_tag_length _ _ (by decide) (by omega)]
  obtain ⟨m1, m2⟩ := merchant_value (bytes "A000000677010112") (bytes "01") cfg.BillerID _
    (by decide) (by decide) hmore (by rw [hmlen]; omega) (bytes "30")
  have hextra : ∀ t ∈ (match cfg.Ref3 with
      | some ref3 => [Tag (bytes "62") (Encode [Tag (bytes "07") ref3])]
      | none => []), LeafOK t ∧ Stable t ∧ t.ID ≠ bytes "63" := by
    intro t ht
    cases hr3 : cfg.Ref3 with
    | none => simp [hr3] at ht
    | some r3 =>
      simp only [hr3, List.mem_singleton] at ht
      have h95 := h62 r3 hr3
      have hl : (Encode [Tag (bytes "07") r3]).length ≤ 99 := by
        simp only [encode_cons, encode_nil, List.append_nil]
        rw [encodeTag_tag_length _ _ (by decide) (by omega)]
        omega
      rw [ht]
      exact ⟨leafOK_tag _ _ (by decide) hl,
        stable_of_encoded _ _ (fun x hx => by
          rw [List.mem_singleton.mp hx]; exact leafOK_tag _ _ (by decide) (by omega)),
        (by decide : bytes "62" ≠ bytes "63")⟩
  exact promptPay_parses (bytes "30") _ cfg.Amount _ (by decide) (by decide) m1 m2 ha
    hextra strict e

theorem trueMoney_parses (cfg : TrueMoneyConfig) (p : List Nat) (h : TrueMoney cfg = .ok p)
    (hm : cfg.MobileNo.length ≤ 70)
    (h81 : ∀ message, cfg.Message = some message → (EncodeTag81 message).length ≤ 99)
    (ha : amountFits cfg.Amount) (strict e : Bool) :
    ∃ q, Parse p strict e = .ok q ∧ q.Validate (bytes "63") = true := by
  unfold TrueMoney at h
  simp only [Except.ok.injEq] at h
  subst h
  obtain ⟨m1, m2⟩ := merchant_value (bytes "A000000677010111") (bytes "03")
    (bytes "14000" ++ cfg.MobileNo) [] (by decide) (by decide) (fun t ht => by cases ht)
    (by
      have h5 : (bytes "14000").length = 5 := by decide
      simp only [encode_nil, List.length_nil, List.length_append, h5]; omega)
    (bytes "29")
  have hextra : ∀ t ∈ (match cfg.Message with
      | some message => [Tag (bytes "81") (EncodeTag81 message)]
      | none => []), LeafOK t ∧ Stable t ∧ t.ID ≠ bytes "63" := by
    intro t ht
    cases hmsg : cfg.Message with
    | none => simp [hmsg] at ht
    | some message =>
      simp only [hmsg, List.mem_singleton] at ht
      rw [ht]
      exact ⟨leafOK_tag _ _ (by decide) (h81 message hmsg),
        stable_of_noSign _ _ (encodeTag81_noSign message),
        (by decide : bytes "81" ≠ bytes "63")⟩
  have := promptPay_parses (bytes "29") _ cfg.Amount _ (by decide) (by decide) m1 m2 ha
    hextra strict e
  simpa only [List.append_nil] using this

theorem tlvPattern_tag00 (v rest : List Nat) (hv : (48 :: v).length ≤ 99) :
    tlvPattern (encodeTag (Tag (bytes "00") (48 :: v)) ++ rest) = true := by
  rw [encodeTag_tag]
  obtain ⟨h1, h2, _⟩ := sprintf02d_facts (48 :: v).length hv
  generalize Sprintf02d (((48 :: v).length : Nat) : Int) = l at h1 h2
  match l, h1 with
  | [x, y], _ =>
    simp only [List.all_cons, List.all_nil, Bool.and_true, Bool.and_eq_true, isDigit,
      decide_eq_true_eq] at h2
    simp [bytes, tlvPattern, h2, isDigit]

theorem slip_parses (first : List Nat) (leafs rest : List TLVTag) (u : Bool)
    (hleafs : ∀ t ∈ leafs, LeafOK t) (hfirst : first.length ≤ 99)
    (hlen : (Encode (Tag (bytes "00") first :: leafs)).length ≤ 99)
    (hf0 : ∃ v, encodeTag (Tag (bytes "00") first) = 48 :: v)
    (hrest : ∀ t ∈ rest, LeafOK t ∧ Stable t ∧ t.ID ≠ bytes "91") (strict e : Bool) :
    ∃ q, Parse (WithCRCTag (Encode (Tag (bytes "00")
        (Encode (Tag (bytes "00") first :: leafs)) :: rest)) (bytes "91") u) strict e = .ok q ∧
      (u = true → q.Validate (bytes "91") = true) := by
  have hall : ∀ t ∈ Tag (bytes "00") (Encode (Tag (bytes "00") first :: leafs)) :: rest,
      LeafOK t ∧ Stable t ∧ t.ID ≠ bytes "91" := by
    intro t ht
    rcases List.mem_cons.mp ht with ht | ht
    · rw [ht]
      refine ⟨leafOK_tag _ _ (by decide) hlen, stable_of_encoded _ _ ?_,
        (by decide : bytes "00" ≠ bytes "91")⟩
      intro x hx
      rcases List.mem_cons.mp hx with hx | hx
      · rw [hx]; exact leafOK_tag _ _ (by decide) hfirst
      · exact hleafs x hx
    · exact hrest t ht
  have hpat : tlvPattern (WithCRCTag (Encode (Tag (bytes "00")
      (Encode (Tag (bytes "00") first :: leafs)) :: rest)) (bytes "91") u) = true := by
    apply tlvPattern_withCRCTag _ _ _ (by decide)
    obtain ⟨v, hv⟩ := hf0
    have hval : Encode (Tag (bytes "00") first :: leafs) = 48 :: (v ++ Encode leafs) := by
      rw [encode_cons, hv]; rfl
    rw [encode_cons, hval]
    exact tlvPattern_tag00 _ _ (by rw [← hval]; exact hlen)
  exact assembled_parse _ (bytes "91") u (fun t ht => (hall t ht).1)
    (fun t ht => (hall t ht).2.1) (by decide) (by decide) (fun t ht => (hall t ht).2.2)
    hpat strict e

theorem slipVerify_parses (cfg : SlipVerifyConfig) (p : List Nat)
    (h : SlipVerify cfg = .ok p) (hl : cfg.SendingBank.length + cfg.TransRef.length ≤ 81)
    (strict e : Bool) :
    ∃ q, Parse p strict e = .ok q ∧ q.Validate (bytes "91") = true := by
  unfold SlipVerify at h
  simp only [Except.ok.injEq] at h
  subst h
  have hb : cfg.SendingBank.length ≤ 99 := by omega
  have hr : cfg.TransRef.length ≤ 99 := by omega
  obtain ⟨q, hq, hv⟩ := slip_parses (bytes "000001")
    [Tag (bytes "01") cfg.SendingBank, Tag (bytes "02") cfg.TransRef]
    [Tag (bytes "51") (bytes "TH")] true
    (by
      intro t ht
      simp only [List.mem_cons, List.mem_singleton, List.not_mem_nil, or_false] at ht
      rcases ht with ht | ht
      · rw [ht]; exact leafOK_tag _ _ (by decide) hb
      · rw [ht]; exact leafOK_tag _ _ (by decide) hr)
    (by decide)
    (by
      simp only [encode_cons, encode_nil, List.append_nil, List.length_append]
      rw [encodeTag_tag_length _ _ (by decide) (by decide),
        encodeTag_tag_length _ _ (by decide) hb, encodeTag_tag_length _ _ (by decide) hr]
      have h6 : (bytes "000001").length = 6 := by decide
      rw [h6]; omega)
    ⟨bytes "006000001", by decide⟩
    (by
      intro t ht
      rw [List.mem_singleton.mp ht]
      exact ⟨leafOK_tag _ _ (by decide) (by decide), stable_of_short _ (by decide),
        (by decide : bytes "51" ≠ bytes "91")⟩)
    strict e
  exact ⟨q, hq, hv rfl⟩

theorem trueMoneySlipVerify_parses (cfg : TrueMoneySlipVerifyConfig) (p : List Nat)
    (h : TrueMoneySlipVerify cfg = .ok p)
    (hl : cfg.EventType.length + cfg.TransactionID.length + cfg.Date.length ≤ 75)
    (strict e : Bool) : ∃ q, Parse p strict e = .ok q := by
  unfold TrueMoneySlipVerify at h
  simp only [Except.ok.injEq] at h
  subst h
  have h1 : cfg.EventType.length ≤ 99 := by omega
  have h2 : cfg.TransactionID.length ≤ 99 := by omega
  have h3 : cfg.Date.length ≤ 99 := by omega
  obtain ⟨q, hq, _⟩ := slip_parses (bytes "01")
    [Tag (bytes "01") (bytes "01"), Tag (bytes "02") cfg.EventType,
     Tag (bytes "03") cfg.TransactionID, Tag (bytes "04") cfg.Date] [] false
    (by
      intro t ht
      simp only [List.mem_cons, List.mem_singleton, List.not_mem_nil, or_false] at ht
      rcases ht with ht | ht | ht | ht
      · rw [ht]; exact leafOK_tag _ _ (by decide) (by decide)
      · rw [ht]; exact leafOK_tag _ _ (by decide) h1
      · rw [ht]; exact leafOK_tag _ _ (by decide) h2
      · rw [ht]; exact leafOK_tag _ _ (by decide) h3)
    (by decide)
    (by
      simp only [encode_cons, encode_nil, List.append_nil, List.length_append]
      rw [encodeTag_tag_length _ _ (by decide) (by decide),
        encodeTag_tag_length _ _ (by decide) (by decide),
        encodeTag_tag_length _ _ (by decide) h1, encodeTag_tag_length _ _ (by decide) h2,
        encodeTag_tag_length _ _ (by decide) h3]
      have h6 : (bytes "01").length = 2 := by decide
      rw [h6]; omega)
    ⟨bytes "00201", by decide⟩
    (fun t ht => by cases ht)
    strict e
  exact ⟨q, hq⟩

/-- C4 (counterexample): the payload that `TrueMoneySlipVerify` generates for the
configuration of the repository's test (P2P, TXN123456, 08122024) ends in the lowercase
checksum `9dc7`; it parses, also in strict mode, and `Validate "91"` returns false on it.
And `AnyID` with type NATID and a target of 76 bytes generates a payload whose tag 29 has
the 3-digit length 100, which `Parse` rejects. -/
theorem C4_counterexample :
    (TrueMoneySlipVerify ⟨bytes "P2P", bytes "TXN123456", bytes "08122024"⟩ =
        .ok (bytes "00440002010102010203P2P0309TXN12345604080812202491049dc7") ∧
      parseValidate (bytes "00440002010102010203P2P0309TXN12345604080812202491049dc7")
        true true (bytes "91") = some false ∧
      parseValidate (bytes "00440002010102010203P2P0309TXN12345604080812202491049dc7")
        false false (bytes "91") = some false) ∧
    (AnyID ⟨bytes "NATID", List.replicate 76 49, none⟩ =
        .ok (bytes "000201010211291000016A0000006770101110276" ++ List.replicate 76 49 ++
          bytes "53037645802TH63047E3B") ∧
      Parse (bytes "000201010211291000016A0000006770101110276" ++ List.replicate 76 49 ++
          bytes "53037645802TH63047E3B") false false =
        .error (.decodeFailed .invalidLength)) := by
  decide!

/-- C4 (amended): for every configuration accepted by a generator in which every tag
value stays within the 99 bytes that a 2-digit length field can declare, the generated
payload parses successfully, in strict and in lenient mode, with and without sub-tag
expansion; and for `AnyID`, `BillPayment`, `TrueMoney` and `SlipVerify` the method
`Validate` on the checksum tag ID (`63`, for `SlipVerify` `91`) returns true on the
result. What `Validate "91"` returns on a `TrueMoneySlipVerify` payload is left open. -/
theorem C4_generated_payloads_validate (strict e : Bool) :
    (∀ cfg p, AnyID cfg = .ok p →
      (cfg.Typ = bytes "MSISDN" ∨ cfg.Target.length ≤ 75) → amountFits cfg.Amount →
      ∃ q, Parse p strict e = .ok q ∧ q.Validate (bytes "63") = true) ∧
    (∀ cfg p, BillPayment cfg = .ok p →
      cfg.BillerID.length + cfg.Ref1.length +
        (match cfg.Ref2 with
         | some ref2 => 4 + ref2.length
         | none => 0) ≤ 71 →
      (∀ ref3, cfg.Ref3 = some ref3 → ref3.length ≤ 95) → amountFits cfg.Amount →
      ∃ q, Parse p strict e = .ok q ∧ q.Validate (bytes "63") = true) ∧
    (∀ cfg p, TrueMoney cfg = .ok p → cfg.MobileNo.length ≤ 70 →
      (∀ message, cfg.Message = some message → (EncodeTag81 message).length ≤ 99) →
      amountFits cfg.Amount →
      ∃ q, Parse p strict e = .ok q ∧ q.Validate (bytes "63") = true) ∧
    (∀ cfg p, SlipVerify cfg = .ok p →
      cfg.SendingBank.length + cfg.TransRef.length ≤ 81 →
      ∃ q, Parse p strict e = .ok q ∧ q.Validate (bytes "91") = true) ∧
    (∀ cfg p, TrueMoneySlipVerify cfg = .ok p →
      cfg.EventType.length + cfg.TransactionID.length + cfg.Date.length ≤ 75 →
      ∃ q, Parse p strict e = .ok q) :=
  ⟨fun cfg p h ht ha => anyID_parses cfg p h ht ha strict e,
   fun cfg p h h30 h62 ha => billPayment_parses cfg p h h30 h62 ha strict e,
   fun cfg p h hm h81 ha => trueMoney_parses cfg p h hm h81 ha strict e,
   fun cfg p h hl => slipVerify_parses cfg p h hl strict e,
   fun cfg p h hl => trueMoneySlipVerify_parses cfg p h hl strict e⟩

theorem C4_witness :
    (∃ q, Parse (bytes
        "00020101021229370016A0000006770101110113006681222333353037645802TH540530.0063043CAD")
        true true = .ok q ∧ q.Validate (bytes "63") = true) ∧
    (∃ q, Parse (bytes "004000060000010103002021900021231231212000115102TH91049C30")
        true true = .ok q ∧ q.Validate (bytes "91") = true) :=
  ⟨(C4_generated_payloads_validate true true).1
      ⟨bytes "MSISDN", bytes "0812223333", some (bytes "30.00")⟩ _ (by decide!)
      (Or.inl rfl)
      (fun s hs => by
        have h30 : s = bytes "30.00" := (Option.some.inj hs).symm
        subst h30
        exact ⟨by decide, by decide⟩),
   (C4_generated_payloads_validate true true).2.2.2.1
      ⟨bytes "002", bytes "0002123123121200011"⟩ _ (by decide!) (by decide)⟩

theorem expandTag_rule (t t1 : TLVTag) (hs : t.SubTags = []) (h : expandTag t = some t1) :
    t1.ID = t.ID ∧ t1.Value = t.Value ∧ t1.Length = t.Length ∧
      (t1.SubTags ≠ [] ↔ ∃ sub, nestedStream t.Value sub) ∧
      (∀ sub, nestedStream t.Value sub → t1.SubTags = sub) := by
  have hflat : t1 = t → (∀ sub, ¬ nestedStream t.Value sub) →
      t1.ID = t.ID ∧ t1.Value = t.Value ∧ t1.Length = t.Length ∧
      (t1.SubTags ≠ [] ↔ ∃ sub, nestedStream t.Value sub) ∧
      (∀ sub, nestedStream t.Value sub → t1.SubTags = sub) := by
    intro h1 hn
    subst h1
    refine ⟨rfl, rfl, rfl, ?_, fun sub hsub => absurd hsub (hn sub)⟩
    constructor
    · intro h2; exact absurd hs h2
    · rintro ⟨sub, hsub⟩; exact absurd hsub (hn sub)
  unfold expandTag at h
  by_cases hp : tlvPattern t.Value = true
  · have h5 := tlvPattern_length _ hp
    have hc : (decide (t.Value.length ≥ 4) && tlvPattern t.Value) = true := by
      simp [hp]; omega
    simp only [hc, if_true] at h
    cases hd : Decode t.Value with
    | panic => simp [hd] at h
    | error e =>
      simp only [hd, Option.some.injEq] at h
      exact hflat h.symm (fun sub hsub => by
        have := hsub.2.2.2.1
        rw [hd] at this
        cases this)
    | ok sub =>
      simp only [hd] at h
      by_cases hv : (sub.all (fun subTag => decide (subTag.Length = (subTag.Value.length : Int)))
          && decide (sub.length > 0)) = true
      · simp only [hv, if_true, Option.some.injEq] at h
        subst h
        simp only [Bool.and_eq_true, List.all_eq_true, decide_eq_true_eq] at hv
        have hne : sub ≠ [] := List.length_pos.mp hv.2
        have hns : nestedStream t.Value sub :=
          ⟨h5, ((tlvPattern_iff _).mp hp).2.1, ((tlvPattern_iff _).mp hp).2.2, hd, hne, hv.1⟩
        refine ⟨rfl, rfl, rfl, ⟨fun _ => ⟨sub, hns⟩, fun _ => hne⟩, ?_⟩
        intro sub2 h2
        have := h2.2.2.2.1
        rw [hd] at this
        cases this
        rfl
      · simp only [hv, Bool.false_eq_true, if_false, Option.some.injEq] at h
        refine hflat h.symm (fun sub2 h2 => ?_)
        have h3 := h2.2.2.2.1
        rw [hd] at h3
        cases h3
        apply hv
        simp only [Bool.and_eq_true, List.all_eq_true, decide_eq_true_eq]
        exact ⟨h2.2.2.2.2.2, List.length_pos.mpr h2.2.2.2.2.1⟩
  · have hc : (decide (t.Value.length ≥ 4) && tlvPattern t.Value) = false := by
      simp [hp]
    simp only [hc, Bool.false_eq_true, if_false, Option.some.injEq] at h
    refine hflat h.symm (fun sub hsub => hp ?_)
    exact (tlvPattern_iff _).mpr ⟨hsub.1, hsub.2.1, hsub.2.2.1⟩

theorem expandTags_forall2 : ∀ (ts ts1 : List TLVTag), expandTags ts = some ts1 →
    List.Forall₂ (fun t t1 => expandTag t = some t1) ts ts1 := by
  intro ts
  induction ts with
  | nil =>
    intro ts1 h
    simp [expandTags] at h
    subst h
    exact List.Forall₂.nil
  | cons t ts ih =>
    intro ts1 h
    rw [expandTags] at h
    cases h1 : expandTag t with
    | none => simp [h1] at h
    | some t1 =>
      cases h2 : expandTags ts with
      | none => simp [h1, h2] at h
      | some ts2 =>
        simp [h1, h2] at h
        subst h
        exact List.Forall₂.cons h1 (ih ts2 h2)

theorem expandTags_rule : ∀ (ts ts1 : List TLVTag), (∀ t ∈ ts, t.SubTags = []) →
    expandTags ts = some ts1 →
    List.Forall₂ (fun t t1 =>
      t1.ID = t.ID ∧ t1.Value = t.Value ∧ t1.Length = t.Length ∧
      (t1.SubTags ≠ [] ↔ ∃ sub, nestedStream t.Value sub) ∧
      (∀ sub, nestedStream t.Value sub → t1.SubTags = sub)) ts ts1 := by
  intro ts ts1 hs h
  have h2 := expandTags_forall2 ts ts1 h
  clear h
  induction h2 with
  | nil => exact List.Forall₂.nil
  | cons hab _ ih =>
    exact List.Forall₂.cons (expandTag_rule _ _ (hs _ (List.mem_cons_self _ _)) hab)
      (ih (fun t ht => hs t (List.mem_cons_of_mem _ ht)))

/-- C11 (counterexample): in `Parse "00040000"` with sub-tag expansion the only tag has
the 4-byte value `0000`, which begins with 4 ASCII decimal digits and decodes to the
non-empty stream of one record `00` of declared length 0 = byte length of its value; yet
the tag of the result carries no sub-tags. -/
theorem C11_counterexample :
    Parse (bytes "00040000") false true =
      .ok ⟨bytes "00040000", [⟨bytes "00", bytes "0000", [], 4⟩]⟩ ∧
    4 ≤ (bytes "0000").length ∧ ((bytes "0000").take 4).all isDigit = true ∧
    Decode (bytes "0000") = .ok [⟨bytes "00", [], [], 0⟩] := by
  decide

/-- C11 (amended): with sub-tag expansion enabled, the tags of the `Parse` result are the
tags of `Decode payload`, position by position, with the same ID, Value and Length; such a
tag carries sub-tags exactly when its value begins with 4 ASCII decimal digits followed by
at least one more byte that is not a line feed (so a value of exactly 4 bytes never
qualifies) and decodes as a non-empty TLV stream in which every sub-tag's declared length
equals its value's byte length; the attached sub-tags are that decode's result, and every
other tag stays a flat leaf. -/
theorem C11_subtags_attached_iff (p : List Nat) (strict : Bool) (q : EMVCoQR)
    (h : Parse p strict true = .ok q) :
    ∃ tags, Decode p = .ok tags ∧
      List.Forall₂ (fun t t1 =>
        t1.ID = t.ID ∧ t1.Value = t.Value ∧ t1.Length = t.Length ∧
        (t1.SubTags ≠ [] ↔ ∃ sub, nestedStream t.Value sub) ∧
        (∀ sub, nestedStream t.Value sub → t1.SubTags = sub)) tags q.tags := by
  obtain ⟨_, _, tags, hd, _, hq | hq⟩ := parse_ok_inv p strict true q h
  · exact absurd hq.1 (by decide)
  · exact ⟨tags, (decode_iff _ _).mpr hd,
      expandTags_rule tags q.tags (fun t ht => (decodes_leaf hd t ht).2.1) hq.2⟩

theorem C11_witness :
    ∃ tags, Decode (bytes "001001060002AB5802TH") = .ok tags ∧
      List.Forall₂ (fun (t t1 : TLVTag) =>
        t1.ID = t.ID ∧ t1.Value = t.Value ∧ t1.Length = t.Length ∧
        (t1.SubTags ≠ [] ↔ ∃ sub, nestedStream t.Value sub) ∧
        (∀ sub, nestedStream t.Value sub → t1.SubTags = sub)) tags
        [⟨bytes "00", bytes "01060002AB", [⟨bytes "01", bytes "0002AB", [], 6⟩], 10⟩,
         ⟨bytes "58", bytes "TH", [], 2⟩] :=
  C11_subtags_attached_iff (bytes "001001060002AB5802TH") false
    ⟨bytes "001001060002AB5802TH",
     [⟨bytes "00", bytes "01060002AB", [⟨bytes "01", bytes "0002AB", [], 6⟩], 10⟩,
      ⟨bytes "58", bytes "TH", [], 2⟩]⟩ (by decide)

/-- C12 (the code at the failing input): in `Parse "001001060002AB"` with sub-tags the
top-level tag 00 receives the sub-tag 01 with value `0002AB`; that value begins with 4
digits and decodes (to the record 00 = `AB`), yet the sub-tag carries no sub-tags of its
own: the pass descends one level only. -/
theorem C12_one_level_only :
    Parse (bytes "001001060002AB") false true =
      .ok ⟨bytes "001001060002AB",
        [⟨bytes "00", bytes "01060002AB", [⟨bytes "01", bytes "0002AB", [], 6⟩], 10⟩]⟩ ∧
    tlvPattern (bytes "0002AB") = true ∧
    Decode (bytes "0002AB") = .ok [⟨bytes "00", bytes "AB", [], 2⟩] := by
  decide

theorem sprintf02d_two_digits (len : Int) (h0 : 0 ≤ len) (h99 : len ≤ 99) :
    Sprintf02d len = [48 + len.toNat / 10, 48 + len.toNat % 10] := by
  have key : ∀ m < 100, Sprintf02d ((m : Nat) : Int) = [48 + m / 10, 48 + m % 10] := by decide
  have hcast : ((len.toNat : Nat) : Int) = len := by omega
  have := key len.toNat (by omega)
  rw [hcast] at this
  exact this

theorem encodeTag_eq (t : TLVTag) :
    encodeTag t = t.ID ++ Sprintf02d t.Length ++
      (if t.SubTags = [] then t.Value else Encode t.SubTags) := by
  obtain ⟨id, v, subs, len⟩ := t
  cases subs with
  | nil => simp [encodeTag]
  | cons s ss => simp [encodeTag]

/-- C13: for every tag list with lengths in 0..99, `Encode` emits for each tag, in
order, its ID, its Length as exactly 2 zero-padded decimal digits (tens, units), and then
the encoding of its SubTags if it has any, otherwise its Value; the Value of a tag that
has sub-tags is never emitted. `Encode` of 00/1111, 01/2222 is `0004111101042222` and
`Encode` of no tags is the empty string. -/
theorem C13_encode_layout (tags : List TLVTag)
    (h : ∀ t ∈ tags, 0 ≤ t.Length ∧ t.Length ≤ 99) :
    Encode tags = tags.flatMap (fun t =>
      t.ID ++ [48 + t.Length.toNat / 10, 48 + t.Length.toNat % 10] ++
        (if t.SubTags = [] then t.Value else Encode t.SubTags)) ∧
    (∀ (id v v2 : List Nat) (subs : List TLVTag) (len : Int), subs ≠ [] →
      Encode [⟨id, v, subs, len⟩] = Encode [⟨id, v2, subs, len⟩]) ∧
    Encode [⟨bytes "00", bytes "1111", [], 4⟩, ⟨bytes "01", bytes "2222", [], 4⟩] =
      bytes "0004111101042222" ∧
    Encode [] = [] := by
  refine ⟨?_, ?_, by decide, encode_nil⟩
  · induction tags with
    | nil => simp [encode_nil]
    | cons t ts ih =>
      obtain ⟨h0, h99⟩ := h t (List.mem_cons_self _ _)
      rw [encode_cons, encodeTag_eq, sprintf02d_two_digits _ h0 h99, List.flatMap_cons,
        ih (fun x hx => h x (List.mem_cons_of_mem _ hx))]
  · intro id v v2 subs len hne
    simp only [encode_cons, encode_nil, encodeTag_eq, hne, if_false]

theorem C13_witness :
    Encode [⟨bytes "62", bytes "ignored", [⟨bytes "07", bytes "SCB", [], 3⟩], 7⟩] =
      bytes "62070703SCB" :=
  (C13_encode_layout [⟨bytes "62", bytes "ignored", [⟨bytes "07", bytes "SCB", [], 3⟩], 7⟩]
    (by decide)).1.trans (by decide)

theorem atoi_none_of_fields (f : List Nat) (hl : f.length = 2)
    (h1 : twoDigitField f = false) (h2 : signedDigitField f = false) : Atoi f = none := by
  match f, hl with
  | [a, b], _ =>
    rw [atoi_two]
    simp only [twoDigitField, signedDigitField, Bool.and_eq_false_iff, Bool.or_eq_false_iff,
      beq_eq_false_iff_ne, ne_eq] at h1 h2
    by_cases h45 : a = 45
    · have hb : isDigit b = false := by
        rcases h2 with h2 | h2
        · exact absurd h45 h2.2
        · exact h2
      simp [h45, hb]
    · by_cases h43 : a = 43
      · have hb : isDigit b = false := by
          rcases h2 with h2 | h2
          · exact absurd h43 h2.1
          · exact h2
        simp [h43, hb]
      · have hnd : ¬ (isDigit a = true ∧ isDigit b = true) := by
          rintro ⟨ha, hb⟩
          rcases h1 with h1 | h1
          · rw [ha] at h1; cases h1
          · rw [hb] at h1; cases h1
        simp [h45, h43, hnd]

theorem atoi_of_declared (f : List Nat) (n : Nat) (h : declaredLength f = some n) :
    Atoi f = some (n : Int) := by
  match f with
  | [] => simp [declaredLength] at h
  | [_] => simp [declaredLength] at h
  | _ :: _ :: _ :: _ => simp [declaredLength] at h
  | [a, b] =>
    rw [atoi_two]
    simp only [declaredLength] at h
    by_cases hd : (isDigit a && isDigit b) = true
    · simp only [hd, if_true, Option.some.injEq] at h
      simp only [Bool.and_eq_true] at hd
      have ha : 48 ≤ a ∧ a ≤ 57 := by simpa [isDigit] using hd.1
      have h45 : a ≠ 45 := by omega
      have h43 : a ≠ 43 := by omega
      simp [h45, h43, hd.1, hd.2, h]
    · simp only [hd, Bool.false_eq_true, if_false] at h
      by_cases hp : a = 43 ∧ isDigit b = true
      · simp only [hp, and_self, if_true, Option.some.injEq] at h
        simp [hp.1, hp.2, h]
      · simp only [hp, if_false] at h
        by_cases hm : a = 45 ∧ b = 48
        · simp only [hm, and_self, if_true, Option.some.injEq] at h
          subst h
          simp [hm.1, hm.2, isDigit]
        · simp [hm] at h

theorem declared_none_of_atoi (f : List Nat) (h : Atoi f = none) : declaredLength f = none := by
  cases hd : declaredLength f with
  | none => rfl
  | some n => rw [atoi_of_declared f n hd] at h; cases h

theorem decode_first_short (s : List Nat) (h1 : 1 ≤ s.length) (h3 : s.length ≤ 3) :
    Decode s = .error .incompleteHeader := by
  unfold Decode
  obtain ⟨f, hf⟩ : ∃ f, s.length = f + 1 := ⟨s.length - 1, by omega⟩
  rw [hf, decodeFrom]
  have c1 : ¬ s.length = 0 := by omega
  have c2 : s.length < 4 := by omega
  simp [c1, c2]

theorem decode_first_badlen (s : List Nat) (h4 : 4 ≤ s.length)
    (hat : Atoi ((s.drop 2).take 2) = none) : Decode s = .error .invalidLength := by
  unfold Decode
  obtain ⟨f, hf⟩ : ∃ f, s.length = f + 1 := ⟨s.length - 1, by omega⟩
  rw [hf, decodeFrom]
  have c1 : ¬ s.length = 0 := by omega
  have c2 : ¬ s.length < 4 := by omega
  simp [c1, c2, hat]

theorem decode_first_incomplete (s : List Nat) (n : Int) (h4 : 4 ≤ s.length)
    (hat : Atoi ((s.drop 2).take 2) = some n) (hn : (s.length : Int) - 4 < n) :
    Decode s = .error .incompleteValue := by
  unfold Decode
  obtain ⟨f, hf⟩ : ∃ f, s.length = f + 1 := ⟨s.length - 1, by omega⟩
  rw [hf, decodeFrom]
  have c1 : ¬ s.length = 0 := by omega
  have c2 : ¬ s.length < 4 := by omega
  have c3 : 4 + n > (s.length : Int) := by omega
  simp [c1, c2, hat, c3]

theorem decode_cons (id ls v rest : List Nat) (len : Int) (hid : id.length = 2)
    (hls : ls.length = 2) (hat : Atoi ls = some len) (h0 : 0 ≤ len)
    (hv : (v.length : Int) = len) :
    Decode (id ++ ls ++ v ++ rest) =
      match Decode rest with
      | .ok tags => .ok (⟨id, v, [], len⟩ :: tags)
      | .error e => .error e
      | .panic => .panic := by
  have hl : (id ++ ls ++ v ++ rest).length = (3 + v.length + rest.length) + 1 := by
    simp [hid, hls]; omega
  unfold Decode
  rw [hl, decodeFrom_cons _ id ls v rest len hid hls hat h0 hv,
    decodeFrom_fuel (3 + v.length + rest.length) rest.length rest (by omega) (Nat.le_refl _)]

theorem decode_append {pre : List Nat} {tags : List TLVTag} (h : Decodes pre tags)
    (rest : List Nat) :
    Decode (pre ++ rest) =
      match Decode rest with
      | .ok ts => .ok (tags ++ ts)
      | .error e => .error e
      | .panic => .panic := by
  induction h with
  | nil =>
    rw [List.nil_append]
    cases Decode rest <;> simp
  | cons id ls v r len tags hid hls hat h0 hv _ ih =>
    rw [List.append_assoc, decode_cons id ls v (r ++ rest) len hid hls hat h0 hv, ih]
    cases Decode rest <;> simp

theorem invalidLength_inv : ∀ (fuel : Nat) (s : List Nat), s.length ≤ fuel →
    decodeFrom fuel s = .error .invalidLength →
    ∃ pre tags rest, s = pre ++ rest ∧ Decodes pre tags ∧ 4 ≤ rest.length ∧
      Atoi ((rest.drop 2).take 2) = none := by
  intro fuel
  induction fuel with
  | zero => intro s _ h; simp [decodeFrom] at h
  | succ f ih =>
    intro s hs h
    rw [decodeFrom] at h
    by_cases c1 : s.length = 0
    · simp [c1] at h
    · by_cases c2 : s.length < 4
      · simp [c1, c2] at h
      · simp only [c1, c2, if_false] at h
        cases hat : Atoi ((s.drop 2).take 2) with
        | none => exact ⟨[], [], s, rfl, Decodes.nil, by omega, hat⟩
        | some len =>
          simp only [hat] at h
          by_cases c3 : 4 + len > (s.length : Int)
          · simp [c3] at h
          · by_cases c4 : len < 0
            · simp [c3, c4] at h
            · simp only [c3, c4, if_false] at h
              have hn : 4 + len.toNat ≤ s.length := by omega
              obtain ⟨e, l2, l3, l4⟩ := split_record s len.toNat hn
              cases hrec : decodeFrom f (s.drop (4 + len.toNat)) with
              | ok tags1 => simp [hrec] at h
              | panic => simp [hrec] at h
              | error err =>
                simp only [hrec, Outcome.error.injEq] at h
                subst h
                obtain ⟨pre, tags, rest, e2, hd, h4, hbad⟩ :=
                  ih (s.drop (4 + len.toNat)) (by simp; omega) hrec
                refine ⟨s.take 2 ++ (s.drop 2).take 2 ++ (s.drop 4).take len.toNat ++ pre,
                  ⟨s.take 2, (s.drop 4).take len.toNat, [], len⟩ :: tags, rest, ?_, ?_, h4,
                  hbad⟩
                · rw [List.append_assoc _ pre rest, ← e2]
                  exact e
                · exact Decodes.cons _ _ _ _ len tags l2 l3 hat (by omega)
                    (by rw [l4]; omega) hd

/-- C14 (counterexample): the length field `+1` of `00+1A` is not two ASCII decimal
digits, yet `Decode` accepts it, as length 1, and returns the tag 00 = `A`. -/
theorem C14_counterexample :
    twoDigitField (((bytes "00+1A").drop 2).take 2) = false ∧
    Decode (bytes "00+1A") = .ok [⟨bytes "00", bytes "A", [], 1⟩] := by
  decide

/-- C14 (amended): `Decode` fails with the invalid-length error whenever the 2-byte
length field of the record being read is neither two ASCII decimal digits nor a sign
followed by one ASCII decimal digit (e.g. `00AB1234`); it fails with that error only at a
record whose field is not two digits, not `+` and a digit, and not `-0`; and a field of
one of these three forms is accepted as the length it declares. -/
theorem C14_invalid_length (s : List Nat) :
    (∀ pre tags rest, s = pre ++ rest → Decode pre = .ok tags → 4 ≤ rest.length →
      twoDigitField ((rest.drop 2).take 2) = false →
      signedDigitField ((rest.drop 2).take 2) = false →
      Decode s = .error .invalidLength) ∧
    (Decode s = .error .invalidLength →
      ∃ pre tags rest, s = pre ++ rest ∧ Decode pre = .ok tags ∧ 4 ≤ rest.length ∧
        declaredLength ((rest.drop 2).take 2) = none) ∧
    (∀ id f v rest n, s = id ++ f ++ v ++ rest → id.length = 2 →
      declaredLength f = some n → v.length = n →
      Decode s =
        match Decode rest with
        | .ok ts => .ok (⟨id, v, [], (n : Int)⟩ :: ts)
        | .error e => .error e
        | .panic => .panic) ∧
    Decode (bytes "00AB1234") = .error .invalidLength := by
  refine ⟨?_, ?_, ?_, by decide⟩
  · intro pre tags rest hs hpre h4 h1 h2
    have hat := atoi_none_of_fields ((rest.drop 2).take 2) (by simp; omega) h1 h2
    rw [hs, decode_append ((decode_iff _ _).mp hpre) rest, decode_first_badlen rest h4 hat]
  · intro h
    obtain ⟨pre, tags, rest, e, hd, h4, hbad⟩ := invalidLength_inv s.length s (Nat.le_refl _) h
    exact ⟨pre, tags, rest, e, (decode_iff _ _).mpr hd, h4, declared_none_of_atoi _ hbad⟩
  · intro id f v rest n hs hid hf hv
    have hfl : f.length = 2 := by
      match f with
      | [] => simp [declaredLength] at hf
      | [_] => simp [declaredLength] at hf
      | _ :: _ :: _ :: _ => simp [declaredLength] at hf
      | [_, _] => rfl
    rw [hs]
    exact decode_cons id f v rest (n : Int) hid hfl (atoi_of_declared f n hf) (by omega)
      (by rw [hv])

theorem C14_witness :
    Decode (bytes "00020100-X") = .error .invalidLength :=
  (C14_invalid_length (bytes "00020100-X")).1 (bytes "000201") [⟨bytes "00", bytes "01", [], 2⟩]
    (bytes "00-X") (by decide) (by decide) (by decide) (by decide) (by decide)

theorem truncated_record (id ls v : List Nat) (k : Nat) (hid : id.length = 2)
    (hls : ls.length = 2) (hat : Atoi ls = some (v.length : Int)) (hk0 : 0 < k)
    (hk : k < 4 + v.length) :
    Decode ((id ++ ls ++ v).take k) = .error .incompleteHeader ∨
      Decode ((id ++ ls ++ v).take k) = .error .incompleteValue := by
  have hlen : ((id ++ ls ++ v).take k).length = k := by
    simp [hid, hls]; omega
  by_cases h4 : k < 4
  · exact Or.inl (decode_first_short _ (by omega) (by omega))
  · right
    have hk4 : k = (id ++ ls).length + (k - 4) := by simp [hid, hls]; omega
    have htake : (id ++ ls ++ v).take k = id ++ ls ++ v.take (k - 4) := by
      have h := @List.take_append _ (id ++ ls) v (k - 4)
      rw [← hk4] at h
      exact h
    have hfield : (((id ++ ls ++ v).take k).drop 2).take 2 = ls := by
      rw [htake, List.append_assoc, List.drop_left' hid]
      exact List.take_left' hls
    exact decode_first_incomplete _ (v.length : Int) (by omega) (by rw [hfield]; exact hat)
      (by rw [hlen]; omega)

theorem prefix_rejected : ∀ (tags : List TLVTag) (k : Nat), (∀ t ∈ tags, LeafOK t) →
    k < (Encode tags).length → (∀ j, k ≠ (Encode (tags.take j)).length) →
    Decode ((Encode tags).take k) = .error .incompleteHeader ∨
      Decode ((Encode tags).take k) = .error .incompleteValue := by
  intro tags
  induction tags with
  | nil => intro k _ hk _; simp [encode_nil] at hk
  | cons t ts ih =>
    intro k hleaf hk hb
    obtain ⟨id, v, subs, len⟩ := t
    obtain ⟨hid, hsub, hlen, h99⟩ := hleaf _ (List.mem_cons_self _ _)
    simp only at hid hsub hlen h99
    subst hsub
    subst hlen
    obtain ⟨f1, _, f3⟩ := sprintf02d_facts v.length h99
    have hrec : (id ++ Sprintf02d (v.length : Int) ++ v).length = 4 + v.length := by
      simp [hid, f1]; omega
    have hk0 : 0 < k := by
      have := hb 0
      simp [encode_nil] at this
      omega
    rw [encode_cons, encodeTag_leaf] at hk ⊢
    by_cases hin : k < 4 + v.length
    · have htake : (id ++ Sprintf02d (v.length : Int) ++ v ++ Encode ts).take k =
          (id ++ Sprintf02d (v.length : Int) ++ v).take k :=
        List.take_append_of_le_length (by omega)
      rw [htake]
      exact truncated_record id _ v k hid f1 f3 hk0 hin
    · have hne : k ≠ 4 + v.length := by
        have := hb 1
        simp only [List.take_succ_cons, List.take_zero, encode_cons, encode_nil,
          List.append_nil, encodeTag_leaf, hrec] at this
        exact this
      have hk2 : k = (id ++ Sprintf02d (v.length : Int) ++ v).length + (k - (4 + v.length)) := by
        rw [hrec]; omega
      have htake : (id ++ Sprintf02d (v.length : Int) ++ v ++ Encode ts).take k =
          id ++ Sprintf02d (v.length : Int) ++ v ++ (Encode ts).take (k - (4 + v.length)) := by
        have h := @List.take_append _ (id ++ Sprintf02d (v.length : Int) ++ v)
          (Encode ts) (k - (4 + v.length))
        rw [← hk2] at h
        exact h
      have hk3 : k - (4 + v.length) < (Encode ts).length := by
        rw [List.length_append, hrec] at hk
        omega
      have hb2 : ∀ j, k - (4 + v.length) ≠ (Encode (ts.take j)).length := by
        intro j hj
        have := hb (j + 1)
        simp only [List.take_succ_cons, encode_cons, encodeTag_leaf, List.length_append,
          hrec] at this
        omega
      have hrest := ih (k - (4 + v.length)) (fun x hx => hleaf x (List.mem_cons_of_mem _ hx))
        hk3 hb2
      rw [htake, decode_cons id _ v _ (v.length : Int) hid f1 f3 (by omega) rfl]
      rcases hrest with hrest | hrest <;> rw [hrest] <;> simp

/-- C15: `Decode` rejects truncated input. If 1 to 3 bytes remain at a record boundary
it fails with the incomplete-header error; if a header declares the length `n` and fewer
than `n` bytes follow it, it fails with the incomplete-value error. For every well-formed
leaf tag list, every proper prefix of `Encode tags` that does not end on a record boundary
is rejected with one of these two errors (e.g. `000` and `000412`), and the empty string
decodes to the empty sequence. -/
theorem C15_truncated_input_rejected :
    (∀ pre tags rest, Decode pre = .ok tags → 1 ≤ rest.length → rest.length ≤ 3 →
      Decode (pre ++ rest) = .error .incompleteHeader) ∧
    (∀ pre tags rest (n : Int), Decode pre = .ok tags → 4 ≤ rest.length →
      Atoi ((rest.drop 2).take 2) = some n → (rest.length : Int) - 4 < n →
      Decode (pre ++ rest) = .error .incompleteValue) ∧
    (∀ (tags : List TLVTag) (k : Nat),
      (∀ t ∈ tags, t.ID.length = 2 ∧ t.SubTags = [] ∧ t.Length = (t.Value.length : Int) ∧
        t.Value.length ≤ 99) →
      k < (Encode tags).length → (∀ j, k ≠ (Encode (tags.take j)).length) →
      Decode ((Encode tags).take k) = .error .incompleteHeader ∨
        Decode ((Encode tags).take k) = .error .incompleteValue) ∧
    Decode [] = .ok [] ∧
    Decode (bytes "000") = .error .incompleteHeader ∧
    Decode (bytes "000412") = .error .incompleteValue := by
  refine ⟨?_, ?_, ?_, by decide, by decide, by decide⟩
  · intro pre tags rest hpre h1 h3
    rw [decode_append ((decode_iff _ _).mp hpre) rest, decode_first_short rest h1 h3]
  · intro pre tags rest n hpre h4 hat hn
    rw [decode_append ((decode_iff _ _).mp hpre) rest,
      decode_first_incomplete rest n h4 hat hn]
  · intro tags k hleaf hk hb
    exact prefix_rejected tags k hleaf hk hb

theorem C15_witness :
    Decode ((Encode [Tag (bytes "00") (bytes "01"), Tag (bytes "58") (bytes "TH")]).take 9) =
        .error .incompleteHeader ∨
      Decode ((Encode [Tag (bytes "00") (bytes "01"), Tag (bytes "58") (bytes "TH")]).take 9) =
        .error .incompleteValue :=
  C15_truncated_input_rejected.2.2.1 [Tag (bytes "00") (bytes "01"), Tag (bytes "58") (bytes "TH")]
    9 (by decide) (by decide)
    (fun j => by
      match j with
      | 0 => decide
      | 1 => decide
      | (j + 2) =>
        have h : (Encode ([Tag (bytes "00") (bytes "01"),
            Tag (bytes "58") (bytes "TH")].take (j + 2))).length = 12 := by
          simp only [List.take_succ_cons, List.take_nil]
          decide
        rw [h]
        decide)

theorem find_first (l : List TLVTag) (id : List Nat) (pre post : List TLVTag) (t : TLVTag)
    (hl : l = pre ++ t :: post) (ht : t.ID = id) (hpre : ∀ x ∈ pre, x.ID ≠ id) :
    l.find? (fun x => x.ID == id) = some t := by
  have h1 : pre.find? (fun x => x.ID == id) = none :=
    List.find?_eq_none.mpr (fun x hx => by simpa using hpre x hx)
  rw [hl, List.find?_append, h1]
  simp [ht]

theorem find_none (l : List TLVTag) (id : List Nat) (h : ∀ x ∈ l, x.ID ≠ id) :
    l.find? (fun x => x.ID == id) = none :=
  List.find?_eq_none.mpr (fun x hx => by simpa using h x hx)

/-- C16: `Get tags id ""` returns the first tag of `tags` whose ID equals `id`, and
none when there is no such tag (whatever the sub-tag ID); `Get tags id sub` with a
non-empty `sub` returns the first sub-tag with ID `sub` among the sub-tags of that first
matching top-level tag, and none when that tag has no sub-tag with ID `sub` (in
particular when it has no sub-tags): the tags after the first match play no part. -/
theorem C16_get_first_match (tags : List TLVTag) (id : List Nat) :
    ((∀ x ∈ tags, x.ID ≠ id) → ∀ sub, Get tags id sub = none) ∧
    (∀ pre t post, tags = pre ++ t :: post → t.ID = id → (∀ x ∈ pre, x.ID ≠ id) →
      Get tags id [] = some t ∧
      ∀ sub, sub ≠ [] →
        ((∀ x ∈ t.SubTags, x.ID ≠ sub) → Get tags id sub = none) ∧
        (∀ spre s spost, t.SubTags = spre ++ s :: spost → s.ID = sub →
          (∀ x ∈ spre, x.ID ≠ sub) → Get tags id sub = some s)) := by
  constructor
  · intro h sub
    simp only [Get, find_none tags id h]
  · intro pre t post hl ht hpre
    have hf := find_first tags id pre post t hl ht hpre
    refine ⟨by simp [Get, hf], fun sub hsub => ⟨fun hn => ?_, fun spre s spost hs hsid hspre => ?_⟩⟩
    · simp only [Get, hf, hsub, ne_eq, not_false_eq_true, if_true]
      exact find_none _ _ hn
    · simp only [Get, hf, hsub, ne_eq, not_false_eq_true, if_true]
      exact find_first _ _ spre spost s hs hsid hspre

theorem C16_witness :
    Get [⟨bytes "00", bytes "1111", [], 4⟩, ⟨bytes "01", bytes "2222", [], 4⟩,
         ⟨bytes "29", bytes "encoded", [⟨bytes "01", bytes "subvalue", [], 8⟩], 7⟩,
         ⟨bytes "29", bytes "later", [⟨bytes "02", bytes "unseen", [], 6⟩], 5⟩]
        (bytes "29") (bytes "02") = none :=
  (((C16_get_first_match
      [⟨bytes "00", bytes "1111", [], 4⟩, ⟨bytes "01", bytes "2222", [], 4⟩,
       ⟨bytes "29", bytes "encoded", [⟨bytes "01", bytes "subvalue", [], 8⟩], 7⟩,
       ⟨bytes "29", bytes "later", [⟨bytes "02", bytes "unseen", [], 6⟩], 5⟩]
      (bytes "29")).2
      [⟨bytes "00", bytes "1111", [], 4⟩, ⟨bytes "01", bytes "2222", [], 4⟩]
      ⟨bytes "29", bytes "encoded", [⟨bytes "01", bytes "subvalue", [], 8⟩], 7⟩
      [⟨bytes "29", bytes "later", [⟨bytes "02", bytes "unseen", [], 6⟩], 5⟩]
      rfl rfl (by decide)).2 (bytes "02") (by decide)).1 (by decide)

theorem hexDigit_range (d : Nat) (h : d < 16) :
    (48 ≤ hexDigit d ∧ hexDigit d ≤ 57) ∨ (97 ≤ hexDigit d ∧ hexDigit d ≤ 102) := by
  unfold hexDigit
  split_ifs <;> omega

theorem sprintf04x_range (crc c : Nat) (h : c ∈ Sprintf04x crc) :
    (48 ≤ c ∧ c ≤ 57) ∨ (97 ≤ c ∧ c ≤ 102) := by
  have hmod : ∀ x : Nat, x % 16 < 16 := fun x => Nat.mod_lt _ (by omega)
  simp only [Sprintf04x, List.mem_cons, List.mem_singleton, List.not_mem_nil, or_false] at h
  rcases h with h | h | h | h <;> rw [h] <;> exact hexDigit_range _ (hmod _)

/-- C17: for every string `p`, `Checksum p upperCase` is exactly 4 bytes long, each a
hexadecimal digit, with letters A-F when `upperCase` is true and a-f when it is false;
and `Checksum p true` is the uppercase form of `Checksum p false`. -/
theorem C17_checksum_format (p : List Nat) :
    (∀ u, (Checksum p u).length = 4) ∧
    (∀ c ∈ Checksum p true, (48 ≤ c ∧ c ≤ 57) ∨ (65 ≤ c ∧ c ≤ 70)) ∧
    (∀ c ∈ Checksum p false, (48 ≤ c ∧ c ≤ 57) ∨ (97 ≤ c ∧ c ≤ 102)) ∧
    Checksum p true = ToUpper (Checksum p false) := by
  refine ⟨fun u => checksum_length p u, ?_, ?_, (toUpper_checksum p false).symm⟩
  · intro c hc
    simp only [Checksum, if_true, ToUpper, List.mem_map] at hc
    obtain ⟨d, hd, rfl⟩ := hc
    have := sprintf04x_range _ d hd
    unfold toUpperByte
    split_ifs <;> omega
  · intro c hc
    simp only [Checksum, Bool.false_eq_true, if_false, ToLower, List.mem_map] at hc
    obtain ⟨d, hd, rfl⟩ := hc
    have := sprintf04x_range _ d hd
    unfold toLowerByte
    split_ifs <;> omega

theorem C17_witness :
    (Checksum (bytes
      "00020101021229370016A0000006770101110113006680111111153037645802TH540520.156304")
      true).length = 4 ∧
    ((48 ≤ 66 ∧ 66 ≤ 57) ∨ (65 ≤ 66 ∧ 66 ≤ 70)) :=
  ⟨(C17_checksum_format (bytes
    "00020101021229370016A0000006770101110113006680111111153037645802TH540520.156304")).1 true,
   (C17_checksum_format (bytes
    "00020101021229370016A0000006770101110113006680111111153037645802TH540520.156304")).2.1
    66 (by decide!)⟩

theorem crcShift_lt (r : Nat) : crcShift r < 65536 := by
  unfold crcShift
  split <;> exact Nat.and_lt_two_pow _ (by decide : 0xFFFF < 2 ^ 16)

/-- The modelled checksum register stays within 16 bits, the range of the `uint16` that
`Sprintf04x` prints with 4 digits. -/
theorem crc16_lt (data : List Nat) (crc : Nat) : CRC16XMODEM data crc < 65536 := by
  unfold CRC16XMODEM
  have key : ∀ (l : List Nat) (acc : Nat), acc < 65536 → l.foldl crcByte acc < 65536 := by
    intro l
    induction l with
    | nil => intro acc h; exact h
    | cons b l ih => intro acc _; exact ih _ (crcShift_lt _)
  exact key data _ (Nat.and_lt_two_pow _ (by decide : 0xFFFF < 2 ^ 16))

/-- C18: `AnyID` with type MSISDN, target `0812223333` and no amount returns
`00020101021129370016A0000006770101110113006681222333353037645802TH63041DCF`; the payload
parses (strict, with sub-tags) into the tags 00 = `01`, 01 = `11`, 29 with the sub-tags
00 = `A000000677010111` and 01 = `0066812223333`, 53 = `764`, 58 = `TH` and 63 = `1DCF`,
which is the uppercase checksum of everything before the 4 checksum characters. -/
theorem C18_anyid_msisdn_example :
    AnyID ⟨bytes "MSISDN", bytes "0812223333", none⟩ =
      .ok (bytes "00020101021129370016A0000006770101110113006681222333353037645802TH63041DCF") ∧
    Parse (bytes "00020101021129370016A0000006770101110113006681222333353037645802TH63041DCF")
        true true =
      .ok ⟨bytes "00020101021129370016A0000006770101110113006681222333353037645802TH63041DCF",
        [Tag (bytes "00") (bytes "01"), Tag (bytes "01") (bytes "11"),
         ⟨bytes "29", bytes "0016A00000067701011101130066812223333",
          [Tag (bytes "00") (bytes "A000000677010111"),
           Tag (bytes "01") (bytes "0066812223333")], 37⟩,
         Tag (bytes "53") (bytes "764"), Tag (bytes "58") (bytes "TH"),
         Tag (bytes "63") (bytes "1DCF")]⟩ ∧
    Checksum (bytes "00020101021129370016A0000006770101110113006681222333353037645802TH6304")
      true = bytes "1DCF" := by
  decide!

theorem decode_withCRCTag (ts : List TLVTag) (c : List Nat) (u : Bool)
    (hleaf : ∀ t ∈ ts, LeafOK t) (hc2 : c.length = 2) (hcr : RuneCountInString c = 2) :
    Decode (WithCRCTag (Encode ts) c u) =
      .ok (ts ++ [Tag c (Checksum (Encode ts ++ c ++ bytes "04") u)]) := by
  have hcs4 := checksum_length (Encode ts ++ c ++ bytes "04") u
  have hallLeaf : ∀ t ∈ ts ++ [Tag c (Checksum (Encode ts ++ c ++ bytes "04") u)],
      LeafOK t := by
    intro t ht
    rcases List.mem_append.mp ht with ht | ht
    · exact hleaf t ht
    · rw [List.mem_singleton.mp ht]
      exact ⟨hc2, rfl, rfl, by simp only [Tag, hcs4]; omega⟩
  rw [withCRCTag_as_encode ts c u hcr]
  exact (decode_iff _ _).mpr (decodes_encode_leaf _ hallLeaf)

theorem assembled_expanded (ts : List TLVTag) (c : List Nat) (u : Bool)
    (hleaf : ∀ t ∈ ts, LeafOK t) (hc2 : c.length = 2) (hcr : RuneCountInString c = 2)
    (strict : Bool) (q : EMVCoQR)
    (h : Parse (WithCRCTag (Encode ts) c u) strict true = .ok q) :
    List.Forall₂ (fun t t1 => expandTag t = some t1)
      (ts ++ [Tag c (Checksum (Encode ts ++ c ++ bytes "04") u)]) q.tags := by
  obtain ⟨_, _, tags, hd, _, hq | hq⟩ := parse_ok_inv _ strict true q h
  · exact absurd hq.1 (by decide)
  · have h1 := (decode_iff _ _).mpr hd
    rw [decode_withCRCTag ts c u hleaf hc2 hcr] at h1
    cases h1
    exact expandTags_forall2 _ _ hq.2

theorem expandTag_short (t : TLVTag) (h : t.Value.length < 5) : expandTag t = some t := by
  have hp : tlvPattern t.Value = false := by
    cases hq : tlvPattern t.Value
    · rfl
    · have := tlvPattern_length _ hq; omega
  simp [expandTag, hp]

theorem expandTag_encoded (id : List Nat) (leafs : List TLVTag)
    (hl : ∀ t ∈ leafs, LeafOK t) (hne : leafs ≠ [])
    (hp : tlvPattern (Encode leafs) = true) :
    expandTag (Tag id (Encode leafs)) =
      some ⟨id, Encode leafs, leafs, ((Encode leafs).length : Int)⟩ := by
  have h5 := tlvPattern_length _ hp
  have hd : Decode (Encode leafs) = .ok leafs :=
    (decode_iff _ _).mpr (decodes_encode_leaf leafs hl)
  have hvalid : leafs.all
      (fun subTag => decide (subTag.Length = (subTag.Value.length : Int))) = true := by
    simp only [List.all_eq_true, decide_eq_true_eq]
    exact fun t ht => (hl t ht).2.2.1
  have hpos : leafs.length > 0 := List.length_pos.mpr hne
  have hc : (decide ((Encode leafs).length ≥ 4) && tlvPattern (Encode leafs)) = true := by
    simp [hp]; omega
  simp only [expandTag, Tag, hc, if_true, hd, hvalid, hpos, decide_True, Bool.and_self]

theorem promptPayTags_leaf (mid mval : List Nat) (amount : Option (List Nat))
    (hmid : mid.length = 2) (hmval : mval.length ≤ 99) (ha : amountFits amount) :
    ∀ t ∈ promptPayTags mid mval amount, LeafOK t := by
  intro t ht
  have h00 : LeafOK (Tag (bytes "00") (bytes "01")) := leafOK_tag _ _ (by decide) (by decide)
  have h12 : LeafOK (Tag (bytes "01") (bytes "12")) := leafOK_tag _ _ (by decide) (by decide)
  have h11 : LeafOK (Tag (bytes "01") (bytes "11")) := leafOK_tag _ _ (by decide) (by decide)
  have h53 : LeafOK (Tag (bytes "53") (bytes "764")) := leafOK_tag _ _ (by decide) (by decide)
  have h58 : LeafOK (Tag (bytes "58") (bytes "TH")) := leafOK_tag _ _ (by decide) (by decide)
  have hm : LeafOK (Tag mid mval) := leafOK_tag _ _ hmid hmval
  cases amount with
  | none =>
    simp only [promptPayTags, Option.isSome_none, Bool.false_eq_true, if_false,
      List.append_nil, List.mem_cons, List.mem_singleton, List.not_mem_nil, or_false] at ht
    rcases ht with ht | ht | ht | ht | ht <;> rw [ht] <;> assumption
  | some s =>
    have h54 : LeafOK (Tag (bytes "54") s) := leafOK_tag _ _ (by decide) (ha s rfl).1
    simp only [promptPayTags, Option.isSome_some, if_true, List.mem_append,
      List.mem_cons, List.mem_singleton, List.not_mem_nil, or_false] at ht
    rcases ht with (ht | ht | ht | ht | ht) | ht <;> rw [ht] <;> assumption

theorem tag29_get (proxy target : List Nat) (amount : Option (List Nat))
    (extra : List TLVTag) (hp2 : proxy.length = 2) (hp0 : proxy ≠ bytes "00")
    (ht : target.length ≤ 75) (ha : amountFits amount) (hextra : ∀ t ∈ extra, LeafOK t)
    (strict : Bool) (q : EMVCoQR)
    (h : Parse (WithCRCTag (Encode (promptPayTags (bytes "29")
      (Encode [Tag (bytes "00") (bytes "A000000677010111"), Tag proxy target]) amount ++ extra))
      (bytes "63") true) strict true = .ok q) :
    q.GetTag (bytes "29") proxy = some (Tag proxy target) := by
  have hl : ∀ t ∈ [Tag (bytes "00") (bytes "A000000677010111"), Tag proxy target],
      LeafOK t := by
    intro t ht2
    simp only [List.mem_cons, List.mem_singleton, List.not_mem_nil, or_false] at ht2
    rcases ht2 with ht2 | ht2
    · rw [ht2]; exact leafOK_tag _ _ (by decide) (by decide)
    · rw [ht2]; exact leafOK_tag _ _ hp2 (by omega)
  have hpat : tlvPattern (Encode [Tag (bytes "00") (bytes "A000000677010111"),
      Tag proxy target]) = true := by
    have h2 : encodeTag (Tag (bytes "00") (bytes "A000000677010111")) =
        bytes "0016A000000677010111" := by decide
    rw [encode_cons, h2]
    exact tlvPattern_append _ _ (by decide)
  have hlen : (Encode [Tag (bytes "00") (bytes "A000000677010111"),
      Tag proxy target]).length ≤ 99 :=
    (merchant_value (bytes "A000000677010111") proxy target [] (by decide) hp2
      (fun t ht2 => by cases ht2) (by simp only [encode_nil, List.length_nil]; omega)
      (bytes "29")).1
  have hleaf : ∀ t ∈ promptPayTags (bytes "29")
      (Encode [Tag (bytes "00") (bytes "A000000677010111"), Tag proxy target]) amount ++ extra,
      LeafOK t := by
    intro t ht2
    rcases List.mem_append.mp ht2 with ht2 | ht2
    · exact promptPayTags_leaf _ _ _ (by decide) hlen ha t ht2
    · exact hextra t ht2
  have hf := assembled_expanded _ (bytes "63") true hleaf (by decide) (by decide) strict q h
  simp only [promptPayTags, List.cons_append] at hf
  obtain ⟨a, r1, ha1, hr1, e1⟩ := List.forall₂_cons_left_iff.mp hf
  obtain ⟨b, r2, hb1, hr2, e2⟩ := List.forall₂_cons_left_iff.mp hr1
  obtain ⟨c, r3, hc1, _, e3⟩ := List.forall₂_cons_left_iff.mp hr2
  rw [expandTag_short _ (by decide)] at ha1
  have hb2 : b.ID = bytes "01" := by
    cases amount with
    | none =>
      simp only [Option.isSome_none, Bool.false_eq_true, if_false] at hb1
      rw [expandTag_short _ (by decide)] at hb1
      cases hb1
      rfl
    | some s =>
      simp only [Option.isSome_some, if_true] at hb1
      rw [expandTag_short _ (by decide)] at hb1
      cases hb1
      rfl
  rw [expandTag_encoded _ _ hl (by simp) hpat] at hc1
  cases ha1
  cases hc1
  have hpne : proxy ≠ [] := by
    intro h0
    rw [h0] at hp2
    cases hp2
  have hf1 : q.tags.find? (fun t => t.ID == bytes "29") =
      some ⟨bytes "29", Encode [Tag (bytes "00") (bytes "A000000677010111"), Tag proxy target],
        [Tag (bytes "00") (bytes "A000000677010111"), Tag proxy target],
        ((Encode [Tag (bytes "00") (bytes "A000000677010111"), Tag proxy target]).length : Int)⟩ := by
    rw [e1, e2, e3]
    exact find_first _ _ [Tag (bytes "00") (bytes "01"), b] r3 _ rfl rfl (by
      intro x hx
      simp only [List.mem_cons, List.mem_singleton, List.not_mem_nil, or_false] at hx
      rcases hx with hx | hx
      · rw [hx]; decide
      · rw [hx, hb2]; decide)
  simp only [EMVCoQR.GetTag, Get, hf1, hpne, ne_eq, not_false_eq_true, if_true]
  exact find_first _ _ [Tag (bytes "00") (bytes "A000000677010111")] [] _ rfl rfl (by
    intro x hx
    rw [List.mem_singleton.mp hx]
    exact fun h0 => hp0 h0.symm)

theorem proxyTypeValue_cases (typ proxy : List Nat) (h : proxyTypeValue typ = some proxy) :
    (typ = bytes "MSISDN" ∧ proxy = bytes "01") ∨ (typ = bytes "NATID" ∧ proxy = bytes "02") ∨
      (typ = bytes "EWALLETID" ∧ proxy = bytes "03") ∨
      (typ = bytes "BANKACC" ∧ proxy = bytes "04") := by
  unfold proxyTypeValue at h
  split_ifs at h with h1 h2 h3 h4 <;> simp only [Option.some.injEq] at h
  · exact Or.inl ⟨h1, h.symm⟩
  · exact Or.inr (Or.inl ⟨h2, h.symm⟩)
  · exact Or.inr (Or.inr (Or.inl ⟨h3, h.symm⟩))
  · exact Or.inr (Or.inr (Or.inr ⟨h4, h.symm⟩))

theorem proxyTypeValue_of (typ proxy : List Nat)
    (h : (typ = bytes "MSISDN" ∧ proxy = bytes "01") ∨
      (typ = bytes "NATID" ∧ proxy = bytes "02") ∨
      (typ = bytes "EWALLETID" ∧ proxy = bytes "03") ∨
      (typ = bytes "BANKACC" ∧ proxy = bytes "04")) : proxyTypeValue typ = some proxy := by
  rcases h with ⟨h1, h2⟩ | ⟨h1, h2⟩ | ⟨h1, h2⟩ | ⟨h1, h2⟩ <;> subst h1 <;> subst h2 <;> decide

theorem proxyTypeValue_none_iff (typ : List Nat) :
    proxyTypeValue typ = none ↔
      ¬ (typ = bytes "MSISDN" ∨ typ = bytes "NATID" ∨ typ = bytes "EWALLETID" ∨
        typ = bytes "BANKACC") := by
  unfold proxyTypeValue
  split_ifs with h1 h2 h3 h4 <;> simp [*]

/-- C19: `AnyID` returns the invalid-configuration error (field `Type`, with the
offending value) iff the type is not one of MSISDN, NATID, EWALLETID, BANKACC; for those
four it succeeds, the value of tag 29 is the encoding of the GUID tag 00 followed by the
proxy tag with ID 01, 02, 03, 04 respectively, and when the target fits (at most 75
bytes) every successful parse of the payload with sub-tags finds that proxy sub-tag under
tag 29. -/
theorem C19_anyid_type_and_proxy (cfg : AnyIDConfig) :
    ((∃ e, AnyID cfg = .error e) ↔
      ¬ (cfg.Typ = bytes "MSISDN" ∨ cfg.Typ = bytes "NATID" ∨ cfg.Typ = bytes "EWALLETID" ∨
        cfg.Typ = bytes "BANKACC")) ∧
    (¬ (cfg.Typ = bytes "MSISDN" ∨ cfg.Typ = bytes "NATID" ∨ cfg.Typ = bytes "EWALLETID" ∨
        cfg.Typ = bytes "BANKACC") → AnyID cfg = .error ⟨bytes "Type", cfg.Typ⟩) ∧
    (∀ proxy, ((cfg.Typ = bytes "MSISDN" ∧ proxy = bytes "01") ∨
        (cfg.Typ = bytes "NATID" ∧ proxy = bytes "02") ∨
        (cfg.Typ = bytes "EWALLETID" ∧ proxy = bytes "03") ∨
        (cfg.Typ = bytes "BANKACC" ∧ proxy = bytes "04")) →
      ∃ target p, AnyID cfg = .ok p ∧
        target = (if cfg.Typ = bytes "MSISDN" then msisdnTarget cfg.Target else cfg.Target) ∧
        p = WithCRCTag (Encode (promptPayTags (bytes "29")
          (Encode [Tag (bytes "00") (bytes "A000000677010111"), Tag proxy target])
          cfg.Amount)) (bytes "63") true ∧
        (target.length ≤ 75 → amountFits cfg.Amount → ∀ strict q,
          Parse p strict true = .ok q →
          q.GetTag (bytes "29") proxy = some (Tag proxy target))) := by
  refine ⟨?_, ?_, ?_⟩
  · rw [← proxyTypeValue_none_iff]
    unfold AnyID
    cases hp : proxyTypeValue cfg.Typ with
    | none => simp
    | some proxy => simp
  · intro h
    have hp := (proxyTypeValue_none_iff cfg.Typ).mpr h
    simp [AnyID, hp]
  · intro proxy hproxy
    have hp := proxyTypeValue_of cfg.Typ proxy hproxy
    refine ⟨_, _, by simp only [AnyID, hp], rfl, rfl, ?_⟩
    intro ht ha strict q hq
    have hp2 := proxyTypeValue_length _ _ hp
    have hp0 : proxy ≠ bytes "00" := by
      rcases hproxy with ⟨_, h2⟩ | ⟨_, h2⟩ | ⟨_, h2⟩ | ⟨_, h2⟩ <;> rw [h2] <;> decide
    have h2 := tag29_get proxy _ cfg.Amount [] hp2 hp0 ht ha (fun t ht2 => by cases ht2)
      strict q (by rw [List.append_nil]; exact hq)
    exact h2

theorem C19_witness :
    ∃ p q, AnyID ⟨bytes "NATID", bytes "1111111111111", none⟩ = .ok p ∧
      Parse p true true = .ok q ∧
      EMVCoQR.GetTag q (bytes "29") (bytes "02") =
        some (Tag (bytes "02") (bytes "1111111111111")) := by
  obtain ⟨target, p, h1, h2, h3, h4⟩ :=
    (C19_anyid_type_and_proxy ⟨bytes "NATID", bytes "1111111111111", none⟩).2.2 (bytes "02")
      (Or.inr (Or.inl ⟨rfl, rfl⟩))
  have ht : target = bytes "1111111111111" := by rw [h2]; decide
  subst ht
  obtain ⟨q, hq⟩ := (isOk_iff (Parse p true true)).mp (by rw [h3]; decide!)
  exact ⟨p, q, h1, hq, h4 (by decide) (fun s hs => by cases hs) true q hq⟩

/-- The value that the MSISDN branch of `AnyID` computes, in closed form. -/
theorem msisdnTarget_eq (target : List Nat) :
    msisdnTarget target =
      (if (bytes "66" ++ (if target.head? = some 48 then target.tail else target)).length ≤ 13
       then List.replicate
          (13 - (bytes "66" ++ (if target.head? = some 48 then target.tail else target)).length)
          48 ++ (bytes "66" ++ (if target.head? = some 48 then target.tail else target))
       else (bytes "66" ++ (if target.head? = some 48 then target.tail else target)).drop
          ((bytes "66" ++ (if target.head? = some 48 then target.tail else target)).length
            - 13)) := by
  have htrim : trimPrefixZero target =
      (if target.head? = some 48 then target.tail else target) := by
    cases target with
    | nil => simp [trimPrefixZero]
    | cons a r =>
      by_cases ha : a = 48
      · subst ha; simp [trimPrefixZero]
      · simp only [List.head?_cons, Option.some.injEq, ha, if_false]
        unfold trimPrefixZero
        split
        · rename_i heq
          simp only [List.cons.injEq] at heq
          exact absurd heq.1 ha
        · rfl
  rw [← htrim]
  unfold msisdnTarget
  simp only [List.length_append, List.length_replicate]
  by_cases h : (bytes "66").length + (trimPrefixZero target).length ≤ 13
  · rw [if_neg (by omega), if_pos h]
  · have h0 : 13 - ((bytes "66").length + (trimPrefixZero target).length) = 0 := by omega
    rw [if_pos (by omega), if_neg h, h0]
    simp

/-- The payload of `AnyID` for the type MSISDN, tag by tag, and the place of the proxy value
in it: the 13 bytes from offset 40. -/
theorem anyID_msisdn_payload (target : List Nat) (amount : Option (List Nat)) :
    AnyID ⟨bytes "MSISDN", target, amount⟩ =
      .ok (WithCRCTag (Encode ([Tag (bytes "00") (bytes "01"),
          Tag (bytes "01") (if amount.isSome then bytes "12" else bytes "11"),
          Tag (bytes "29") (Encode [Tag (bytes "00") (bytes "A000000677010111"),
            Tag (bytes "01") (msisdnTarget target)]),
          Tag (bytes "53") (bytes "764"), Tag (bytes "58") (bytes "TH")] ++
        (match amount with
         | some amountStr => [Tag (bytes "54") amountStr]
         | none => []))) (bytes "63") true) ∧
    ∃ rest, WithCRCTag (Encode ([Tag (bytes "00") (bytes "01"),
          Tag (bytes "01") (if amount.isSome then bytes "12" else bytes "11"),
          Tag (bytes "29") (Encode [Tag (bytes "00") (bytes "A000000677010111"),
            Tag (bytes "01") (msisdnTarget target)]),
          Tag (bytes "53") (bytes "764"), Tag (bytes "58") (bytes "TH")] ++
        (match amount with
         | some amountStr => [Tag (bytes "54") amountStr]
         | none => []))) (bytes "63") true =
      (bytes "000201" ++ (if amount.isSome then bytes "010212" else bytes "010211") ++
        bytes "29370016A0000006770101110113") ++ (msisdnTarget target ++ rest) := by
  have h13 := msisdnTarget_length target
  constructor
  · cases amount <;> simp [AnyID, proxyTypeValue, promptPayTags]
  · have h00 : encodeTag (Tag (bytes "00") (bytes "01")) = bytes "000201" := by decide
    have h12 : encodeTag (Tag (bytes "01") (bytes "12")) = bytes "010212" := by decide
    have h11 : encodeTag (Tag (bytes "01") (bytes "11")) = bytes "010211" := by decide
    have hg : encodeTag (Tag (bytes "00") (bytes "A000000677010111")) =
        bytes "0016A000000677010111" := by decide
    have hv : encodeTag (Tag (bytes "01") (msisdnTarget target)) =
        bytes "0113" ++ msisdnTarget target := by
      rw [encodeTag_tag, h13]
      rfl
    have h29 : encodeTag (Tag (bytes "29") (Encode [Tag (bytes "00") (bytes "A000000677010111"),
        Tag (bytes "01") (msisdnTarget target)])) =
        bytes "29370016A0000006770101110113" ++ msisdnTarget target := by
      have hl : (Encode [Tag (bytes "00") (bytes "A000000677010111"),
          Tag (bytes "01") (msisdnTarget target)]).length = 37 := by
        simp only [encode_cons, encode_nil, hg, hv, List.append_nil, List.length_append, h13]
        rfl
      rw [encodeTag_tag, hl]
      simp only [encode_cons, encode_nil, hg, hv, List.append_nil]
      have e : Sprintf02d ((37 : Nat) : Int) = bytes "37" := by decide
      rw [e]
      simp [bytes]
    generalize Encode [Tag (bytes "00") (bytes "A000000677010111"),
      Tag (bytes "01") (msisdnTarget target)] = x at h29 ⊢
    cases amount with
    | none =>
      simp only [WithCRCTag, Option.isSome_none, Bool.false_eq_true, if_false,
        List.cons_append, List.nil_append, List.append_nil, encode_cons, h00, h11, h29,
        List.append_assoc]
      exact ⟨_, rfl⟩
    | some a =>
      simp only [WithCRCTag, Option.isSome_some, if_true,
        List.cons_append, List.nil_append, encode_cons, h00, h12, h29,
        List.append_assoc]
      exact ⟨_, rfl⟩

/-- C20: for every target, the MSISDN proxy value that `AnyID` embeds is exactly 13 bytes
long: with `s` the target with one leading `0` removed, if it has one, and `66` prepended,
the value `v` is `s` left-padded with `0` to 13 bytes when `s` has at most 13 bytes and the
last 13 bytes of `s` when `s` is longer. The payload that `AnyID` returns carries `v` as
sub-tag 01 of tag 29: `v` is its 13 bytes from offset 40, behind the header
`29370016A0000006770101110113`, and every parse with sub-tags returns `v` as the value of
sub-tag 29.01. -/
theorem C20_msisdn_target (target : List Nat) (amount : Option (List Nat)) :
    ∃ s v p,
      s = bytes "66" ++ (if target.head? = some 48 then target.tail else target) ∧
      v = (if s.length ≤ 13 then List.replicate (13 - s.length) 48 ++ s
        else s.drop (s.length - 13)) ∧
      v.length = 13 ∧
      AnyID ⟨bytes "MSISDN", target, amount⟩ = .ok p ∧
      p = WithCRCTag (Encode ([Tag (bytes "00") (bytes "01"),
          Tag (bytes "01") (if amount.isSome then bytes "12" else bytes "11"),
          Tag (bytes "29") (Encode [Tag (bytes "00") (bytes "A000000677010111"),
            Tag (bytes "01") v]),
          Tag (bytes "53") (bytes "764"), Tag (bytes "58") (bytes "TH")] ++
        (match amount with
         | some amountStr => [Tag (bytes "54") amountStr]
         | none => []))) (bytes "63") true ∧
      p.take 40 = bytes "000201" ++
        (if amount.isSome then bytes "010212" else bytes "010211") ++
        bytes "29370016A0000006770101110113" ∧
      (p.drop 40).take 13 = v ∧
      (amountFits amount → ∀ strict,
        (∃ q, Parse p strict true = .ok q) ∧
        ∀ q, Parse p strict true = .ok q →
          q.GetTag (bytes "29") (bytes "01") = some (Tag (bytes "01") v) ∧
          q.GetTagValue (bytes "29") (bytes "01") = v) := by
  obtain ⟨hany, rest, hform⟩ := anyID_msisdn_payload target amount
  have h13 := msisdnTarget_length target
  have h40 : (bytes "000201" ++ (if amount.isSome then bytes "010212" else bytes "010211") ++
      bytes "29370016A0000006770101110113").length = 40 := by
    cases amount <;> rfl
  refine ⟨_, msisdnTarget target, _, rfl, msisdnTarget_eq target, h13, hany, rfl, ?_, ?_, ?_⟩
  · rw [hform, List.take_left' h40]
  · rw [hform, List.drop_left' h40, List.take_left' h13]
  · intro ha strict
    have hp : AnyID ⟨bytes "MSISDN", target, amount⟩ =
        .ok (WithCRCTag (Encode (promptPayTags (bytes "29")
          (Encode [Tag (bytes "00") (bytes "A000000677010111"),
            Tag (bytes "01") (msisdnTarget target)]) amount)) (bytes "63") true) := by
      simp [AnyID, proxyTypeValue]
    have heq := hany.symm.trans hp
    simp only [Except.ok.injEq] at heq
    rw [heq]
    constructor
    · obtain ⟨q, hq, _⟩ := anyID_parses ⟨bytes "MSISDN", target, amount⟩ _ hp
        (Or.inl rfl) ha strict true
      exact ⟨q, hq⟩
    · intro q hq
      have hg := tag29_get (bytes "01") (msisdnTarget target) amount [] (by decide) (by decide)
        (by omega) ha (fun t ht => by cases ht) strict q (by rw [List.append_nil]; exact hq)
      exact ⟨hg, by simp [EMVCoQR.GetTagValue, hg, Tag]⟩

theorem C20_witness :
    AnyID ⟨bytes "MSISDN", bytes "0812223333444555", none⟩ =
      .ok (bytes "00020101021129370016A0000006770101110113222333344455553037645802TH630425D2") ∧
    ∃ p q, AnyID ⟨bytes "MSISDN", bytes "0812223333", none⟩ = .ok p ∧
      (p.drop 40).take 13 = bytes "0066812223333" ∧
      Parse p true true = .ok q ∧
      EMVCoQR.GetTagValue q (bytes "29") (bytes "01") = bytes "0066812223333" := by
  refine ⟨by decide!, ?_⟩
  obtain ⟨s, v, p, hs, hv, _, hp, _, _, hd, hparse⟩ :=
    C20_msisdn_target (bytes "0812223333") none
  have hv2 : v = bytes "0066812223333" := by
    rw [hv, hs]
    decide
  rw [hv2] at hd hparse
  obtain ⟨⟨q, hq⟩, hget⟩ := hparse (fun s hs => by cases hs) true
  exact ⟨p, q, hp, hd, hq, (hget q hq).2⟩

theorem promptPay_begins (mid mval c : List Nat) (amount : Option (List Nat))
    (extra : List TLVTag) (u : Bool) :
    ∃ rest, WithCRCTag (Encode (promptPayTags mid mval amount ++ extra)) c u =
      bytes "000201" ++ (if amount.isSome then bytes "010212" else bytes "010211") ++ rest := by
  have h00 : encodeTag (Tag (bytes "00") (bytes "01")) = bytes "000201" := by decide
  have h12 : encodeTag (Tag (bytes "01") (bytes "12")) = bytes "010212" := by decide
  have h11 : encodeTag (Tag (bytes "01") (bytes "11")) = bytes "010211" := by decide
  cases amount with
  | none =>
    simp only [WithCRCTag, promptPayTags, Option.isSome_none, Bool.false_eq_true, if_false,
      List.cons_append, encode_cons, h00, h11, List.append_assoc]
    exact ⟨_, rfl⟩
  | some s =>
    simp only [WithCRCTag, promptPayTags, Option.isSome_some, if_true,
      List.cons_append, encode_cons, h00, h12, List.append_assoc]
    exact ⟨_, rfl⟩

/-- C21: every payload generated by `AnyID`, `BillPayment` or `TrueMoney` begins with
`000201`, followed by `010212` when an amount is supplied and by `010211` when the amount
is absent. -/
theorem C21_promptpay_header :
    (∀ cfg p, AnyID cfg = .ok p →
      ∃ rest, p = bytes "000201" ++
        (if cfg.Amount.isSome then bytes "010212" else bytes "010211") ++ rest) ∧
    (∀ cfg p, BillPayment cfg = .ok p →
      ∃ rest, p = bytes "000201" ++
        (if cfg.Amount.isSome then bytes "010212" else bytes "010211") ++ rest) ∧
    (∀ cfg p, TrueMoney cfg = .ok p →
      ∃ rest, p = bytes "000201" ++
        (if cfg.Amount.isSome then bytes "010212" else bytes "010211") ++ rest) := by
  refine ⟨?_, ?_, ?_⟩
  · intro cfg p h
    unfold AnyID at h
    cases hproxy : proxyTypeValue cfg.Typ with
    | none => simp [hproxy] at h
    | some proxy =>
      simp only [hproxy, Except.ok.injEq] at h
      subst h
      have := promptPay_begins (bytes "29") (Encode [Tag (bytes "00") (bytes "A000000677010111"),
        Tag proxy (if cfg.Typ = bytes "MSISDN" then msisdnTarget cfg.Target else cfg.Target)])
        (bytes "63") cfg.Amount [] true
      simpa only [List.append_nil] using this
  · intro cfg p h
    unfold BillPayment at h
    simp only [Except.ok.injEq] at h
    subst h
    exact promptPay_begins _ _ _ _ _ _
  · intro cfg p h
    unfold TrueMoney at h
    simp only [Except.ok.injEq] at h
    subst h
    exact promptPay_begins _ _ _ _ _ _

theorem C21_witness :
    ∃ rest, bytes
      "00020101021229370016A0000006770101110113006681222333353037645802TH540530.0063043CAD" =
      bytes "000201" ++ (if (some (bytes "30.00")).isSome then bytes "010212"
        else bytes "010211") ++ rest :=
  C21_promptpay_header.1 ⟨bytes "MSISDN", bytes "0812223333", some (bytes "30.00")⟩ _
    (by decide!)

/-- C22: for every `BillPayment` configuration without amount, the payload equals
`WithCRCTag` (tag ID 63, uppercase) of the encoding of the tags 00 = `01`, 01 = `11`,
30 = encoding of 00 = `A000000677010112`, 01 = biller ID, 02 = ref1 and 03 = ref2 only when
ref2 is present, then 53 = `764`, 58 = `TH`, and 62 = encoding of 07 = ref3 only when ref3
is present. The literal examples of the tests evaluate to the expected payloads. -/
theorem C22_billpayment_layout (billerID ref1 : List Nat) (ref2 ref3 : Option (List Nat)) :
    BillPayment ⟨billerID, none, ref1, ref2, ref3⟩ =
      .ok (WithCRCTag (Encode
        ([Tag (bytes "00") (bytes "01"), Tag (bytes "01") (bytes "11"),
          Tag (bytes "30") (Encode
            ([Tag (bytes "00") (bytes "A000000677010112"), Tag (bytes "01") billerID,
              Tag (bytes "02") ref1] ++
             (match ref2 with
              | some r => [Tag (bytes "03") r]
              | none => []))),
          Tag (bytes "53") (bytes "764"), Tag (bytes "58") (bytes "TH")] ++
         (match ref3 with
          | some r => [Tag (bytes "62") (Encode [Tag (bytes "07") r])]
          | none => []))) (bytes "63") true) ∧
    BillPayment ⟨bytes "0112233445566", none, bytes "CUSTOMER001", some (bytes "INV001"),
        some (bytes "SCB")⟩ =
      .ok (bytes ("00020101021130620016A000000677010112011301122334455660211CUSTOMER001" ++
        "0306INV00153037645802TH62070703SCB6304780E")) ∧
    BOTBarcodeToQR (bytes "099999999999990") (bytes "111222333444") none none =
      .ok (bytes ("00020101021130550016A0000006770101120115099999999999990" ++
        "021211122233344453037645802TH63043EE7")) := by
  refine ⟨?_, by decide!, by decide!⟩
  simp only [BillPayment, promptPayTags, Option.isSome_none, Bool.false_eq_true, if_false,
    List.append_nil]

/-- C23: for every `TrueMoney` configuration without amount, the payload equals
`WithCRCTag` (tag ID 63, uppercase) of the encoding of the tags 00 = `01`, 01 = `11`,
29 = encoding of 00 = `A000000677010111` and 03 = `14000` followed by the mobile number,
then 53 = `764`, 58 = `TH`, and 81 = `EncodeTag81 message` only when a message is present;
mobile `0801111111` without message gives the payload of the test. -/
theorem C23_truemoney_layout (mobileNo : List Nat) (message : Option (List Nat)) :
    TrueMoney ⟨mobileNo, none, message⟩ =
      .ok (WithCRCTag (Encode
        ([Tag (bytes "00") (bytes "01"), Tag (bytes "01") (bytes "11"),
          Tag (bytes "29") (Encode
            [Tag (bytes "00") (bytes "A000000677010111"),
             Tag (bytes "03") (bytes "14000" ++ mobileNo)]),
          Tag (bytes "53") (bytes "764"), Tag (bytes "58") (bytes "TH")] ++
         (match message with
          | some m => [Tag (bytes "81") (EncodeTag81 m)]
          | none => []))) (bytes "63") true) ∧
    TrueMoney ⟨bytes "0801111111", none, none⟩ =
      .ok (bytes
        "00020101021129390016A000000677010111031514000080111111153037645802TH63047C0F") := by
  refine ⟨?_, by decide!⟩
  simp only [TrueMoney, promptPayTags, Option.isSome_none, Bool.false_eq_true, if_false,
    List.append_nil]

/-- C25: for every `SlipVerify` configuration, the payload equals `WithCRCTag` (tag ID
91, uppercase) of the encoding of the tags 00 = encoding of 00 = `000001`, 01 = sending
bank, 02 = transaction reference, and 51 = `TH`; bank `002` with reference
`0002123123121200011` gives the payload of the test. -/
theorem C25_slipverify_layout (sendingBank transRef : List Nat) :
    SlipVerify ⟨sendingBank, transRef⟩ =
      .ok (WithCRCTag (Encode
        [Tag (bytes "00") (Encode [Tag (bytes "00") (bytes "000001"),
           Tag (bytes "01") sendingBank, Tag (bytes "02") transRef]),
         Tag (bytes "51") (bytes "TH")]) (bytes "91") true) ∧
    SlipVerify ⟨bytes "002", bytes "0002123123121200011"⟩ =
      .ok (bytes "004000060000010103002021900021231231212000115102TH91049C30") :=
  ⟨rfl, by decide!⟩

/-- C24: on the message U+1F600 (one character, the UTF-8 bytes F0 9F 98 80) the code
prints the 5 digits `1F600`, not 4 digits per character, against the doc comment of
`EncodeTag81` (a 4-digit group per character, the UTF-16 big-endian hex `D83DDE00`); on
`Hi`, on the empty message and on a Thai letter it prints 4 digits per character. -/
theorem C24_encodeTag81_five_digits :
    EncodeTag81 [0xF0, 0x9F, 0x98, 0x80] = bytes "1F600" ∧
    RuneCountInString [0xF0, 0x9F, 0x98, 0x80] = 1 ∧
    (EncodeTag81 [0xF0, 0x9F, 0x98, 0x80]).length ≠
      4 * RuneCountInString [0xF0, 0x9F, 0x98, 0x80] ∧
    EncodeTag81 [0xF0, 0x9F, 0x98, 0x80] ≠ bytes "D83DDE00" ∧
    EncodeTag81 (bytes "Hi") = bytes "00480069" ∧
    EncodeTag81 [] = [] ∧
    EncodeTag81 [0xE0, 0xB8, 0xAA] = bytes "0E2A" := by
  refine ⟨by decide!, by decide!, by decide!, by decide!, by decide!, by decide!, by decide!⟩

/-- C30: for every BOT barcode with no amount, `String` is `|`, the biller ID, a carriage
return, ref1, a carriage return, ref2 (empty when absent, the field is never omitted) and
a carriage return followed by `0`, whatever the conversion of amounts is; biller
`099999999999990` with ref1 `111222333444` gives the string of the test. -/
theorem C30_barcode_string_no_amount {F : Type} (minorUnits : F → Int)
    (billerID ref1 : List Nat) (ref2 : Option (List Nat)) :
    BOTBarcode.String minorUnits ⟨billerID, ref1, ref2, none⟩ =
      bytes "|" ++ billerID ++ bytes "\r" ++ ref1 ++ bytes "\r" ++
        (match ref2 with
         | some r => r
         | none => []) ++ bytes "\r0" ∧
    BOTBarcode.String minorUnits
        ⟨bytes "099999999999990", bytes "111222333444", none, none⟩ =
      bytes "|099999999999990\r111222333444\r\r0" := by
  have h1 : bytes "\r" = [13] := by decide
  have h2 : bytes "\r0" = [13] ++ bytes "0" := by decide
  refine ⟨?_, ?_⟩
  · simp only [BOTBarcode.String, h1, h2, List.append_assoc]
  · simp only [BOTBarcode.String]
    decide

/-- C29: for every `Parse` that succeeds, `GetPayload` is the input payload, `Decode` of the
payload succeeds and the tags of the result have, position by position, the IDs, Lengths
and Values of the decoded tags, with sub-tag expansion or without; and without expansion
no tag of the result has sub-tags. -/
theorem C29_parse_keeps_payload_and_tags (p : List Nat) (strict e : Bool) (q : EMVCoQR)
    (h : Parse p strict e = .ok q) :
    q.GetPayload = p ∧
    ∃ tags, Decode p = .ok tags ∧
      List.Forall₂ (fun (t d : TLVTag) =>
        t.ID = d.ID ∧ t.Length = d.Length ∧ t.Value = d.Value) q.GetTags tags ∧
      (e = false → q.GetTags = tags ∧ ∀ t ∈ q.GetTags, t.SubTags = []) := by
  obtain ⟨_, hp, tags, hd, _, hq | hq⟩ := parse_ok_inv p strict e q h
  · refine ⟨hp, tags, (decode_iff _ _).mpr hd, ?_, ?_⟩
    · simp only [EMVCoQR.GetTags, hq.2]
      exact List.forall₂_same.mpr (fun _ _ => ⟨rfl, rfl, rfl⟩)
    · intro _
      refine ⟨hq.2, fun t ht => ?_⟩
      have ht2 : t ∈ tags := hq.2 ▸ ht
      exact (decodes_leaf hd t ht2).2.1
  · refine ⟨hp, tags, (decode_iff _ _).mpr hd, ?_, ?_⟩
    · have h2 := expandTags_rule tags q.tags (fun t ht => (decodes_leaf hd t ht).2.1) hq.2
      simp only [EMVCoQR.GetTags]
      exact List.Forall₂.flip
        (List.Forall₂.imp (fun t t1 h3 => ⟨h3.1, h3.2.2.1, h3.2.1⟩) h2)
    · intro he
      rw [he] at hq
      exact absurd hq.1 (by decide)

theorem C29_witness :
    (Parse (bytes "000201") false false = .ok ⟨bytes "000201", [Tag (bytes "00") (bytes "01")]⟩) ∧
    (EMVCoQR.GetPayload ⟨bytes "000201", [Tag (bytes "00") (bytes "01")]⟩ = bytes "000201" ∧
      ∃ tags, Decode (bytes "000201") = .ok tags ∧
        List.Forall₂ (fun (t d : TLVTag) =>
          t.ID = d.ID ∧ t.Length = d.Length ∧ t.Value = d.Value)
          (EMVCoQR.GetTags ⟨bytes "000201", [Tag (bytes "00") (bytes "01")]⟩) tags ∧
        (false = false →
          EMVCoQR.GetTags ⟨bytes "000201", [Tag (bytes "00") (bytes "01")]⟩ = tags ∧
          ∀ t ∈ EMVCoQR.GetTags ⟨bytes "000201", [Tag (bytes "00") (bytes "01")]⟩,
            t.SubTags = [])) :=
  ⟨by decide!, C29_parse_keeps_payload_and_tags (bytes "000201") false false
    ⟨bytes "000201", [Tag (bytes "00") (bytes "01")]⟩ (by decide!)⟩

/-- C28: `validate.SlipVerify` returns data exactly when `Parse` with strict checking and
sub-tag expansion succeeds, the value of sub-tag 00.00 is `000001` and the values of
sub-tags 00.01 and 00.02 are non-empty; the data are then the values of 00.01 (sending bank)
and 00.02 (transaction reference). The payload of the test gives bank `014` and reference
`00111222233344ABCD12`. -/
theorem C28_validate_slipverify_iff :
    validate.SlipVerify
        (bytes "004100060000010103014022000111222233344ABCD125102TH910417DF") =
      .ok ⟨bytes "014", bytes "00111222233344ABCD12"⟩ ∧
    ∀ (p : List Nat) (d : SlipVerifyData),
      validate.SlipVerify p = .ok d ↔
        ∃ q, Parse p true true = .ok q ∧
          q.GetTagValue (bytes "00") (bytes "00") = bytes "000001" ∧
          q.GetTagValue (bytes "00") (bytes "01") ≠ [] ∧
          q.GetTagValue (bytes "00") (bytes "02") ≠ [] ∧
          d = ⟨q.GetTagValue (bytes "00") (bytes "01"),
               q.GetTagValue (bytes "00") (bytes "02")⟩ := by
  refine ⟨by decide!, ?_⟩
  intro p d
  unfold validate.SlipVerify
  cases hparse : Parse p true true with
  | panic => simp
  | error e => simp
  | ok q =>
    simp only [Outcome.ok.injEq, exists_eq_left']
    by_cases hc : q.GetTagValue (bytes "00") (bytes "00") ≠ bytes "000001" ∨
        q.GetTagValue (bytes "00") (bytes "01") = [] ∨
        q.GetTagValue (bytes "00") (bytes "02") = []
    · rw [if_pos hc]
      constructor
      · intro h; cases h
      · rintro ⟨h0, h1, h2, _⟩
        rcases hc with hc | hc | hc
        · exact absurd h0 hc
        · exact absurd hc h1
        · exact absurd hc h2
    · rw [if_neg hc]
      simp only [not_or, not_not] at hc
      constructor
      · intro h
        simp only [Outcome.ok.injEq] at h
        exact ⟨hc.1, hc.2.1, hc.2.2, h.symm⟩
      · rintro ⟨_, _, _, hd⟩
        rw [hd]

theorem checksum_lower_range (p : List Nat) (c : Nat) (hc : c ∈ Checksum p false) :
    (48 ≤ c ∧ c ≤ 57) ∨ (97 ≤ c ∧ c ≤ 102) := by
  simp only [Checksum, Bool.false_eq_true, if_false, ToLower, List.mem_map] at hc
  obtain ⟨d, hd, rfl⟩ := hc
  have := sprintf04x_range _ d hd
  unfold toLowerByte
  split_ifs <;> omega

/-- The five sub-tags of tag 00 that `TrueMoneySlipVerify` builds are leaves, and their
encoding is at most 99 bytes long when the three fields have at most 75 bytes together. -/
theorem trueMoneySlip_leafs (e t d : List Nat) (hl : e.length + t.length + d.length ≤ 75) :
    (∀ x ∈ [Tag (bytes "00") (bytes "01"), Tag (bytes "01") (bytes "01"),
        Tag (bytes "02") e, Tag (bytes "03") t, Tag (bytes "04") d], LeafOK x) ∧
    (Encode [Tag (bytes "00") (bytes "01"), Tag (bytes "01") (bytes "01"),
        Tag (bytes "02") e, Tag (bytes "03") t, Tag (bytes "04") d]).length ≤ 99 ∧
    tlvPattern (Encode [Tag (bytes "00") (bytes "01"), Tag (bytes "01") (bytes "01"),
        Tag (bytes "02") e, Tag (bytes "03") t, Tag (bytes "04") d]) = true := by
  have h1 : e.length ≤ 99 := by omega
  have h2 : t.length ≤ 99 := by omega
  have h3 : d.length ≤ 99 := by omega
  refine ⟨?_, ?_, ?_⟩
  · intro x hx
    simp only [List.mem_cons, List.mem_singleton, List.not_mem_nil, or_false] at hx
    rcases hx with hx | hx | hx | hx | hx
    · rw [hx]; exact leafOK_tag _ _ (by decide) (by decide)
    · rw [hx]; exact leafOK_tag _ _ (by decide) (by decide)
    · rw [hx]; exact leafOK_tag _ _ (by decide) h1
    · rw [hx]; exact leafOK_tag _ _ (by decide) h2
    · rw [hx]; exact leafOK_tag _ _ (by decide) h3
  · simp only [encode_cons, encode_nil, List.append_nil, List.length_append]
    rw [encodeTag_tag_length _ _ (by decide) (by decide),
      encodeTag_tag_length _ _ (by decide) (by decide),
      encodeTag_tag_length _ _ (by decide) h1, encodeTag_tag_length _ _ (by decide) h2,
      encodeTag_tag_length _ _ (by decide) h3]
    have h6 : (bytes "01").length = 2 := by decide
    rw [h6]; omega
  · rw [encode_cons]
    exact tlvPattern_tag00 [49] _ (by decide)

/-- In a payload assembled from tag 00 with encoded sub-tags, further leaves and the
checksum tag 91, `GetTag "00" sub` of the parsed result is the first of the sub-tags with
the ID `sub`. -/
theorem slip_get (leafs rest : List TLVTag) (u strict : Bool) (q : EMVCoQR)
    (hleafs : ∀ t ∈ leafs, LeafOK t) (hne : leafs ≠ [])
    (hlen : (Encode leafs).length ≤ 99) (hp : tlvPattern (Encode leafs) = true)
    (hrest : ∀ t ∈ rest, LeafOK t)
    (h : Parse (WithCRCTag (Encode (Tag (bytes "00") (Encode leafs) :: rest)) (bytes "91") u)
      strict true = .ok q) (sub : List Nat) (hsub : sub ≠ []) :
    q.GetTag (bytes "00") sub = leafs.find? (fun t => t.ID == sub) := by
  have hall : ∀ t ∈ Tag (bytes "00") (Encode leafs) :: rest, LeafOK t := by
    intro t ht
    rcases List.mem_cons.mp ht with ht | ht
    · rw [ht]; exact leafOK_tag _ _ (by decide) hlen
    · exact hrest t ht
  have h2 := assembled_expanded _ (bytes "91") u hall (by decide) (by decide) strict q h
  rw [List.cons_append] at h2
  obtain ⟨t1, tl, h3, _, heq⟩ := List.forall₂_cons_left_iff.mp h2
  rw [expandTag_encoded _ leafs hleafs hne hp] at h3
  have h5 : q.tags.find? (fun x => x.ID == bytes "00") = some t1 := by
    have : t1.ID = bytes "00" := by rw [← Option.some.inj h3]
    rw [heq]
    simp [List.find?, this]
  simp only [EMVCoQR.GetTag, Get, h5, if_pos hsub]
  rw [← Option.some.inj h3]

/-- C26: for every `TrueMoneySlipVerify` configuration, the payload is the encoding of
the single tag 00 followed by `9104` and 4 checksum characters, each a digit or a lowercase
letter a-f; and when the three fields have at most 75 bytes together, `Decode` reads the
payload as exactly the two tags 00 and 91 (no tag 51). -/
theorem C26_truemoney_slip_layout (cfg : TrueMoneySlipVerifyConfig) :
    ∃ tag00 cs,
      tag00 = Encode [Tag (bytes "00") (bytes "01"), Tag (bytes "01") (bytes "01"),
        Tag (bytes "02") cfg.EventType, Tag (bytes "03") cfg.TransactionID,
        Tag (bytes "04") cfg.Date] ∧
      TrueMoneySlipVerify cfg =
        .ok (Encode [Tag (bytes "00") tag00] ++ bytes "9104" ++ cs) ∧
      cs = Checksum (Encode [Tag (bytes "00") tag00] ++ bytes "9104") false ∧
      cs.length = 4 ∧
      (∀ c ∈ cs, (48 ≤ c ∧ c ≤ 57) ∨ (97 ≤ c ∧ c ≤ 102)) ∧
      (cfg.EventType.length + cfg.TransactionID.length + cfg.Date.length ≤ 75 →
        Decode (Encode [Tag (bytes "00") tag00] ++ bytes "9104" ++ cs) =
          .ok [Tag (bytes "00") tag00, Tag (bytes "91") cs]) := by
  have h9 : ∀ x : List Nat, x ++ bytes "91" ++ bytes "04" = x ++ bytes "9104" := by
    intro x
    rw [List.append_assoc]
    rfl
  refine ⟨_, _, rfl, ?_, rfl, checksum_length _ _, fun c hc => checksum_lower_range _ c hc, ?_⟩
  · simp only [TrueMoneySlipVerify]
    rw [withCRCTag_eq _ _ _ (by decide), h9]
  · intro hl
    obtain ⟨hleafs, hlen, _⟩ := trueMoneySlip_leafs _ _ _ hl
    have hd := decode_withCRCTag
      [Tag (bytes "00") (Encode [Tag (bytes "00") (bytes "01"), Tag (bytes "01") (bytes "01"),
        Tag (bytes "02") cfg.EventType, Tag (bytes "03") cfg.TransactionID,
        Tag (bytes "04") cfg.Date])] (bytes "91") false
      (by
        intro t ht
        rw [List.mem_singleton.mp ht]
        exact leafOK_tag _ _ (by decide) hlen)
      (by decide) (by decide)
    rw [withCRCTag_eq _ _ _ (by decide), h9] at hd
    rw [hd]
    rfl

theorem C26_witness :
    (bytes "P2P").length + (bytes "TXN123456").length + (bytes "08122024").length ≤ 75 ∧
    TrueMoneySlipVerify ⟨bytes "P2P", bytes "TXN123456", bytes "08122024"⟩ =
      .ok (bytes "00440002010102010203P2P0309TXN12345604080812202491049dc7") ∧
    ∃ tag00 cs,
      tag00 = Encode [Tag (bytes "00") (bytes "01"), Tag (bytes "01") (bytes "01"),
        Tag (bytes "02") (bytes "P2P"), Tag (bytes "03") (bytes "TXN123456"),
        Tag (bytes "04") (bytes "08122024")] ∧
      TrueMoneySlipVerify ⟨bytes "P2P", bytes "TXN123456", bytes "08122024"⟩ =
        .ok (Encode [Tag (bytes "00") tag00] ++ bytes "9104" ++ cs) ∧
      cs = Checksum (Encode [Tag (bytes "00") tag00] ++ bytes "9104") false ∧
      cs.length = 4 ∧
      (∀ c ∈ cs, (48 ≤ c ∧ c ≤ 57) ∨ (97 ≤ c ∧ c ≤ 102)) ∧
      ((bytes "P2P").length + (bytes "TXN123456").length + (bytes "08122024").length ≤ 75 →
        Decode (Encode [Tag (bytes "00") tag00] ++ bytes "9104" ++ cs) =
          .ok [Tag (bytes "00") tag00, Tag (bytes "91") cs]) :=
  ⟨by decide, by decide!,
    C26_truemoney_slip_layout ⟨bytes "P2P", bytes "TXN123456", bytes "08122024"⟩⟩

/-- C27: for every `TrueMoneySlipVerify` configuration whose EventType, TransactionID and
Date are non-empty and have at most 75 bytes together, the generator returns a payload on
which `validate.TrueMoneySlipVerify` succeeds and returns exactly the EventType, the
TransactionID and the Date of the configuration. -/
theorem C27_truemoney_slip_roundtrip (cfg : TrueMoneySlipVerifyConfig)
    (he : cfg.EventType ≠ []) (ht : cfg.TransactionID ≠ []) (hd : cfg.Date ≠ [])
    (hl : cfg.EventType.length + cfg.TransactionID.length + cfg.Date.length ≤ 75) :
    ∃ p, TrueMoneySlipVerify cfg = .ok p ∧
      validate.TrueMoneySlipVerify p = .ok ⟨cfg.EventType, cfg.TransactionID, cfg.Date⟩ := by
  obtain ⟨q, hq⟩ := trueMoneySlipVerify_parses cfg _ rfl hl true true
  refine ⟨_, rfl, ?_⟩
  obtain ⟨hleafs, hlen, hp⟩ := trueMoneySlip_leafs _ _ _ hl
  have hget := slip_get _ [] false true q hleafs (by simp) hlen hp (fun t h => by cases h) hq
  have g0 := hget (bytes "00") (by decide)
  have g1 := hget (bytes "01") (by decide)
  have g2 := hget (bytes "02") (by decide)
  have g3 := hget (bytes "03") (by decide)
  have g4 := hget (bytes "04") (by decide)
  have e1 : (bytes "00" == bytes "01") = false := by decide
  have e2 : (bytes "00" == bytes "02") = false := by decide
  have e3 : (bytes "00" == bytes "03") = false := by decide
  have e4 : (bytes "00" == bytes "04") = false := by decide
  have e5 : (bytes "01" == bytes "02") = false := by decide
  have e6 : (bytes "01" == bytes "03") = false := by decide
  have e7 : (bytes "01" == bytes "04") = false := by decide
  have e8 : (bytes "02" == bytes "03") = false := by decide
  have e9 : (bytes "02" == bytes "04") = false := by decide
  have e10 : (bytes "03" == bytes "04") = false := by decide
  simp only [List.find?, Tag, beq_self_eq_true, e1, e2, e3, e4, e5, e6, e7, e8, e9, e10]
    at g0 g1 g2 g3 g4
  have hparse : Parse (WithCRCTag (Encode [Tag (bytes "00") (Encode
      [Tag (bytes "00") (bytes "01"), Tag (bytes "01") (bytes "01"),
       Tag (bytes "02") cfg.EventType, Tag (bytes "03") cfg.TransactionID,
       Tag (bytes "04") cfg.Date])]) (bytes "91") false) true true = .ok q := hq
  simp only [validate.TrueMoneySlipVerify, hparse, EMVCoQR.GetTagValue, g0, g1, g2, g3, g4]
  simp [he, ht, hd]

theorem C27_witness :
    ∃ p, TrueMoneySlipVerify ⟨bytes "P2P", bytes "TXN123456", bytes "08122024"⟩ = .ok p ∧
      validate.TrueMoneySlipVerify p =
        .ok ⟨bytes "P2P", bytes "TXN123456", bytes "08122024"⟩ :=
  C27_truemoney_slip_roundtrip ⟨bytes "P2P", bytes "TXN123456", bytes "08122024"⟩
    (by decide) (by decide) (by decide) (by decide)

theorem decodes_tiles {s : List Nat} {tags : List TLVTag} (h : Decodes s tags) :
    (tags.map (fun t => 4 + t.Length)).sum = (s.length : Int) := by
  induction h with
  | nil => rfl
  | cons id ls v rest len tags hid hls _ _ hv _ ih =>
    simp only [List.map_cons, List.sum_cons, ih, List.length_append, hid, hls, ← hv]
    push_cast
    ring

theorem decodes_ne_nil {s : List Nat} {tags : List TLVTag} (h : Decodes s tags)
    (hs : s ≠ []) : tags ≠ [] := by
  cases h with
  | nil => exact absurd rfl hs
  | cons => exact List.cons_ne_nil _ _

/-- C36: for every string `s` on which `Decode` succeeds, every returned tag has a 2-byte
ID and a Length from 0 to 99 equal to the byte length of its Value, and the sum over the
tags of `4 + Length` is the byte length of `s`. -/
theorem C36_decode_records_tile (s : List Nat) (tags : List TLVTag)
    (h : Decode s = .ok tags) :
    (∀ t ∈ tags, t.ID.length = 2 ∧ 0 ≤ t.Length ∧ t.Length ≤ 99 ∧
      t.Length = (t.Value.length : Int)) ∧
    (tags.map (fun t => 4 + t.Length)).sum = (s.length : Int) := by
  have hd := (decode_iff s tags).mp h
  refine ⟨fun t ht => ?_, decodes_tiles hd⟩
  obtain ⟨h1, _, h3, h4⟩ := decodes_leaf hd t ht
  refine ⟨h1, ?_, ?_, h3⟩ <;> omega

theorem C36_witness :
    Decode (bytes "000201010211") =
        .ok [Tag (bytes "00") (bytes "01"), Tag (bytes "01") (bytes "11")] ∧
    ((∀ t ∈ [Tag (bytes "00") (bytes "01"), Tag (bytes "01") (bytes "11")],
        t.ID.length = 2 ∧ 0 ≤ t.Length ∧ t.Length ≤ 99 ∧
        t.Length = (t.Value.length : Int)) ∧
      ([Tag (bytes "00") (bytes "01"), Tag (bytes "01") (bytes "11")].map
        (fun t => 4 + t.Length)).sum = ((bytes "000201010211").length : Int)) :=
  ⟨by decide!, C36_decode_records_tile (bytes "000201010211")
    [Tag (bytes "00") (bytes "01"), Tag (bytes "01") (bytes "11")] (by decide!)⟩

/-- The sub-tag pass attaches sub-tags to a flat tag exactly when the value matches the
header pattern and `Decode` of the value succeeds; the sub-tags are then the decoded ones. -/
theorem expandTag_iff (t : TLVTag) (hs : t.SubTags = []) :
    (∃ t1, expandTag t = some t1 ∧ t1.SubTags ≠ []) ↔
      (tlvPattern t.Value = true ∧ ∃ sub, Decode t.Value = .ok sub) := by
  unfold expandTag
  by_cases hp : tlvPattern t.Value = true
  · have h5 := tlvPattern_length _ hp
    have hc : (decide (t.Value.length ≥ 4) && tlvPattern t.Value) = true := by
      simp [hp]; omega
    rw [if_pos hc]
    cases hd : Decode t.Value with
    | panic => simp
    | error e => simp [hs]
    | ok sub =>
      have hds := (decode_iff _ _).mp hd
      have hne : sub ≠ [] := decodes_ne_nil hds (by intro h0; rw [h0] at h5; simp at h5)
      have hvalid : sub.all
          (fun subTag => decide (subTag.Length = (subTag.Value.length : Int))) = true := by
        simp only [List.all_eq_true, decide_eq_true_eq]
        exact fun x hx => (decodes_leaf hds x hx).2.2.1
      have hpos : sub.length > 0 := List.length_pos.mpr hne
      simp [hvalid, hpos, hp, hne]
  · have hc : ¬ ((decide (t.Value.length ≥ 4) && tlvPattern t.Value) = true) := by
      simp [hp]
    rw [if_neg hc]
    simp [hs, hp]

/-- C37: for every string `s` on which `Decode` succeeds, every returned tag has no
sub-tags and a Length equal to the byte length of its Value; so the length test of the
sub-tag pass of `Parse` holds for every nested decode that succeeded, and a decoded tag gets
sub-tags exactly when its value matches the header pattern and `Decode` of the value
succeeds. -/
theorem C37_decoded_tags_flat (s : List Nat) (tags : List TLVTag)
    (h : Decode s = .ok tags) :
    (∀ t ∈ tags, t.SubTags = [] ∧ t.Length = (t.Value.length : Int)) ∧
    tags.all (fun subTag => decide (subTag.Length = (subTag.Value.length : Int))) = true ∧
    (∀ t ∈ tags,
      ((∃ t1, expandTag t = some t1 ∧ t1.SubTags ≠ []) ↔
        (tlvPattern t.Value = true ∧ ∃ sub, Decode t.Value = .ok sub)) ∧
      (∀ sub, tlvPattern t.Value = true → Decode t.Value = .ok sub →
        expandTag t = some { t with SubTags := sub })) := by
  have hd := (decode_iff s tags).mp h
  refine ⟨fun t ht => ⟨(decodes_leaf hd t ht).2.1, (decodes_leaf hd t ht).2.2.1⟩, ?_, ?_⟩
  · simp only [List.all_eq_true, decide_eq_true_eq]
    exact fun x hx => (decodes_leaf hd x hx).2.2.1
  · intro t ht
    refine ⟨expandTag_iff t (decodes_leaf hd t ht).2.1, ?_⟩
    intro sub hp hsub
    have hds := (decode_iff _ _).mp hsub
    have h5 := tlvPattern_length _ hp
    have hne : sub ≠ [] := decodes_ne_nil hds (by intro h0; rw [h0] at h5; simp at h5)
    have hvalid : sub.all
        (fun subTag => decide (subTag.Length = (subTag.Value.length : Int))) = true := by
      simp only [List.all_eq_true, decide_eq_true_eq]
      exact fun x hx => (decodes_leaf hds x hx).2.2.1
    have hpos : sub.length > 0 := List.length_pos.mpr hne
    have hc : (decide (t.Value.length ≥ 4) && tlvPattern t.Value) = true := by
      simp [hp]; omega
    unfold expandTag
    rw [if_pos hc]
    simp [hsub, hvalid, hpos]

theorem C37_witness :
    Decode (bytes "00100002AB01000103XYZ") =
        .ok [Tag (bytes "00") (bytes "0002AB0100"), Tag (bytes "01") (bytes "XYZ")] ∧
    expandTag (Tag (bytes "00") (bytes "0002AB0100")) =
        some ⟨bytes "00", bytes "0002AB0100",
          [Tag (bytes "00") (bytes "AB"), Tag (bytes "01") []], 10⟩ ∧
    ((∀ t ∈ [Tag (bytes "00") (bytes "0002AB0100"), Tag (bytes "01") (bytes "XYZ")],
        t.SubTags = [] ∧ t.Length = (t.Value.length : Int)) ∧
      [Tag (bytes "00") (bytes "0002AB0100"), Tag (bytes "01") (bytes "XYZ")].all
        (fun subTag => decide (subTag.Length = (subTag.Value.length : Int))) = true ∧
      (∀ t ∈ [Tag (bytes "00") (bytes "0002AB0100"), Tag (bytes "01") (bytes "XYZ")],
        ((∃ t1, expandTag t = some t1 ∧ t1.SubTags ≠ []) ↔
          (tlvPattern t.Value = true ∧ ∃ sub, Decode t.Value = .ok sub)) ∧
        (∀ sub, tlvPattern t.Value = true → Decode t.Value = .ok sub →
          expandTag t = some { t with SubTags := sub }))) :=
  ⟨by decide!, by decide!, C37_decoded_tags_flat (bytes "00100002AB01000103XYZ")
    [Tag (bytes "00") (bytes "0002AB0100"), Tag (bytes "01") (bytes "XYZ")] (by decide!)⟩

/-- C38: the errors "payload too short for checksum validation" and "no tags found in
payload" are never returned by `Parse`: a payload that passes the header pattern has at
least 5 bytes, and a successful `Decode` of such a payload yields at least one tag. -/
theorem C38_unreachable_errors (p : List Nat) (strict e : Bool) :
    Parse p strict e ≠ .error .tooShort ∧
    Parse p strict e ≠ .error .noTags ∧
    (tlvPattern p = true → 5 ≤ p.length ∧
      ∀ tags, Decode p = .ok tags → 1 ≤ tags.length) := by
  have hdec : tlvPattern p = true → ∀ tags, Decode p = .ok tags → 1 ≤ tags.length := by
    intro hp tags hd
    have h5 := tlvPattern_length p hp
    have hne := decodes_ne_nil ((decode_iff _ _).mp hd)
      (by intro h0; rw [h0] at h5; simp at h5)
    exact List.length_pos.mpr hne
  have key : ∀ err, Parse p strict e = .error err → err ≠ .tooShort ∧ err ≠ .noTags := by
    intro err h
    unfold Parse at h
    by_cases hp : tlvPattern p = true
    · have h5 := tlvPattern_length p hp
      have h4 : ¬ (strict = true ∧ p.length < 4) := by omega
      rw [if_neg (by simp [hp]), if_neg h4] at h
      by_cases hc : strict = true ∧ ToUpper (p.drop (p.length - 4))
          ≠ Checksum (p.take (p.length - 4)) true
      · rw [if_pos hc] at h
        simp only [Outcome.error.injEq] at h
        subst h
        exact ⟨by simp, by simp⟩
      · rw [if_neg hc] at h
        cases hd : Decode p with
        | panic => simp [hd] at h
        | error err1 =>
          simp only [hd, Outcome.error.injEq] at h
          subst h
          exact ⟨by simp, by simp⟩
        | ok tags =>
          have h1 := hdec hp tags hd
          have h0 : ¬ (tags.length = 0) := by omega
          simp only [hd, if_neg h0] at h
          cases e
          · simp at h
          · cases hx : expandTags tags <;> simp [hx] at h
    · rw [if_pos (by simp [hp])] at h
      simp only [Outcome.error.injEq] at h
      subst h
      exact ⟨by simp, by simp⟩
  exact ⟨fun h => (key _ h).1 rfl, fun h => (key _ h).2 rfl,
    fun hp => ⟨tlvPattern_length p hp, hdec hp⟩⟩

theorem C38_witness :
    tlvPattern (bytes "00000") = true ∧
    (Parse (bytes "00000") true false ≠ .error .tooShort ∧
      Parse (bytes "00000") true false ≠ .error .noTags ∧
      (tlvPattern (bytes "00000") = true → 5 ≤ (bytes "00000").length ∧
        ∀ tags, Decode (bytes "00000") = .ok tags → 1 ≤ tags.length)) :=
  ⟨by decide, C38_unreachable_errors (bytes "00000") true false⟩

/-- C35: for every payload that `Parse` accepted and every `crcTagID`, if `Validate`
returns true then the last 4 bytes of the payload are `Checksum` (uppercase) of the payload
without them, and `Parse` of the same payload with strict checking succeeds with the same
result. -/
theorem C35_validate_implies_strict (p : List Nat) (strict e : Bool) (q : EMVCoQR)
    (c : List Nat) (h : Parse p strict e = .ok q) (hv : q.Validate c = true) :
    p.drop (p.length - 4) = Checksum (p.take (p.length - 4)) true ∧
    Parse p true e = .ok q := by
  obtain ⟨hp, hpay, _⟩ := parse_ok_inv p strict e q h
  have hsum : p.drop (p.length - 4) = Checksum (p.take (p.length - 4)) true := by
    simp only [EMVCoQR.Validate, beq_iff_eq, hpay, WithCRCTag] at hv
    generalize Encode (q.tags.filter (fun tag => tag.ID != c)) ++ Sprintf02s c ++ bytes "04"
      = x at hv
    subst hv
    have hl : (x ++ Checksum x true).length - 4 = x.length := by
      rw [List.length_append, checksum_length]; omega
    rw [hl, List.drop_left, List.take_left]
  refine ⟨hsum, ?_⟩
  cases strict
  · rw [parse_strict, if_pos hp, hsum, toUpper_checksum, if_pos rfl]
    exact h
  · exact h

theorem C35_witness :
    Parse (bytes "0002016304AAE6") false false =
        .ok ⟨bytes "0002016304AAE6",
          [Tag (bytes "00") (bytes "01"), Tag (bytes "63") (bytes "AAE6")]⟩ ∧
    ((bytes "0002016304AAE6").drop ((bytes "0002016304AAE6").length - 4) =
        Checksum ((bytes "0002016304AAE6").take ((bytes "0002016304AAE6").length - 4)) true ∧
      Parse (bytes "0002016304AAE6") true false =
        .ok ⟨bytes "0002016304AAE6",
          [Tag (bytes "00") (bytes "01"), Tag (bytes "63") (bytes "AAE6")]⟩) :=
  ⟨by decide!, C35_validate_implies_strict (bytes "0002016304AAE6") false false
    ⟨bytes "0002016304AAE6", [Tag (bytes "00") (bytes "01"), Tag (bytes "63") (bytes "AAE6")]⟩
    (bytes "63") (by decide!) (by decide!)⟩

/-- The three sub-tags of tag 00 that `SlipVerify` builds are leaves, and their encoding is
at most 99 bytes long when bank and reference have at most 81 bytes together. -/
theorem slip_leafs (b r : List Nat) (hl : b.length + r.length ≤ 81) :
    (∀ x ∈ [Tag (bytes "00") (bytes "000001"), Tag (bytes "01") b, Tag (bytes "02") r],
      LeafOK x) ∧
    (Encode [Tag (bytes "00") (bytes "000001"), Tag (bytes "01") b,
      Tag (bytes "02") r]).length ≤ 99 ∧
    tlvPattern (Encode [Tag (bytes "00") (bytes "000001"), Tag (bytes "01") b,
      Tag (bytes "02") r]) = true := by
  have h1 : b.length ≤ 99 := by omega
  have h2 : r.length ≤ 99 := by omega
  refine ⟨?_, ?_, ?_⟩
  · intro x hx
    simp only [List.mem_cons, List.mem_singleton, List.not_mem_nil, or_false] at hx
    rcases hx with hx | hx | hx
    · rw [hx]; exact leafOK_tag _ _ (by decide) (by decide)
    · rw [hx]; exact leafOK_tag _ _ (by decide) h1
    · rw [hx]; exact leafOK_tag _ _ (by decide) h2
  · simp only [encode_cons, encode_nil, List.append_nil, List.length_append]
    rw [encodeTag_tag_length _ _ (by decide) (by decide),
      encodeTag_tag_length _ _ (by decide) h1, encodeTag_tag_length _ _ (by decide) h2]
    have h6 : (bytes "000001").length = 6 := by decide
    rw [h6]; omega
  · rw [encode_cons]
    exact tlvPattern_tag00 (bytes "00001") _ (by decide)

/-- C39: for every `SlipVerify` configuration whose SendingBank and TransRef are non-empty
and have at most 81 bytes together, the generator returns a payload on which
`validate.SlipVerify` succeeds and returns exactly the SendingBank and the TransRef of the
configuration. -/
theorem C39_slipverify_roundtrip (cfg : SlipVerifyConfig)
    (hb : cfg.SendingBank ≠ []) (hr : cfg.TransRef ≠ [])
    (hl : cfg.SendingBank.length + cfg.TransRef.length ≤ 81) :
    ∃ p, SlipVerify cfg = .ok p ∧
      validate.SlipVerify p = .ok ⟨cfg.SendingBank, cfg.TransRef⟩ := by
  obtain ⟨q, hq, _⟩ := slipVerify_parses cfg _ rfl hl true true
  refine ⟨_, rfl, ?_⟩
  obtain ⟨hleafs, hlen, hp⟩ := slip_leafs _ _ hl
  have hget := slip_get _ [Tag (bytes "51") (bytes "TH")] true true q hleafs (by simp) hlen hp
    (fun t h => by
      rw [List.mem_singleton.mp h]
      exact leafOK_tag _ _ (by decide) (by decide)) hq
  have g0 := hget (bytes "00") (by decide)
  have g1 := hget (bytes "01") (by decide)
  have g2 := hget (bytes "02") (by decide)
  have e1 : (bytes "00" == bytes "01") = false := by decide
  have e2 : (bytes "00" == bytes "02") = false := by decide
  have e3 : (bytes "01" == bytes "02") = false := by decide
  simp only [List.find?, Tag, beq_self_eq_true, e1, e2, e3] at g0 g1 g2
  have hparse : Parse (WithCRCTag (Encode [Tag (bytes "00") (Encode
      [Tag (bytes "00") (bytes "000001"), Tag (bytes "01") cfg.SendingBank,
       Tag (bytes "02") cfg.TransRef]), Tag (bytes "51") (bytes "TH")]) (bytes "91") true)
      true true = .ok q := hq
  simp only [validate.SlipVerify, hparse, EMVCoQR.GetTagValue, g0, g1, g2]
  simp [hb, hr]

theorem C39_witness :
    ∃ p, SlipVerify ⟨bytes "002", bytes "0002123123121200011"⟩ = .ok p ∧
      validate.SlipVerify p = .ok ⟨bytes "002", bytes "0002123123121200011"⟩ :=
  C39_slipverify_roundtrip ⟨bytes "002", bytes "0002123123121200011"⟩
    (by decide) (by decide) (by decide)

/-- The last 4 bytes of `WithCRCTag x c u` pass the checksum comparison of strict `Parse`. -/
theorem withCRCTag_checksum (x c : List Nat) (u : Bool) :
    ToUpper ((WithCRCTag x c u).drop ((WithCRCTag x c u).length - 4)) =
      Checksum ((WithCRCTag x c u).take ((WithCRCTag x c u).length - 4)) true := by
  simp only [WithCRCTag]
  generalize x ++ Sprintf02s c ++ bytes "04" = y
  have hl : (y ++ Checksum y u).length - 4 = y.length := by
    rw [List.length_append, checksum_length]; omega
  rw [hl, List.drop_left, List.take_left, toUpper_checksum]

/-- A payload whose first tag is a leaf with an ID of two digits begins with 4 digits. -/
theorem leaf_header_digits (x : TLVTag) (tail : List Nat) (hx : LeafOK x)
    (hd : x.ID.all isDigit = true) :
    5 ≤ (encodeTag x ++ tail).length → (encodeTag x ++ tail).getD 4 0 ≠ 10 →
      tlvPattern (encodeTag x ++ tail) = true := by
  obtain ⟨id, v, sub, len⟩ := x
  obtain ⟨hid, hsub, hlen, h99⟩ := hx
  simp only at hid hsub hlen h99 hd
  subst hsub
  subst hlen
  rw [encodeTag_leaf]
  obtain ⟨h1, h2, _⟩ := sprintf02d_facts v.length h99
  generalize Sprintf02d ((v.length : Nat) : Int) = l at h1 h2
  intro h5 h10
  rw [tlvPattern_iff]
  refine ⟨h5, ?_, h10⟩
  match id, hid, l, h1 with
  | [a, b], _, [c, d], _ =>
    simp only [List.all_cons, List.all_nil, Bool.and_true, Bool.and_eq_true] at hd h2
    simp [hd.1, hd.2, h2.1, h2.2]

/-- C34 (counterexample): for the single leaf tag 00 = `01` and the 2-character ID `éé`
(bytes C3 A9 C3 A9, carried by no tag), the 5th byte of the assembled payload is not a
line feed and strict `Parse` without sub-tags rejects the payload; the same holds for the
2-byte ID `é` (bytes C3 A9). -/
theorem C34_counterexample :
    (LeafOK (Tag (bytes "00") (bytes "01")) ∧
      (Tag (bytes "00") (bytes "01")).ID.all isDigit = true ∧
      RuneCountInString [0xC3, 0xA9, 0xC3, 0xA9] = 2 ∧
      (Tag (bytes "00") (bytes "01")).ID ≠ [0xC3, 0xA9, 0xC3, 0xA9] ∧
      (WithCRCTag (Encode [Tag (bytes "00") (bytes "01")])
        [0xC3, 0xA9, 0xC3, 0xA9] true).getD 4 0 ≠ 10 ∧
      Parse (WithCRCTag (Encode [Tag (bytes "00") (bytes "01")])
        [0xC3, 0xA9, 0xC3, 0xA9] true) true false
        = .error (.decodeFailed .invalidLength)) ∧
    (([0xC3, 0xA9] : List Nat).length = 2 ∧
      (Tag (bytes "00") (bytes "01")).ID ≠ [0xC3, 0xA9] ∧
      (WithCRCTag (Encode [Tag (bytes "00") (bytes "01")]) [0xC3, 0xA9] true).getD 4 0 ≠ 10 ∧
      (Parse (WithCRCTag (Encode [Tag (bytes "00") (bytes "01")]) [0xC3, 0xA9] true)
        true false).isOk = false) := by
  refine ⟨⟨leafOK_tag _ _ (by decide) (by decide), by decide, by decide, by decide,
    by decide!, by decide!⟩, by decide, by decide, by decide!, by decide!⟩

/-- C34 (amended): for every non-empty list `ts` of leaf tags (2-byte IDs, no sub-tags,
Length equal to the byte length of Value, at most 99) whose first ID is two ASCII digits,
and every ID `t` of 2 characters that occupies 2 bytes and is carried by none of the tags,
the payload `p = WithCRCTag (Encode ts) t true` is accepted by strict `Parse` without
sub-tags provided its 5th byte is not a line feed; the tags of the result are `ts`
followed by the checksum tag, and `Validate t` returns true. -/
theorem C34_assembled_payload_accepted (ts : List TLVTag) (t : List Nat)
    (hleaf : ∀ x ∈ ts, LeafOK x)
    (hfirst : ∃ x rest, ts = x :: rest ∧ x.ID.all isDigit = true)
    (ht2 : t.length = 2) (htr : RuneCountInString t = 2) (hid : ∀ x ∈ ts, x.ID ≠ t)
    (hlf : (WithCRCTag (Encode ts) t true).getD 4 0 ≠ 10) :
    Parse (WithCRCTag (Encode ts) t true) true false =
      .ok ⟨WithCRCTag (Encode ts) t true,
        ts ++ [Tag t (Checksum (Encode ts ++ t ++ bytes "04") true)]⟩ ∧
    EMVCoQR.Validate ⟨WithCRCTag (Encode ts) t true,
      ts ++ [Tag t (Checksum (Encode ts ++ t ++ bytes "04") true)]⟩ t = true := by
  have hdec := decode_withCRCTag ts t true hleaf ht2 htr
  have hpat : tlvPattern (WithCRCTag (Encode ts) t true) = true := by
    obtain ⟨x, rest, hts, hd⟩ := hfirst
    have hx := hleaf x (by rw [hts]; exact List.mem_cons_self _ _)
    have hform : WithCRCTag (Encode ts) t true = encodeTag x ++ (Encode rest ++ t ++
        bytes "04" ++ Checksum (Encode ts ++ t ++ bytes "04") true) := by
      rw [withCRCTag_eq _ _ _ htr]
      nth_rewrite 1 [hts]
      rw [encode_cons]
      simp only [List.append_assoc]
    have h5 : 5 ≤ (WithCRCTag (Encode ts) t true).length := by
      rw [withCRCTag_eq _ _ _ htr]
      simp only [List.length_append, checksum_length]
      omega
    rw [hform] at h5 hlf ⊢
    exact leaf_header_digits x _ hx hd h5 hlf
  refine ⟨?_, ?_⟩
  · rw [parse_strict, if_pos hpat, if_pos (withCRCTag_checksum _ _ _)]
    simp [Parse, hpat, hdec]
  · simp [EMVCoQR.Validate, filter_crc ts t _ hid]

theorem C34_witness :
    WithCRCTag (Encode [Tag (bytes "00") (bytes "01"), Tag (bytes "01") (bytes "11")])
        (bytes "63") true = bytes "0002010102116304AD0A" ∧
    (Parse (WithCRCTag (Encode [Tag (bytes "00") (bytes "01"), Tag (bytes "01") (bytes "11")])
        (bytes "63") true) true false =
      .ok ⟨WithCRCTag (Encode [Tag (bytes "00") (bytes "01"), Tag (bytes "01") (bytes "11")])
          (bytes "63") true,
        [Tag (bytes "00") (bytes "01"), Tag (bytes "01") (bytes "11")] ++
          [Tag (bytes "63") (Checksum (Encode [Tag (bytes "00") (bytes "01"),
            Tag (bytes "01") (bytes "11")] ++ bytes "63" ++ bytes "04") true)]⟩ ∧
    EMVCoQR.Validate
      ⟨WithCRCTag (Encode [Tag (bytes "00") (bytes "01"), Tag (bytes "01") (bytes "11")])
          (bytes "63") true,
        [Tag (bytes "00") (bytes "01"), Tag (bytes "01") (bytes "11")] ++
          [Tag (bytes "63") (Checksum (Encode [Tag (bytes "00") (bytes "01"),
            Tag (bytes "01") (bytes "11")] ++ bytes "63" ++ bytes "04") true)]⟩
      (bytes "63") = true) :=
  ⟨by decide!, C34_assembled_payload_accepted
    [Tag (bytes "00") (bytes "01"), Tag (bytes "01") (bytes "11")] (bytes "63")
    (by
      intro x hx
      simp only [List.mem_cons, List.mem_singleton, List.not_mem_nil, or_false] at hx
      rcases hx with hx | hx <;> rw [hx] <;> exact leafOK_tag _ _ (by decide) (by decide))
    ⟨_, _, rfl, by decide⟩ (by decide) (by decide)
    (by
      intro x hx
      simp only [List.mem_cons, List.mem_singleton, List.not_mem_nil, or_false] at hx
      rcases hx with hx | hx <;> rw [hx] <;> decide)
    (by decide!)⟩

theorem split_ne_nil (s : List Nat) (sep : Nat) : Split s sep ≠ [] := by
  induction s with
  | nil => simp [Split]
  | cons b rest ih =>
    rw [Split]
    split_ifs
    · simp
    · cases h : Split rest sep <;> simp

/-- The number of fields of `Split` is one more than the number of separators. -/
theorem split_length (s : List Nat) (sep : Nat) :
    (Split s sep).length = s.count sep + 1 := by
  induction s with
  | nil => simp [Split]
  | cons b rest ih =>
    rw [Split]
    by_cases hb : b = sep
    · rw [if_pos hb, List.length_cons, ih, hb, List.count_cons_self]
    · rw [if_neg hb, List.count_cons_of_ne (fun h => hb h.symm)]
      cases h : Split rest sep with
      | nil => exact absurd h (split_ne_nil rest sep)
      | cons f fs => rw [h] at ih; simpa using ih

theorem split_no_sep (a : List Nat) (sep : Nat) (h : sep ∉ a) : Split a sep = [a] := by
  induction a with
  | nil => simp [Split]
  | cons b rest ih =>
    have hb : b ≠ sep := fun hb => h (by rw [hb]; exact List.mem_cons_self _ _)
    have hr : sep ∉ rest := fun hr => h (List.mem_cons_of_mem _ hr)
    rw [Split, if_neg hb, ih hr]

theorem split_append (a rest : List Nat) (sep : Nat) (h : sep ∉ a) :
    Split (a ++ sep :: rest) sep = a :: Split rest sep := by
  induction a with
  | nil => simp [Split]
  | cons b tl ih =>
    have hb : b ≠ sep := fun hb => h (by rw [hb]; exact List.mem_cons_self _ _)
    have hr : sep ∉ tl := fun hr => h (List.mem_cons_of_mem _ hr)
    rw [List.cons_append, Split, if_neg hb, ih hr]

theorem digitsValue_cons (d : Nat) (rest : List Nat) :
    digitsValue (d :: rest) = (d - 48) * 10 ^ rest.length + digitsValue rest := by
  simp only [digitsValue, List.reverse_cons, List.map_append, List.map_cons, List.map_nil,
    Nat.ofDigits_append, Nat.ofDigits_singleton, List.length_map, List.length_reverse]
  ring

/-- The digit loop of `Atoi` and `ParseInt` returns a number exactly on a string of digits,
and the number is the one the digits write behind the accumulator. -/
theorem atoiDigits_iff : ∀ (ds : List Nat) (acc m : Nat),
    atoiDigits ds acc = some m ↔
      ((∀ d ∈ ds, 48 ≤ d ∧ d ≤ 57) ∧ m = acc * 10 ^ ds.length + digitsValue ds) := by
  intro ds
  induction ds with
  | nil =>
    intro acc m
    simp [atoiDigits, digitsValue, eq_comm]
  | cons d rest ih =>
    intro acc m
    rw [atoiDigits]
    by_cases hd : isDigit d = true
    · have hd2 : 48 ≤ d ∧ d ≤ 57 := by
        simpa [isDigit] using hd
      rw [if_pos hd, ih, digitsValue_cons]
      simp only [List.mem_cons, forall_eq_or_imp, hd2, true_and, List.length_cons]
      have e : (acc * 10 + (d - 48)) * 10 ^ rest.length + digitsValue rest =
          acc * 10 ^ (rest.length + 1) + ((d - 48) * 10 ^ rest.length + digitsValue rest) := by
        ring
      rw [e]
    · have hd2 : ¬ (48 ≤ d ∧ d ≤ 57) := by
        simpa [isDigit] using hd
      rw [if_neg hd]
      simp only [List.mem_cons, forall_eq_or_imp, hd2, false_and]
      simp

/-- What `ParseInt` accepts, and the value it returns: the base-10 integers of 64 bits. -/
theorem parseInt_iff (s : List Nat) (n : Int) : ParseInt s = some n ↔ int64Text s n := by
  constructor
  · intro h
    cases s with
    | nil => simp [ParseInt] at h
    | cons c rest =>
      simp only [ParseInt] at h
      by_cases hs : c = 45 ∨ c = 43
      · rw [if_pos hs] at h
        cases rest with
        | nil => simp at h
        | cons r0 rs =>
          simp only [List.isEmpty_cons, Bool.false_eq_true, if_false] at h
          cases ha : atoiDigits (r0 :: rs) 0 with
          | none => simp [ha] at h
          | some un =>
            obtain ⟨hdig, hval⟩ := (atoiDigits_iff _ _ _).mp ha
            simp only [zero_mul, zero_add] at hval
            simp only [ha] at h
            by_cases hc : c = 45
            · rw [if_pos hc] at h
              split_ifs at h with hr
              simp only [Option.some.injEq] at h
              refine ⟨[45], r0 :: rs, by rw [hc]; rfl, Or.inr (Or.inr rfl), by simp, hdig, ?_,
                ?_, ?_⟩
              · rw [if_pos rfl, ← hval, h]
              · omega
              · omega
            · have hc2 : c = 43 := by
                rcases hs with hs | hs
                · exact absurd hs hc
                · exact hs
              rw [if_neg hc] at h
              split_ifs at h with hr
              simp only [Option.some.injEq] at h
              refine ⟨[43], r0 :: rs, by rw [hc2]; rfl, Or.inr (Or.inl rfl), by simp, hdig, ?_,
                ?_, ?_⟩
              · rw [if_neg (by decide), ← hval, h]
              · omega
              · omega
      · rw [if_neg hs] at h
        simp only [List.isEmpty_cons, Bool.false_eq_true, if_false] at h
        have hc : ¬ c = 45 := fun h0 => hs (Or.inl h0)
        cases ha : atoiDigits (c :: rest) 0 with
        | none => simp [ha] at h
        | some un =>
          obtain ⟨hdig, hval⟩ := (atoiDigits_iff _ _ _).mp ha
          simp only [zero_mul, zero_add] at hval
          simp only [ha, if_neg hc] at h
          split_ifs at h with hr
          simp only [Option.some.injEq] at h
          refine ⟨[], c :: rest, rfl, Or.inl rfl, by simp, hdig, ?_, ?_, ?_⟩
          · rw [if_neg (by decide), ← hval, h]
          · omega
          · omega
  · rintro ⟨sign, digits, hs, hsign, hne, hdig, hn, hlo, hhi⟩
    have ha : atoiDigits digits 0 = some (digitsValue digits) :=
      (atoiDigits_iff _ _ _).mpr ⟨hdig, by simp⟩
    have hemp : digits.isEmpty = false := by
      cases digits with
      | nil => exact absurd rfl hne
      | cons a r => rfl
    rcases hsign with h0 | h0 | h0
    · subst h0
      rw [if_neg (by decide)] at hn
      simp only [List.nil_append] at hs
      rw [hs]
      cases digits with
      | nil => exact absurd rfl hne
      | cons c rest =>
        have hc := hdig c (List.mem_cons_self _ _)
        have h45 : ¬ c = 45 := by omega
        have h43 : ¬ c = 43 := by omega
        have hr : ¬ (digitsValue (c :: rest) ≥ 2 ^ 63) := by omega
        simp only [ParseInt, h45, h43, or_self, if_false, List.isEmpty_cons,
          Bool.false_eq_true, ha, if_neg hr, hn]
    · subst h0
      rw [if_neg (by decide)] at hn
      subst hs
      have hr : ¬ (digitsValue digits ≥ 2 ^ 63) := by omega
      simp only [List.singleton_append, ParseInt, or_true, if_true, hemp,
        Bool.false_eq_true, if_false, ha, if_neg (by decide : ¬ (43 : Nat) = 45), if_neg hr, hn]
    · subst h0
      rw [if_pos rfl] at hn
      subst hs
      have hr : ¬ (digitsValue digits > 2 ^ 63) := by omega
      simp only [List.singleton_append, ParseInt, true_or, if_true, hemp,
        Bool.false_eq_true, if_false, ha, if_neg hr, hn]

/-- The fields of `Split` hold no separator, and joining them with the separator gives
the string back. -/
theorem split_spec (s : List Nat) (sep : Nat) :
    s = List.intercalate [sep] (Split s sep) ∧ ∀ f ∈ Split s sep, sep ∉ f := by
  induction s with
  | nil => simp [Split, List.intercalate]
  | cons b rest ih =>
    obtain ⟨ih1, ih2⟩ := ih
    rw [Split]
    by_cases hb : b = sep
    · rw [if_pos hb]
      cases hsp : Split rest sep with
      | nil => exact absurd hsp (split_ne_nil rest sep)
      | cons f fs =>
        rw [hsp] at ih1 ih2
        constructor
        · nth_rewrite 1 [ih1]
          rw [hb]
          simp [List.intercalate, List.intersperse]
        · intro g hg
          rcases List.mem_cons.mp hg with hg | hg
          · rw [hg]; simp
          · exact ih2 g hg
    · rw [if_neg hb]
      cases hsp : Split rest sep with
      | nil => exact absurd hsp (split_ne_nil rest sep)
      | cons f fs =>
        rw [hsp] at ih1 ih2
        constructor
        · nth_rewrite 1 [ih1]
          cases fs <;> simp [List.intercalate, List.intersperse]
        · intro g hg
          rcases List.mem_cons.mp hg with hg | hg
          · rw [hg]
            intro hm
            rcases List.mem_cons.mp hm with hm | hm
            · exact hb hm.symm
            · exact ih2 f (List.mem_cons_self _ _) hm
          · exact ih2 g (List.mem_cons_of_mem _ hg)

/-- What `BOTBarcodeFromString` returns on a text of four fields without carriage return
behind a `|`. -/
theorem parse_four_fields (f0 f1 f2 f3 : List Nat) (h0 : 13 ∉ f0) (h1 : 13 ∉ f1)
    (h2 : 13 ∉ f2) (h3 : 13 ∉ f3) :
    BOTBarcodeFromString (bytes "|" ++ f0 ++ [13] ++ f1 ++ [13] ++ f2 ++ [13] ++ f3) =
      if f3 ≠ bytes "0" then
        match ParseInt f3 with
        | none => .error .invalidAmount
        | some amountInt =>
          .ok ⟨f0, f1, if f2.length > 0 then some f2 else none,
            some (Float64.div (Float64.ofInt (Float64.toInt64 (Float64.mul
              (Float64.div (Float64.ofInt amountInt) (Float64.ofInt 100))
              (Float64.ofInt 100)))) (Float64.ofInt 100))⟩
      else .ok ⟨f0, f1, if f2.length > 0 then some f2 else none, none⟩ := by
  have hs : Split ((bytes "|" ++ f0 ++ [13] ++ f1 ++ [13] ++ f2 ++ [13] ++ f3).drop 1) 13 =
      [f0, f1, f2, f3] := by
    have e : (bytes "|" ++ f0 ++ [13] ++ f1 ++ [13] ++ f2 ++ [13] ++ f3).drop 1 =
        f0 ++ 13 :: (f1 ++ 13 :: (f2 ++ 13 :: f3)) := by
      simp [bytes]
    rw [e, split_append _ _ _ h0, split_append _ _ _ h1, split_append _ _ _ h2,
      split_no_sep _ _ h3]
  have hp : (bytes "|").isPrefixOf
      (bytes "|" ++ f0 ++ [13] ++ f1 ++ [13] ++ f2 ++ [13] ++ f3) = true := by
    simp [bytes, List.isPrefixOf]
  unfold BOTBarcodeFromString
  rw [if_neg (by simp [hp]), hs]
  simp only [List.length_cons, List.length_nil, ne_eq, not_true_eq_false, if_false,
    List.getD_cons_zero, List.getD_cons_succ]

/-- The cases of `ParseBarcode` in terms of `Split` and `ParseInt`. -/
theorem parseBarcode_cases (p : List Nat) :
    ((∃ err, ParseBarcode p = .error err) ↔
      (p.head? ≠ some 124 ∨ (Split (p.drop 1) 13).length ≠ 4 ∨
        ((Split (p.drop 1) 13).getD 3 [] ≠ bytes "0" ∧
          ParseInt ((Split (p.drop 1) 13).getD 3 []) = none))) ∧
    ((Split (p.drop 1) 13).length = 4 ↔ (p.drop 1).count 13 = 3) ∧
    (∀ b, ParseBarcode p = .ok b →
      ∃ f0 f1 f2 f3, Split (p.drop 1) 13 = [f0, f1, f2, f3] ∧
        b.BillerID = f0 ∧ b.Ref1 = f1 ∧
        (b.Ref2 = none ↔ f2 = []) ∧ (f2 ≠ [] → b.Ref2 = some f2) ∧
        (b.Amount = none ↔ f3 = bytes "0")) := by
  have hpre : (bytes "|").isPrefixOf p = true ↔ p.head? = some 124 := by
    cases p with
    | nil => simp [bytes, List.isPrefixOf]
    | cons a r =>
      simp [bytes, List.isPrefixOf]
      exact eq_comm
  refine ⟨?_, ?_, ?_⟩
  · unfold ParseBarcode BOTBarcodeFromString
    generalize Split (p.drop 1) 13 = data
    by_cases h1 : (bytes "|").isPrefixOf p = true
    · have h1b := hpre.mp h1
      rw [if_neg (by simp [h1])]
      rcases data with _ | ⟨f0, _ | ⟨f1, _ | ⟨f2, _ | ⟨f3, _ | ⟨f4, r⟩⟩⟩⟩⟩
      · simp
      · simp
      · simp
      · simp
      · simp only [List.length_cons, List.length_nil, ne_eq, not_true_eq_false, if_false,
          List.getD_cons_zero, List.getD_cons_succ, h1b, false_or]
        by_cases h3 : f3 = bytes "0"
        · simp [h3]
        · rw [if_pos h3]
          cases h4 : ParseInt f3 <;> simp [h3]
      · simp
    · have h1b : p.head? ≠ some 124 := fun h => h1 (hpre.mpr h)
      rw [if_pos (by simp [h1])]
      simp [h1b]
  · rw [split_length]
    omega
  · intro b hb
    unfold ParseBarcode BOTBarcodeFromString at hb
    generalize Split (p.drop 1) 13 = data at hb
    by_cases h1 : (bytes "|").isPrefixOf p = true
    · rw [if_neg (by simp [h1])] at hb
      rcases data with _ | ⟨f0, _ | ⟨f1, _ | ⟨f2, _ | ⟨f3, _ | ⟨f4, r⟩⟩⟩⟩⟩
      · simp at hb
      · simp at hb
      · simp at hb
      · simp at hb
      · simp only [List.length_cons, List.length_nil, ne_eq, not_true_eq_false, if_false,
          List.getD_cons_zero, List.getD_cons_succ] at hb
        refine ⟨f0, f1, f2, f3, rfl, ?_⟩
        have hf2 : (if f2.length > 0 then some f2 else none) = none ↔ f2 = [] := by
          cases f2 <;> simp
        have hf2b : f2 ≠ [] → (if f2.length > 0 then some f2 else none) = some f2 := by
          intro h
          cases f2 with
          | nil => exact absurd rfl h
          | cons a r => simp
        by_cases h3 : f3 = bytes "0"
        · rw [if_neg (by simp [h3])] at hb
          simp only [Except.ok.injEq] at hb
          subst hb
          exact ⟨rfl, rfl, hf2, hf2b, by simp [h3]⟩
        · rw [if_pos h3] at hb
          cases h5 : ParseInt f3 with
          | none => simp [h5] at hb
          | some n =>
            simp only [h5, Except.ok.injEq] at hb
            subst hb
            exact ⟨rfl, rfl, hf2, hf2b, by simp [h3]⟩
      · simp at hb
    · rw [if_pos (by simp [h1])] at hb
      simp at hb

/-- C31: `ParseBarcode` fails exactly when the payload does not start with `|`, or the
text after `|` does not split on carriage return into exactly 4 fields (it does not hold
exactly 3 carriage returns), or the 4th field is neither `0` nor the text of a base-10
integer of 64 bits (optional sign, digits, value from -2^63 to 2^63 - 1). Otherwise it
succeeds: the payload is `|` and four fields without carriage return joined by carriage
returns, BillerID and Ref1 are the first two fields, Ref2 is absent exactly when the third
field is empty (and equal to it otherwise), and Amount is absent exactly when the fourth
field is `0`. Every payload of four such fields whose fourth field is `0` or the text of
such an integer is accepted. -/
theorem C31_parseBarcode_cases (p : List Nat) :
    ((∃ err, ParseBarcode p = .error err) ↔
      (p.head? ≠ some 124 ∨ (Split (p.drop 1) 13).length ≠ 4 ∨
        ((Split (p.drop 1) 13).getD 3 [] ≠ bytes "0" ∧
          ∀ n, ¬ int64Text ((Split (p.drop 1) 13).getD 3 []) n))) ∧
    ((Split (p.drop 1) 13).length = 4 ↔ (p.drop 1).count 13 = 3) ∧
    (p.drop 1 = List.intercalate [13] (Split (p.drop 1) 13) ∧
      ∀ f ∈ Split (p.drop 1) 13, 13 ∉ f) ∧
    (∀ b, ParseBarcode p = .ok b →
      ∃ f0 f1 f2 f3, p = bytes "|" ++ f0 ++ [13] ++ f1 ++ [13] ++ f2 ++ [13] ++ f3 ∧
        13 ∉ f0 ∧ 13 ∉ f1 ∧ 13 ∉ f2 ∧ 13 ∉ f3 ∧
        Split (p.drop 1) 13 = [f0, f1, f2, f3] ∧
        b.BillerID = f0 ∧ b.Ref1 = f1 ∧
        (b.Ref2 = none ↔ f2 = []) ∧ (f2 ≠ [] → b.Ref2 = some f2) ∧
        (b.Amount = none ↔ f3 = bytes "0") ∧
        (f3 ≠ bytes "0" → ∃ n, int64Text f3 n)) ∧
    (∀ f0 f1 f2 f3, p = bytes "|" ++ f0 ++ [13] ++ f1 ++ [13] ++ f2 ++ [13] ++ f3 →
      13 ∉ f0 → 13 ∉ f1 → 13 ∉ f2 → 13 ∉ f3 →
      (f3 = bytes "0" ∨ ∃ n, int64Text f3 n) →
      ∃ b, ParseBarcode p = .ok b ∧ b.BillerID = f0 ∧ b.Ref1 = f1 ∧
        (b.Amount.isSome = true ↔ f3 ≠ bytes "0")) := by
  have hpi : ∀ f : List Nat, ParseInt f = none ↔ ∀ n, ¬ int64Text f n := by
    intro f
    constructor
    · intro h n hn
      rw [(parseInt_iff f n).mpr hn] at h
      cases h
    · intro h
      cases hp : ParseInt f with
      | none => rfl
      | some n => exact absurd ((parseInt_iff f n).mp hp) (h n)
  obtain ⟨h1, h2, h3⟩ := parseBarcode_cases p
  have hfail : (∃ err, ParseBarcode p = .error err) ↔
      (p.head? ≠ some 124 ∨ (Split (p.drop 1) 13).length ≠ 4 ∨
        ((Split (p.drop 1) 13).getD 3 [] ≠ bytes "0" ∧
          ∀ n, ¬ int64Text ((Split (p.drop 1) 13).getD 3 []) n)) := by
    rw [h1]
    exact or_congr Iff.rfl (or_congr Iff.rfl (and_congr Iff.rfl (hpi _)))
  refine ⟨hfail, h2, split_spec _ _, ?_, ?_⟩
  · intro b hb
    obtain ⟨f0, f1, f2, f3, hs, hB, hR1, hR2, hR2b, hA⟩ := h3 b hb
    have hnf : ¬ (∃ err, ParseBarcode p = .error err) := by
      rintro ⟨err, herr⟩
      rw [herr] at hb
      cases hb
    rw [hfail] at hnf
    simp only [not_or, not_and, not_forall, not_not] at hnf
    obtain ⟨hhead, _, hint⟩ := hnf
    obtain ⟨hj, hno⟩ := split_spec (p.drop 1) 13
    rw [hs] at hj hno hint
    have hp : p = bytes "|" ++ f0 ++ [13] ++ f1 ++ [13] ++ f2 ++ [13] ++ f3 := by
      cases p with
      | nil => simp at hhead
      | cons a r =>
        simp only [List.head?_cons, Option.some.injEq] at hhead
        simp only [List.drop_succ_cons, List.drop_zero] at hj
        rw [hhead, hj]
        simp [bytes, List.intercalate, List.intersperse]
    refine ⟨f0, f1, f2, f3, hp, hno f0 (by simp), hno f1 (by simp), hno f2 (by simp),
      hno f3 (by simp), hs, hB, hR1, hR2, hR2b, hA, ?_⟩
    intro h0
    simp only [List.getD_cons_zero, List.getD_cons_succ] at hint
    exact hint h0
  · intro f0 f1 f2 f3 hp h0 h1f h2f h3f hamt
    have hpf := parse_four_fields f0 f1 f2 f3 h0 h1f h2f h3f
    rw [← hp] at hpf
    by_cases hz : f3 = bytes "0"
    · rw [if_neg (by simp [hz])] at hpf
      exact ⟨_, hpf, rfl, rfl, by simp [hz]⟩
    · rcases hamt with hamt | ⟨n, hn⟩
      · exact absurd hamt hz
      · rw [if_pos hz, (parseInt_iff f3 n).mpr hn] at hpf
        exact ⟨_, hpf, rfl, rfl, by simp [hz]⟩

theorem C31_witness :
    ParseBarcode (bytes "|099999999999990\r111222333444\r\rABC") = .error .invalidAmount ∧
    ParseBarcode (bytes "|099400016550100\r123456789012\r670429") = .error (.fieldCount 3) ∧
    ParseBarcode (bytes "|099999999999990\r111222333444\r\r0") =
      .ok ⟨bytes "099999999999990", bytes "111222333444", none, none⟩ ∧
    ParseBarcode (bytes "|099400016550100\r123456789012\r670429\r364922") =
      .ok ⟨bytes "099400016550100", bytes "123456789012", some (bytes "670429"),
        some (Float64.round 364922 100)⟩ ∧
    int64Text (bytes "364922") 364922 ∧
    ∃ b, ParseBarcode (bytes "|099400016550100\r123456789012\r670429\r364922") = .ok b ∧
      b.BillerID = bytes "099400016550100" ∧ b.Ref1 = bytes "123456789012" ∧
      (b.Amount.isSome = true ↔ bytes "364922" ≠ bytes "0") :=
  have hint : int64Text (bytes "364922") 364922 :=
    ⟨[], bytes "364922", rfl, Or.inl rfl, by decide, by decide, by decide, by decide,
      by decide⟩
  ⟨by decide!, by decide!, by decide!, by decide!, hint,
    (C31_parseBarcode_cases (bytes "|099400016550100\r123456789012\r670429\r364922")).2.2.2.2
      (bytes "099400016550100") (bytes "123456789012") (bytes "670429") (bytes "364922")
      (by decide) (by decide) (by decide) (by decide) (by decide)
      (Or.inr ⟨364922, hint⟩)⟩

/-- C40: for every BOT barcode `b` with no amount, whose Ref2 is absent or a non-empty
string, and whose BillerID, Ref1 and Ref2 hold no carriage return, `ParseBarcode` of
`String b` succeeds and returns `b`. -/
theorem C40_barcode_roundtrip_no_amount (b : BOTBarcode Float64) (ha : b.Amount = none)
    (hr2 : b.Ref2 ≠ some []) (h1 : 13 ∉ b.BillerID) (h2 : 13 ∉ b.Ref1)
    (h3 : ∀ r, b.Ref2 = some r → 13 ∉ r) :
    ParseBarcode (b.String minorUnits) = .ok b := by
  obtain ⟨billerID, ref1, ref2, amount⟩ := b
  simp only at ha hr2 h1 h2 h3
  subst ha
  have hf : ∀ f2 : List Nat, 13 ∉ f2 →
      Split (billerID ++ 13 :: (ref1 ++ 13 :: (f2 ++ 13 :: bytes "0"))) 13 =
        [billerID, ref1, f2, bytes "0"] := by
    intro f2 hf2
    rw [split_append _ _ _ h1, split_append _ _ _ h2, split_append _ _ _ hf2,
      split_no_sep _ _ (by decide)]
  cases ref2 with
  | none =>
    have hs := hf [] (by simp)
    simp only [List.nil_append] at hs
    simp [ParseBarcode, BOTBarcodeFromString, BOTBarcode.String, bytes, List.isPrefixOf] at hs ⊢
    simp [hs]
  | some r =>
    have hr : r ≠ [] := fun h0 => hr2 (by rw [h0])
    have hs := hf r (h3 r rfl)
    simp [ParseBarcode, BOTBarcodeFromString, BOTBarcode.String, bytes, List.isPrefixOf] at hs ⊢
    simp [hs, hr, List.length_pos]

theorem C40_witness :
    ParseBarcode (BOTBarcode.String minorUnits
        ⟨bytes "099999999999990", bytes "111222333444", some (bytes "REF2"), none⟩) =
      .ok ⟨bytes "099999999999990", bytes "111222333444", some (bytes "REF2"), none⟩ :=
  C40_barcode_roundtrip_no_amount
    ⟨bytes "099999999999990", bytes "111222333444", some (bytes "REF2"), none⟩
    rfl (by decide) (by decide) (by decide)
    (fun r hr => by
      have hr1 : r = bytes "REF2" := (Option.some.inj hr).symm
      rw [hr1]
      decide)

theorem digitChar_toNat : ∀ k < 10, (Nat.digitChar k).toNat = 48 + k := by decide

/-- The digits that `Nat.toDigitsCore` puts in front of its accumulator are decimal digits
that `atoiDigits` reads back as the number. -/
theorem toDigitsCore_spec : ∀ (fuel n : Nat) (ds : List Char), n < fuel →
    ∃ pre, Nat.toDigitsCore 10 fuel n ds = pre ++ ds ∧ pre ≠ [] ∧
      (∀ c ∈ pre, isDigit c.toNat = true) ∧
      ∀ (acc : Nat) (rest : List Nat),
        atoiDigits (pre.map Char.toNat ++ rest) acc =
          atoiDigits rest (acc * 10 ^ pre.length + n) := by
  intro fuel
  induction fuel with
  | zero => intro n ds h; omega
  | succ fuel ih =>
    intro n ds h
    have hd := digitChar_toNat (n % 10) (Nat.mod_lt _ (by omega))
    have hdig : isDigit (Nat.digitChar (n % 10)).toNat = true := by
      have := Nat.mod_lt n (by omega : 10 > 0)
      simp only [hd, isDigit, Bool.and_eq_true, decide_eq_true_eq]
      omega
    have step : ∀ (acc : Nat) (rest : List Nat),
        atoiDigits ((Nat.digitChar (n % 10)).toNat :: rest) acc =
          atoiDigits rest (acc * 10 + n % 10) := by
      intro acc rest
      rw [atoiDigits, if_pos hdig, hd]
      congr 1
      omega
    by_cases h0 : n / 10 = 0
    · refine ⟨[Nat.digitChar (n % 10)], ?_, by simp, ?_, ?_⟩
      · simp [Nat.toDigitsCore, h0]
      · intro c hc
        rw [List.mem_singleton.mp hc]
        exact hdig
      · intro acc rest
        have hn : n % 10 = n := Nat.mod_eq_of_lt (by omega)
        simp only [List.map_cons, List.map_nil, List.cons_append, List.nil_append,
          List.length_singleton, pow_one]
        rw [step, hn]
    · have hlt : n / 10 < fuel := by omega
      obtain ⟨pre, h1, h2, h3, h4⟩ := ih (n / 10) (Nat.digitChar (n % 10) :: ds) hlt
      refine ⟨pre ++ [Nat.digitChar (n % 10)], ?_, by simp, ?_, ?_⟩
      · simp [Nat.toDigitsCore, h0, h1]
      · intro c hc
        rcases List.mem_append.mp hc with hc | hc
        · exact h3 c hc
        · rw [List.mem_singleton.mp hc]
          exact hdig
      · intro acc rest
        have h5 := h4 acc ((Nat.digitChar (n % 10)).toNat :: rest)
        simp only [List.map_append, List.map_cons, List.map_nil, List.append_assoc,
          List.cons_append, List.nil_append, List.length_append, List.length_singleton]
        rw [h5, step]
        congr 1
        have hdm := Nat.div_add_mod n 10
        have e : acc * 10 ^ (pre.length + 1) = acc * 10 ^ pre.length * 10 := by
          rw [pow_succ, Nat.mul_assoc]
        rw [e]
        generalize acc * 10 ^ pre.length = x
        omega

/-- The decimal text of a natural number: not empty, only digits, read back by
`atoiDigits`. -/
theorem decimal_spec (n : Nat) :
    decimal n ≠ [] ∧ (∀ c ∈ decimal n, isDigit c = true) ∧
      atoiDigits (decimal n) 0 = some n := by
  obtain ⟨pre, h1, h2, h3, h4⟩ := toDigitsCore_spec (n + 1) n [] (by omega)
  have hdec : decimal n = pre.map Char.toNat := by
    simp only [decimal, Nat.toDigits, h1, List.append_nil]
  refine ⟨?_, ?_, ?_⟩
  · rw [hdec]
    simpa using h2
  · intro c hc
    rw [hdec] at hc
    obtain ⟨d, hd, rfl⟩ := List.mem_map.mp hc
    exact h3 d hd
  · have h5 := h4 0 []
    simp only [List.append_nil, zero_mul, zero_add] at h5
    rw [hdec, h5]
    rfl

theorem formatInt_parse (n : Int) (h1 : -2 ^ 63 ≤ n) (h2 : n < 2 ^ 63) :
    ParseInt (FormatInt n) = some n := by
  by_cases hn : n < 0
  · obtain ⟨ha, _, hc⟩ := decimal_spec n.natAbs
    have hne : (decimal n.natAbs).isEmpty = false := by
      cases hd : decimal n.natAbs with
      | nil => exact absurd hd ha
      | cons a r => rfl
    have hle : ¬ (n.natAbs > 2 ^ 63) := by omega
    simp only [FormatInt, if_pos hn, ParseInt, true_or, if_true, hne, Bool.false_eq_true,
      if_false, hc, if_neg hle]
    congr 1
    omega
  · obtain ⟨ha, hb, hc⟩ := decimal_spec n.toNat
    cases hd : decimal n.toNat with
    | nil => exact absurd hd ha
    | cons a r =>
      have hdig := hb a (by rw [hd]; exact List.mem_cons_self _ _)
      simp only [isDigit, Bool.and_eq_true, decide_eq_true_eq] at hdig
      have h45 : a ≠ 45 := by omega
      have h43 : a ≠ 43 := by omega
      have hlt : ¬ (n.toNat ≥ 2 ^ 63) := by omega
      rw [hd] at hc
      simp only [FormatInt, if_neg hn, hd, ParseInt, h45, h43, or_self, if_false,
        List.isEmpty_cons, Bool.false_eq_true, hc, if_neg hlt]
      congr 1
      omega

theorem formatInt_zero_iff (n : Int) : FormatInt n = bytes "0" ↔ n = 0 := by
  constructor
  · intro h
    by_cases hn : n < 0
    · simp only [FormatInt, if_pos hn] at h
      exact absurd h (by simp [bytes])
    · simp only [FormatInt, if_neg hn] at h
      have hc := (decimal_spec n.toNat).2.2
      rw [h] at hc
      have h0 : atoiDigits (bytes "0") 0 = some 0 := by decide
      rw [h0] at hc
      have := Option.some.inj hc
      omega
  · intro h
    subst h
    decide

theorem formatInt_no_cr (n : Int) : 13 ∉ FormatInt n := by
  intro h
  have key : ∀ m : Nat, 13 ∉ decimal m := by
    intro m hm
    have := (decimal_spec m).2.1 13 hm
    simp [isDigit] at this
  by_cases hn : n < 0
  · simp only [FormatInt, if_pos hn, List.mem_cons] at h
    rcases h with h | h
    · omega
    · exact key _ h
  · simp only [FormatInt, if_neg hn] at h
    exact key _ h

theorem minorUnits_range (a : Float64) : -2 ^ 63 ≤ minorUnits a ∧ minorUnits a < 2 ^ 63 := by
  unfold minorUnits Float64.toInt64
  simp only
  split_ifs with h
  · exact h
  · constructor <;> norm_num

/-- C32 (counterexample): the barcode with the present amount zero and the barcode without
amount have the same `String`, and `ParseBarcode` of it has no amount. -/
theorem C32_counterexample :
    BOTBarcode.String minorUnits
        ⟨bytes "099999999999990", bytes "111222333444", none, some (Float64.ofInt 0)⟩ =
      BOTBarcode.String minorUnits
        ⟨bytes "099999999999990", bytes "111222333444", none, none⟩ ∧
    ParseBarcode (BOTBarcode.String minorUnits
        ⟨bytes "099999999999990", bytes "111222333444", none, some (Float64.ofInt 0)⟩) =
      .ok ⟨bytes "099999999999990", bytes "111222333444", none, none⟩ := by
  refine ⟨by decide!, by decide!⟩

/-- C32 (amended): for a BOT barcode whose BillerID, Ref1 and Ref2 hold no carriage
return, `String` gives the same text as for the barcode without amount exactly when the
amount is absent or its minor-unit value `int64(amount * 100)` is zero, and `ParseBarcode`
of `String b` succeeds and has an amount exactly when `b` has one whose minor-unit value is
not zero. -/
theorem C32_amount_presence (b : BOTBarcode Float64) (h1 : 13 ∉ b.BillerID)
    (h2 : 13 ∉ b.Ref1) (h3 : ∀ r, b.Ref2 = some r → 13 ∉ r) :
    (b.String minorUnits = BOTBarcode.String minorUnits ⟨b.BillerID, b.Ref1, b.Ref2, none⟩ ↔
      ∀ a, b.Amount = some a → minorUnits a = 0) ∧
    ∃ b1, ParseBarcode (b.String minorUnits) = .ok b1 ∧
      (b1.Amount.isSome = true ↔ ∃ a, b.Amount = some a ∧ minorUnits a ≠ 0) := by
  obtain ⟨billerID, ref1, ref2, amount⟩ := b
  simp only at h1 h2 h3
  have hf2 : 13 ∉ (match ref2 with
      | some r => r
      | none => []) := by
    cases ref2 with
    | none => simp
    | some r => exact h3 r rfl
  cases amount with
  | none =>
    refine ⟨by simp, ?_⟩
    have hp := parse_four_fields billerID ref1 _ (bytes "0") h1 h2 hf2 (by decide)
    rw [if_neg (by simp)] at hp
    exact ⟨_, hp, by simp⟩
  | some a =>
    have hcr := formatInt_no_cr (minorUnits a)
    have hp := parse_four_fields billerID ref1 _ (FormatInt (minorUnits a)) h1 h2 hf2 hcr
    by_cases hz : minorUnits a = 0
    · have hfz := (formatInt_zero_iff _).mpr hz
      rw [if_neg (by simp [hfz])] at hp
      refine ⟨⟨fun _ a1 ha1 => ?_, fun _ => ?_⟩, _, hp, ?_⟩
      · cases ha1
        exact hz
      · simp only [BOTBarcode.String, hfz]
      · simp [hz]
    · have hfz : FormatInt (minorUnits a) ≠ bytes "0" :=
        fun h => hz ((formatInt_zero_iff _).mp h)
      have hr := minorUnits_range a
      rw [if_pos hfz, formatInt_parse _ hr.1 hr.2] at hp
      refine ⟨⟨fun h => ?_, fun h => absurd (h a rfl) hz⟩, _, hp, ?_⟩
      · simp only [BOTBarcode.String, List.append_cancel_left_eq] at h
        exact absurd h hfz
      · simp [hz]

theorem C32_witness :
    (13 ∉ bytes "099999999999990" ∧ 13 ∉ bytes "111222333444" ∧
      minorUnits (Float64.round 10050 100) = 10050) ∧
    ((BOTBarcode.String minorUnits ⟨bytes "099999999999990", bytes "111222333444",
          some (bytes "REF2"), some (Float64.round 10050 100)⟩ =
        BOTBarcode.String minorUnits ⟨bytes "099999999999990", bytes "111222333444",
          some (bytes "REF2"), none⟩ ↔
        ∀ a, some (Float64.round 10050 100) = some a → minorUnits a = 0) ∧
      ∃ b1, ParseBarcode (BOTBarcode.String minorUnits ⟨bytes "099999999999990",
          bytes "111222333444", some (bytes "REF2"), some (Float64.round 10050 100)⟩) = .ok b1 ∧
        (b1.Amount.isSome = true ↔
          ∃ a, some (Float64.round 10050 100) = some a ∧ minorUnits a ≠ 0)) :=
  ⟨⟨by decide, by decide, by decide!⟩,
    C32_amount_presence ⟨bytes "099999999999990", bytes "111222333444",
      some (bytes "REF2"), some (Float64.round 10050 100)⟩ (by decide) (by decide)
      (fun r hr => by
        have hr1 : r = bytes "REF2" := (Option.some.inj hr).symm
        rw [hr1]
        decide)⟩

/-- C33: on the barcode string with the amount field `29` the code returns the amount
0.28 (the float64 nearest to 28/100), not 0.29, because `int64(amount * 100)` discards the
fraction of 28.999999999999996; `String` of the parsed barcode ends in `28` and differs
from the original string. On the string of the test, with the amount field `364922`, the
amount is the float64 nearest to 3649.22 and `String` reproduces the original. -/
theorem C33_amount_29_becomes_28 :
    ParseBarcode (bytes "|099400016550100\r123456789012\r670429\r29") =
      .ok ⟨bytes "099400016550100", bytes "123456789012", some (bytes "670429"),
        some (Float64.round 28 100)⟩ ∧
    Float64.round 28 100 ≠ Float64.round 29 100 ∧
    Float64.mul (Float64.round 29 100) (Float64.ofInt 100) =
      ⟨8162774324609023, -48⟩ ∧
    Float64.toInt64 ⟨8162774324609023, -48⟩ = 28 ∧
    BOTBarcode.String minorUnits ⟨bytes "099400016550100", bytes "123456789012",
        some (bytes "670429"), some (Float64.round 28 100)⟩ =
      bytes "|099400016550100\r123456789012\r670429\r28" ∧
    ParseBarcode (bytes "|099400016550100\r123456789012\r670429\r364922") =
      .ok ⟨bytes "099400016550100", bytes "123456789012", some (bytes "670429"),
        some (Float64.round 364922 100)⟩ ∧
    BOTBarcode.String minorUnits ⟨bytes "099400016550100", bytes "123456789012",
        some (bytes "670429"), some (Float64.round 364922 100)⟩ =
      bytes "|099400016550100\r123456789012\r670429\r364922" := by
  refine ⟨by decide!, by decide!, by decide!, by decide!, by decide!, by decide!, by decide!⟩

end ThaiQR
